import Mathlib

/-!
# CEIM kernel (`src/ceim/CeimKernel.hpp`)

Shallow embedding of the limit resolver `computeSupremeConcentration` and of the
per-sample accumulator `updateCeimNode`, and of the flattened accumulator
`updateNodeImpact` (`src/ceimxj/runtime/ceim_node_aggregator.h`).

The kernel is embedded twice, statement by statement, over two readings of `double`.

* Namespace `EcoNet`: a `double` is an exact rational number (`ℚ`).  This reading
  carries the statements about the control flow and the frame of the kernel (which
  branch a call takes, which fields it writes, what it leaves after a `throw`) and about
  the formulas the source writes down, at inputs where every test of the source is
  decided by the order of the rationals.  It says nothing on rounding, infinities or
  NaN.  The flattened variant `updateNodeImpact` divides by `flow` without a guard, so
  in this reading it is used at a non-zero flow only.
* Namespace `EcoNet.F64`: a `double` is a binary64 value `Dbl`, that is NaN, an
  infinity, or a finite rational.  Every arithmetic operation computes the exact result
  and rounds it with `round64`: round to nearest, ties to even, 53 significant bits,
  gradual underflow below `2 ^ (-1022)` and overflow to an infinity from `2 ^ 1024`;
  invalid operations (`0 * ∞`, `∞ - ∞`, `0 / 0`, `∞ / ∞`) give NaN, and every comparison
  with NaN is false.  The predicate `Dbl.IsValue` tells the finite rationals that are
  binary64 numbers.  The two zeros are identified: their sign only shows in a division
  by zero, which `CeimKernel.hpp` never evaluates (`IR_Lps > 0`, `flow > 0` and
  `Csup > 0` guard its quotients) and which the statements on `updateNodeImpact` exclude
  by asking for `flow > 0`.  The statements whose truth depends on rounding, underflow,
  overflow or NaN are settled in this reading.

In both readings:

* `std::exp` is a library function; it is a parameter `exp` of the accumulators.
  Theorems that need a property of the exponential ask for it as a hypothesis, and the
  examples are evaluated with a stand-in.
* A `throw` is the `Except.error` result.  A function that mutates its argument
  in place returns the state it leaves behind together with its result, so the
  state after a thrown exception is visible too.
-/

namespace EcoNet

/-- Exceptions of the kernel: `std::runtime_error` carrying its message. -/
inductive Error where
  | runtime_error (what : String)
  deriving DecidableEq, Repr

/-- The exception `computeSupremeConcentration` throws when `n == 0`. -/
def noAdmissibleLimits : Error :=
  Error.runtime_error "No admissible jurisdictional limits."

/-- One sensor reading. -/
structure SensorSample where
  concentration : ℚ
  flow : ℚ
  timestamp : ℚ
  deriving DecidableEq, Repr

/-- Regulatory reference values of one contaminant. -/
structure JurisdictionRefs where
  Cref_EPA : ℚ
  Cref_EU : ℚ
  Cref_WHO : ℚ
  IR : ℚ
  BW : ℚ
  deriving DecidableEq, Repr

/-- The function `std::max(a, b)`: `(a < b) ? b : a`. -/
def stdMax (a b : ℚ) : ℚ := if a < b then b else a

/-- The function `std::min(a, b)`: `(b < a) ? b : a`. -/
def stdMin (a b : ℚ) : ℚ := if b < a then b else a

/-- Loop of `std::min_element`: `smallest` is the least element seen so far, and is
replaced only by a strictly smaller one. -/
def minElementFrom (smallest : ℚ) : List ℚ → ℚ
  | [] => smallest
  | x :: rest => minElementFrom (if x < smallest then x else smallest) rest

/-- The value `IR_Lps` of `computeSupremeConcentration`. -/
def irLps (jr : JurisdictionRefs) : ℚ := jr.IR / 86400

/-- The local `dose_WHO` of `computeSupremeConcentration` after the guarded assignment. -/
def doseWHO (jr : JurisdictionRefs) : ℚ :=
  if jr.Cref_WHO > 0 ∧ jr.BW > 0 ∧ irLps jr > 0 then
    jr.Cref_WHO * jr.BW / irLps jr
  else 0

/-- The array `limits[0..n)` that `computeSupremeConcentration` fills, in the order of
its three `limits[n++] = ...` statements. -/
def admissibleLimits (jr : JurisdictionRefs) (flow_m3s : ℚ) : List ℚ :=
  let Q := stdMax flow_m3s 0
  let dose_WHO := doseWHO jr
  (if jr.Cref_EPA > 0 then [jr.Cref_EPA] else [])
    ++ (if jr.Cref_EU > 0 ∧ Q > 0 then [jr.Cref_EU] else [])
    ++ (if dose_WHO > 0 then [dose_WHO] else [])

/-- Embedding of `computeSupremeConcentration`: throws when no limit was collected
(`n == 0`), otherwise returns `*std::min_element(limits, limits + n)`. -/
def computeSupremeConcentration (jr : JurisdictionRefs) (flow_m3s : ℚ) : Except Error ℚ :=
  match admissibleLimits jr flow_m3s with
  | [] => Except.error noAdmissibleLimits
  | x :: rest => Except.ok (minElementFrom x rest)

/-- Accumulator state of one node and contaminant. -/
structure CeimNodeState where
  nodeId : String
  contaminantId : String
  hazardWeight : ℚ
  refs : JurisdictionRefs
  volume : ℚ
  k : ℚ
  Kn : ℚ
  t_last : ℚ
  has_last : Bool
  deriving DecidableEq, Repr

/-- The constructor `CeimNodeState::CeimNodeState()`.  It initialises the scalar fields
and leaves `refs` to the caller (the C++ constructor does not assign it), so `refs` is an
argument here; the two strings are default-constructed, that is empty. -/
def CeimNodeState.fresh (refs : JurisdictionRefs) : CeimNodeState :=
  { nodeId := "", contaminantId := "", hazardWeight := 1, refs := refs,
    volume := 0, k := 0, Kn := 0, t_last := 0, has_last := false }

/-- Embedding of `updateCeimNode`.  The first component is the state the call leaves
behind, the second is the returned value or the exception that escapes. -/
def updateCeimNode (exp : ℚ → ℚ) (st : CeimNodeState) (s : SensorSample) :
    CeimNodeState × Except Error ℚ :=
  if !st.has_last then
    let st1 := { st with t_last := s.timestamp, has_last := true }
    (st1, Except.ok st1.Kn)
  else
    let dt := s.timestamp - st.t_last
    if dt ≤ 0 ∨ s.flow ≤ 0 then
      let st1 := { st with t_last := s.timestamp }
      (st1, Except.ok st1.Kn)
    else
      let tau := if st.volume > 0 then st.volume / s.flow else 0
      let Cout_model :=
        if st.k > 0 then s.concentration * exp (-st.k * tau) else s.concentration
      match computeSupremeConcentration st.refs s.flow with
      | Except.error e => (st, Except.error e)
      | Except.ok Csup =>
        let Cout := stdMin Cout_model Csup
        let deltaC := s.concentration - Cout
        if deltaC ≤ 0 then
          let st1 := { st with t_last := s.timestamp }
          (st1, Except.ok st1.Kn)
        else
          let increment := st.hazardWeight * (deltaC / Csup) * s.flow * dt
          let st1 := { st with Kn := st.Kn + increment }
          let st2 := { st1 with t_last := s.timestamp }
          (st2, Except.ok st2.Kn)

/-- A computable stand-in for the exponential, used to evaluate the kernel on concrete
inputs: `1 / (1 - x)` for `x ≤ 0` and `1 + x` for `x > 0`.  Like the exponential it is
positive, increasing, equal to `1` at `0` and at most `1` on non-positive arguments. -/
def expQ (x : ℚ) : ℚ := if x ≤ 0 then 1 / (1 - x) else 1 + x

/-- Residence time in the words of the specification: `volume / flow` if `volume > 0`,
else `0`. -/
def specTau (st : CeimNodeState) (s : SensorSample) : ℚ :=
  if 0 < st.volume then st.volume / s.flow else 0

/-- Modelled outflow concentration in the words of the specification:
`concentration * exp(-k * tau)` if `k > 0`, else `concentration`. -/
def specCoutModel (exp : ℚ → ℚ) (st : CeimNodeState) (s : SensorSample) : ℚ :=
  if 0 < st.k then s.concentration * exp (-st.k * specTau st s) else s.concentration

/-- Exceedance in the words of the specification: `deltaC = concentration - Cout` with
`Cout = min(Cout_model, Csup)`. -/
def specDeltaC (exp : ℚ → ℚ) (st : CeimNodeState) (s : SensorSample) (Csup : ℚ) : ℚ :=
  s.concentration - min (specCoutModel exp st s) Csup

/-! ### The flattened variant (`ceim_node_aggregator.h`) -/

/-- Accumulator state of the flattened variant: the jurisdiction references are
individual scalar fields. -/
structure NodeImpactState where
  nodeId : String
  contaminantId : String
  hazardWeight : ℚ
  Cepa : ℚ
  Leu : ℚ
  Dwho : ℚ
  IR : ℚ
  BW : ℚ
  k : ℚ
  volume : ℚ
  Kn : ℚ
  tlast : ℚ
  haslast : Bool
  deriving DecidableEq, Repr

/-- Modelled from the spec: the six-argument `computeSupremeConcentration(Cepa, Leu,
Dwho, flow, IR, BW)` that `updateNodeImpact` calls is not among the sources.  The
specification describes the two variants as the same logic with different field naming,
so the call is the resolver of `CeimKernel.hpp` on the references grouped from the
scalar fields. -/
def computeSupremeConcentration6 (Cepa Leu Dwho flow IR BW : ℚ) : Except Error ℚ :=
  computeSupremeConcentration
    { Cref_EPA := Cepa, Cref_EU := Leu, Cref_WHO := Dwho, IR := IR, BW := BW } flow

/-- Embedding of `updateNodeImpact`.  The first component is the state the call leaves
behind, the second is the returned value or the exception that escapes.  Unlike
`updateCeimNode` it tests only `dt <= 0.0` before integrating, and computes `tau` and
`Cout_model` without looking at the signs of `volume` and `k`. -/
def updateNodeImpact (exp : ℚ → ℚ) (st : NodeImpactState) (s : SensorSample) :
    NodeImpactState × Except Error ℚ :=
  if !st.haslast then
    let st1 := { st with tlast := s.timestamp, haslast := true }
    (st1, Except.ok st1.Kn)
  else
    let dt := s.timestamp - st.tlast
    if dt ≤ 0 then
      let st1 := { st with tlast := s.timestamp }
      (st1, Except.ok st1.Kn)
    else
      let tau := st.volume / s.flow
      let Cout_model := s.concentration * exp (-st.k * tau)
      match computeSupremeConcentration6 st.Cepa st.Leu st.Dwho s.flow st.IR st.BW with
      | Except.error e => (st, Except.error e)
      | Except.ok Csup =>
        let Cout := stdMin Cout_model Csup
        let deltaC := s.concentration - Cout
        if deltaC ≤ 0 then
          let st1 := { st with tlast := s.timestamp }
          (st1, Except.ok st1.Kn)
        else
          let increment := st.hazardWeight * (deltaC / Csup) * s.flow * dt
          let st1 := { st with Kn := st.Kn + increment }
          let st2 := { st1 with tlast := s.timestamp }
          (st2, Except.ok st2.Kn)

/-- The local `deltaC` of `updateNodeImpact` once the resolver has returned `Csup`:
`tau` and `Cout_model` are computed without guards. -/
def flatDeltaC (exp : ℚ → ℚ) (st : NodeImpactState) (s : SensorSample) (Csup : ℚ) : ℚ :=
  s.concentration - stdMin (s.concentration * exp (-st.k * (st.volume / s.flow))) Csup

/-- A structured state and a flattened state correspond when they hold the same
`hazardWeight`, `Kn`, last timestamp, initialised flag, `volume` and `k`, and the
structured references are the flattened scalar fields `Cepa`, `Leu`, `Dwho`, `IR`, `BW`. -/
def Corresponds (st : CeimNodeState) (ft : NodeImpactState) : Prop :=
  st.hazardWeight = ft.hazardWeight ∧ st.Kn = ft.Kn ∧ st.t_last = ft.tlast ∧
    st.has_last = ft.haslast ∧ st.volume = ft.volume ∧ st.k = ft.k ∧
    st.refs =
      { Cref_EPA := ft.Cepa, Cref_EU := ft.Leu, Cref_WHO := ft.Dwho, IR := ft.IR,
        BW := ft.BW }

instance (st : CeimNodeState) (ft : NodeImpactState) : Decidable (Corresponds st ft) := by
  unfold Corresponds
  infer_instance

/-! ### Concrete inputs used to evaluate the kernel -/

/-- References with only `Cref_EPA = 1` set. -/
def epaOnlyRefs : JurisdictionRefs :=
  { Cref_EPA := 1, Cref_EU := 0, Cref_WHO := 0, IR := 0, BW := 0 }

/-- References with nothing set: no limit is admissible at any flow. -/
def unsetRefs : JurisdictionRefs :=
  { Cref_EPA := 0, Cref_EU := 0, Cref_WHO := 0, IR := 0, BW := 0 }

/-- A node that has seen a first sample at time `0`: `hazardWeight = 3`, no kinetic
model (`volume = 0`, `k = 0`), only `Cref_EPA = 1` set, `Kn = 0`. -/
def startedState : CeimNodeState :=
  { nodeId := "n1", contaminantId := "x", hazardWeight := 3, refs := epaOnlyRefs,
    volume := 0, k := 0, Kn := 0, t_last := 0, has_last := true }

/-- The same node with the kinetic model switched on: `volume = 1`, `k = 1`. -/
def kineticState : CeimNodeState :=
  { startedState with volume := 1, k := 1 }

/-- The same node with references that admit no limit. -/
def misconfiguredState : CeimNodeState :=
  { startedState with refs := unsetRefs }

/-- The state a freshly constructed node is configured to in the end-to-end scenario of
the specification: `hazardWeight = 3`, `volume = 0`, `k = 0`, only `Cref_EPA = 1` set. -/
def scenarioState : CeimNodeState :=
  { CeimNodeState.fresh epaOnlyRefs with hazardWeight := 3 }

/-- The flattened counterpart of `startedState`: `hazardWeight = 3`, `Cepa = 1`, no
kinetic model, `Kn = 0`, a first sample seen at time `0`. -/
def startedFlatState : NodeImpactState :=
  { nodeId := "n1", contaminantId := "x", hazardWeight := 3, Cepa := 1, Leu := 0,
    Dwho := 0, IR := 0, BW := 0, k := 0, volume := 0, Kn := 0, tlast := 0,
    haslast := true }

/-! ### The kernel in binary64 arithmetic -/

namespace F64

/-- A binary64 value: NaN, an infinity with its sign, or a finite value given by the
rational number it denotes.  The two zeros are identified. -/
inductive Dbl where
  | nan : Dbl
  | inf (neg : Bool) : Dbl
  | fin (q : ℚ) : Dbl
  deriving DecidableEq, Repr

/-- Rounding of a rational to the nearest integer, ties to the even one. -/
def rne (x : ℚ) : ℤ :=
  if x - ⌊x⌋ < 1 / 2 then ⌊x⌋
  else if 1 / 2 < x - ⌊x⌋ then ⌊x⌋ + 1
  else if ⌊x⌋ % 2 = 0 then ⌊x⌋ else ⌊x⌋ + 1

/-- Exponent of the binade of a positive rational `a`: `⌊log2 a⌋`, but at least `-1022`
(below `2 ^ (-1022)` the values are subnormal and share the exponent `-1022`). -/
def binade (a : ℚ) : ℤ := max (Int.log 2 a) (-1022)

/-- Unit in the last place of the binade of a positive rational `a`: 53 significant
bits, so `2 ^ (binade a - 52)`; for subnormal magnitudes this is `2 ^ (-1074)`. -/
def ulp (a : ℚ) : ℚ := 2 ^ (binade a - 52)

/-- A positive magnitude rounded to the nearest multiple of the unit in the last place
of its binade, ties to the even multiple. -/
def roundMag (a : ℚ) : ℚ := (rne (a / ulp a) : ℚ) * ulp a

/-- Rounding of an exact result to binary64, round-to-nearest, ties-to-even: the
magnitude is rounded in its binade, a rounded magnitude of `2 ^ 1024` or more is an
infinity, and the sign is kept. -/
def round64 (q : ℚ) : Dbl :=
  if q = 0 then Dbl.fin 0
  else if (2 : ℚ) ^ (1024 : ℤ) ≤ roundMag |q| then Dbl.inf (decide (q < 0))
  else if q < 0 then Dbl.fin (-roundMag |q|)
  else Dbl.fin (roundMag |q|)

namespace Dbl

/-- A numeric literal `n` denotes the finite value `n`. -/
instance (n : ℕ) : OfNat Dbl n := ⟨fin n⟩

/-- The comparison `x < y` of doubles: false as soon as an operand is NaN. -/
def lt : Dbl → Dbl → Prop
  | fin a, fin b => a < b
  | fin _, inf n => n = false
  | inf n, fin _ => n = true
  | inf n, inf m => n = true ∧ m = false
  | _, _ => False

/-- The comparison `x <= y` of doubles: false as soon as an operand is NaN. -/
def le : Dbl → Dbl → Prop
  | fin a, fin b => a ≤ b
  | fin _, inf n => n = false
  | inf n, fin _ => n = true
  | inf n, inf m => n = true ∨ m = false
  | _, _ => False

/-- The operators `<` and `<=` of C++ on doubles. -/
instance : LT Dbl := ⟨lt⟩
instance : LE Dbl := ⟨le⟩

/-- The comparison `<` is decidable. -/
instance decLt : (x y : Dbl) → Decidable (x < y)
  | fin a, fin b => inferInstanceAs (Decidable (a < b))
  | fin _, inf n => inferInstanceAs (Decidable (n = false))
  | inf n, fin _ => inferInstanceAs (Decidable (n = true))
  | inf n, inf m => inferInstanceAs (Decidable (n = true ∧ m = false))
  | nan, _ => isFalse (fun h => h)
  | fin _, nan => isFalse (fun h => h)
  | inf _, nan => isFalse (fun h => h)

/-- The comparison `<=` is decidable. -/
instance decLe : (x y : Dbl) → Decidable (x ≤ y)
  | fin a, fin b => inferInstanceAs (Decidable (a ≤ b))
  | fin _, inf n => inferInstanceAs (Decidable (n = false))
  | inf n, fin _ => inferInstanceAs (Decidable (n = true))
  | inf n, inf m => inferInstanceAs (Decidable (n = true ∨ m = false))
  | nan, _ => isFalse (fun h => h)
  | fin _, nan => isFalse (fun h => h)
  | inf _, nan => isFalse (fun h => h)

/-- Unary minus. -/
def neg : Dbl → Dbl
  | nan => nan
  | inf n => inf (!n)
  | fin a => fin (-a)

/-- Addition: the exact sum, rounded; opposite infinities give NaN. -/
def add : Dbl → Dbl → Dbl
  | fin a, fin b => round64 (a + b)
  | fin _, inf n => inf n
  | inf n, fin _ => inf n
  | inf n, inf m => if n = m then inf n else nan
  | _, _ => nan

/-- Multiplication: the exact product, rounded; zero times an infinity is NaN. -/
def mul : Dbl → Dbl → Dbl
  | fin a, fin b => round64 (a * b)
  | fin a, inf n => if a = 0 then nan else inf (xor n (decide (a < 0)))
  | inf n, fin b => if b = 0 then nan else inf (xor n (decide (b < 0)))
  | inf n, inf m => inf (xor n m)
  | _, _ => nan

/-- Division: the exact quotient, rounded; `∞ / ∞` and `0 / 0` are NaN, a finite value
over an infinity is zero.  A non-zero value over zero is an infinity whose sign is that
of the dividend, the divisor being read as `+0`: the sign of a zero is not represented. -/
def div : Dbl → Dbl → Dbl
  | fin a, fin b =>
    if b = 0 then (if a = 0 then nan else inf (decide (a < 0))) else round64 (a / b)
  | fin _, inf _ => fin 0
  | inf n, fin b => inf (xor n (decide (b < 0)))
  | _, _ => nan

/-- The operators `-x`, `x + y`, `x - y` (as `x + (-y)`), `x * y` and `x / y` of C++ on
doubles. -/
instance : Neg Dbl := ⟨neg⟩
instance : Add Dbl := ⟨add⟩
instance : Sub Dbl := ⟨fun x y => add x (neg y)⟩
instance : Mul Dbl := ⟨mul⟩
instance : Div Dbl := ⟨div⟩

/-- The value is a binary64 number: NaN, an infinity, or a rational that rounding
leaves unchanged. -/
def IsValue : Dbl → Prop
  | fin q => round64 q = fin q
  | _ => True

/-- Whether a value is a binary64 number is decidable. -/
instance : (x : Dbl) → Decidable x.IsValue
  | fin q => inferInstanceAs (Decidable (round64 q = fin q))
  | nan => isTrue trivial
  | inf _ => isTrue trivial

end Dbl

open Dbl

/-- One sensor reading, in doubles. -/
structure SensorSample where
  concentration : Dbl
  flow : Dbl
  timestamp : Dbl
  deriving DecidableEq, Repr

/-- Regulatory reference values of one contaminant, in doubles. -/
structure JurisdictionRefs where
  Cref_EPA : Dbl
  Cref_EU : Dbl
  Cref_WHO : Dbl
  IR : Dbl
  BW : Dbl
  deriving DecidableEq, Repr

/-- The function `std::max(a, b)`: `(a < b) ? b : a`. -/
def stdMax (a b : Dbl) : Dbl := if a < b then b else a

/-- The function `std::min(a, b)`: `(b < a) ? b : a`. -/
def stdMin (a b : Dbl) : Dbl := if b < a then b else a

/-- The loop of `std::min_element` on doubles: keeps the first smallest element, an
element replacing the current one only when it compares `<` to it. -/
def minElementFrom (smallest : Dbl) : List Dbl → Dbl
  | [] => smallest
  | x :: rest => minElementFrom (if x < smallest then x else smallest) rest

/-- The local `IR_Lps = jr.IR / 86400.0`, one rounded division. -/
def irLps (jr : JurisdictionRefs) : Dbl := jr.IR / 86400

/-- The local `dose_WHO`: `Cref_WHO * BW / IR_Lps` (a rounded product, then a rounded
quotient) when `Cref_WHO > 0 && BW > 0 && IR_Lps > 0`, else `0.0`. -/
def doseWHO (jr : JurisdictionRefs) : Dbl :=
  if jr.Cref_WHO > 0 ∧ jr.BW > 0 ∧ irLps jr > 0 then
    jr.Cref_WHO * jr.BW / irLps jr
  else 0

/-- The array `limits[0..n)` that `computeSupremeConcentration` fills, in the order of
the source, with `Q = std::max(flow_m3s, 0.0)`. -/
def admissibleLimits (jr : JurisdictionRefs) (flow_m3s : Dbl) : List Dbl :=
  let Q := stdMax flow_m3s 0
  let dose_WHO := doseWHO jr
  (if jr.Cref_EPA > 0 then [jr.Cref_EPA] else [])
    ++ (if jr.Cref_EU > 0 ∧ Q > 0 then [jr.Cref_EU] else [])
    ++ (if dose_WHO > 0 then [dose_WHO] else [])

/-- The function `computeSupremeConcentration` on doubles: throws when `n == 0`, else
returns `*std::min_element(limits, limits + n)`. -/
def computeSupremeConcentration (jr : JurisdictionRefs) (flow_m3s : Dbl) : Except Error Dbl :=
  match admissibleLimits jr flow_m3s with
  | [] => Except.error noAdmissibleLimits
  | x :: rest => Except.ok (minElementFrom x rest)

/-- The struct `CeimNodeState`, in doubles. -/
structure CeimNodeState where
  nodeId : String
  contaminantId : String
  hazardWeight : Dbl
  refs : JurisdictionRefs
  volume : Dbl
  k : Dbl
  Kn : Dbl
  t_last : Dbl
  has_last : Bool
  deriving DecidableEq, Repr

/-- The state the constructor of `CeimNodeState` leaves, for given references. -/
def CeimNodeState.fresh (refs : JurisdictionRefs) : CeimNodeState :=
  { nodeId := "", contaminantId := "", hazardWeight := 1, refs := refs,
    volume := 0, k := 0, Kn := 0, t_last := 0, has_last := false }

/-- The function `updateCeimNode` on doubles, statement by statement: the state left
behind and the value returned or the exception thrown.  `exp` stands for `std::exp`. -/
def updateCeimNode (exp : Dbl → Dbl) (st : CeimNodeState) (s : SensorSample) :
    CeimNodeState × Except Error Dbl :=
  if !st.has_last then
    let st1 := { st with t_last := s.timestamp, has_last := true }
    (st1, Except.ok st1.Kn)
  else
    let dt := s.timestamp - st.t_last
    if dt ≤ 0 ∨ s.flow ≤ 0 then
      let st1 := { st with t_last := s.timestamp }
      (st1, Except.ok st1.Kn)
    else
      let tau := if st.volume > 0 then st.volume / s.flow else 0
      let Cout_model :=
        if st.k > 0 then s.concentration * exp (-st.k * tau) else s.concentration
      match computeSupremeConcentration st.refs s.flow with
      | Except.error e => (st, Except.error e)
      | Except.ok Csup =>
        let Cout := stdMin Cout_model Csup
        let deltaC := s.concentration - Cout
        if deltaC ≤ 0 then
          let st1 := { st with t_last := s.timestamp }
          (st1, Except.ok st1.Kn)
        else
          let increment := st.hazardWeight * (deltaC / Csup) * s.flow * dt
          let st1 := { st with Kn := st.Kn + increment }
          let st2 := { st1 with t_last := s.timestamp }
          (st2, Except.ok st2.Kn)

/-- The struct `NodeImpactState` of the flattened variant, in doubles. -/
structure NodeImpactState where
  nodeId : String
  contaminantId : String
  hazardWeight : Dbl
  Cepa : Dbl
  Leu : Dbl
  Dwho : Dbl
  IR : Dbl
  BW : Dbl
  k : Dbl
  volume : Dbl
  Kn : Dbl
  tlast : Dbl
  haslast : Bool
  deriving DecidableEq, Repr

/-- The six-argument resolver the flattened variant calls: `computeSupremeConcentration`
on the grouped scalar fields. -/
def computeSupremeConcentration6 (Cepa Leu Dwho flow IR BW : Dbl) : Except Error Dbl :=
  computeSupremeConcentration
    { Cref_EPA := Cepa, Cref_EU := Leu, Cref_WHO := Dwho, IR := IR, BW := BW } flow

/-- The function `updateNodeImpact` on doubles: it tests `dt <= 0.0` only, and computes
`tau = volume / flow` and `Cout_model = concentration * exp(-k * tau)` without guards. -/
def updateNodeImpact (exp : Dbl → Dbl) (st : NodeImpactState) (s : SensorSample) :
    NodeImpactState × Except Error Dbl :=
  if !st.haslast then
    let st1 := { st with tlast := s.timestamp, haslast := true }
    (st1, Except.ok st1.Kn)
  else
    let dt := s.timestamp - st.tlast
    if dt ≤ 0 then
      let st1 := { st with tlast := s.timestamp }
      (st1, Except.ok st1.Kn)
    else
      let tau := st.volume / s.flow
      let Cout_model := s.concentration * exp (-st.k * tau)
      match computeSupremeConcentration6 st.Cepa st.Leu st.Dwho s.flow st.IR st.BW with
      | Except.error e => (st, Except.error e)
      | Except.ok Csup =>
        let Cout := stdMin Cout_model Csup
        let deltaC := s.concentration - Cout
        if deltaC ≤ 0 then
          let st1 := { st with tlast := s.timestamp }
          (st1, Except.ok st1.Kn)
        else
          let increment := st.hazardWeight * (deltaC / Csup) * s.flow * dt
          let st1 := { st with Kn := st.Kn + increment }
          let st2 := { st1 with tlast := s.timestamp }
          (st2, Except.ok st2.Kn)

/-- The local `tau` of `updateCeimNode`. -/
def tauOf (st : CeimNodeState) (s : SensorSample) : Dbl :=
  if st.volume > 0 then st.volume / s.flow else 0

/-- The local `Cout_model` of `updateCeimNode`. -/
def coutModelOf (exp : Dbl → Dbl) (st : CeimNodeState) (s : SensorSample) : Dbl :=
  if st.k > 0 then s.concentration * exp (-st.k * tauOf st s) else s.concentration

/-- The local `deltaC` of `updateCeimNode` once the resolver has returned `Csup`. -/
def deltaCOf (exp : Dbl → Dbl) (st : CeimNodeState) (s : SensorSample) (Csup : Dbl) : Dbl :=
  s.concentration - stdMin (coutModelOf exp st s) Csup

/-- The local `increment` of `updateCeimNode` once the resolver has returned `Csup`. -/
def incrementOf (exp : Dbl → Dbl) (st : CeimNodeState) (s : SensorSample) (Csup : Dbl) :
    Dbl :=
  st.hazardWeight * (deltaCOf exp st s Csup / Csup) * s.flow * (s.timestamp - st.t_last)

/-- Runs `updateCeimNode` over a sequence of samples on the same state and records
the states met: the state before the first call, then the state after each call.  The
result is `none` as soon as one call throws. -/
def updateTrace (exp : Dbl → Dbl) :
    CeimNodeState → List SensorSample → Option (List CeimNodeState)
  | st, [] => some [st]
  | st, s :: rest =>
    match updateCeimNode exp st s with
    | (st1, Except.ok _) => (updateTrace exp st1 rest).map (fun tr => st :: tr)
    | (_, Except.error _) => none

/-- The local `deltaC` of `updateNodeImpact` once the resolver has returned `Csup`:
`tau` and `Cout_model` are computed without guards. -/
def flatDeltaCOf (exp : Dbl → Dbl) (st : NodeImpactState) (s : SensorSample) (Csup : Dbl) :
    Dbl :=
  s.concentration - stdMin (s.concentration * exp (-st.k * (st.volume / s.flow))) Csup

/-- The local `increment` of `updateNodeImpact` once the resolver has returned `Csup`. -/
def flatIncrementOf (exp : Dbl → Dbl) (st : NodeImpactState) (s : SensorSample)
    (Csup : Dbl) : Dbl :=
  st.hazardWeight * (flatDeltaCOf exp st s Csup / Csup) * s.flow * (s.timestamp - st.tlast)

/-- A structured state and a flattened state correspond when they hold the same
`hazardWeight`, `Kn`, last timestamp, initialised flag, `volume` and `k`, and the
structured references are the flattened scalar fields `Cepa`, `Leu`, `Dwho`, `IR`, `BW`. -/
def Corresponds (st : CeimNodeState) (ft : NodeImpactState) : Prop :=
  st.hazardWeight = ft.hazardWeight ∧ st.Kn = ft.Kn ∧ st.t_last = ft.tlast ∧
    st.has_last = ft.haslast ∧ st.volume = ft.volume ∧ st.k = ft.k ∧
    st.refs =
      { Cref_EPA := ft.Cepa, Cref_EU := ft.Leu, Cref_WHO := ft.Dwho, IR := ft.IR,
        BW := ft.BW }

instance (st : CeimNodeState) (ft : NodeImpactState) : Decidable (Corresponds st ft) := by
  unfold Corresponds
  infer_instance

/-- Stand-in for `std::exp` on doubles, used to evaluate examples: `1/2` at negative
arguments, `1` at `0`, `2` at positive ones, and the limits of the exponential at the
infinities; NaN at NaN. -/
def expStep : Dbl → Dbl
  | nan => nan
  | inf n => if n then 0 else inf false
  | fin q => if q < 0 then fin (1 / 2) else if q = 0 then 1 else fin 2

/-! ### Concrete double inputs used to evaluate the kernel -/

/-- References with only `Cref_EPA` set. -/
def epaOnly (c : Dbl) : JurisdictionRefs :=
  { Cref_EPA := c, Cref_EU := 0, Cref_WHO := 0, IR := 0, BW := 0 }

/-- References with nothing set: no limit is admissible at any flow. -/
def unsetRefs : JurisdictionRefs :=
  { Cref_EPA := 0, Cref_EU := 0, Cref_WHO := 0, IR := 0, BW := 0 }

/-- A node that has seen a first sample at time `0`, with `Kn = 0` and no kinetic model
(`volume = 0`, `k = 0`), for a given `hazardWeight` and given references. -/
def startedWith (hazardWeight : Dbl) (refs : JurisdictionRefs) : CeimNodeState :=
  { nodeId := "n1", contaminantId := "x", hazardWeight := hazardWeight, refs := refs,
    volume := 0, k := 0, Kn := 0, t_last := 0, has_last := true }

/-- A started node with the kinetic model on (`volume = 1`, `k = 1`), `Cref_EPA = 1`,
`t_last = 0`, for a given `hazardWeight` and a given accumulated `Kn`. -/
def kineticWith (hazardWeight Kn : Dbl) : CeimNodeState :=
  { nodeId := "n1", contaminantId := "x", hazardWeight := hazardWeight,
    refs := epaOnly 1, volume := 1, k := 1, Kn := Kn, t_last := 0, has_last := true }

/-- The node `startedWith 3 (epaOnly 1)` with a given `volume` (and still `k = 0`). -/
def startedWithVolume (volume : Dbl) : CeimNodeState :=
  { startedWith 3 (epaOnly 1) with volume := volume }

/-- The flattened counterpart of `startedWithVolume volume`. -/
def startedFlatWith (volume : Dbl) : NodeImpactState :=
  { nodeId := "n1", contaminantId := "x", hazardWeight := 3, Cepa := 1, Leu := 0,
    Dwho := 0, IR := 0, BW := 0, k := 0, volume := volume, Kn := 0, tlast := 0,
    haslast := true }

end F64

/-! ## The limit resolver -/

theorem minElementFrom_mem (a : ℚ) (l : List ℚ) :
    minElementFrom a l = a ∨ minElementFrom a l ∈ l := by
  induction l generalizing a with
  | nil => exact Or.inl rfl
  | cons x rest ih =>
    simp only [minElementFrom, List.mem_cons]
    rcases ih (if x < a then x else a) with h | h
    · rw [h]
      split_ifs
      · exact Or.inr (Or.inl rfl)
      · exact Or.inl rfl
    · exact Or.inr (Or.inr h)

theorem minElementFrom_le_start (a : ℚ) (l : List ℚ) : minElementFrom a l ≤ a := by
  induction l generalizing a with
  | nil => exact le_refl a
  | cons x rest ih =>
    simp only [minElementFrom]
    refine le_trans (ih _) ?_
    split_ifs with hx
    · exact le_of_lt hx
    · exact le_refl a

theorem minElementFrom_le_mem (a : ℚ) (l : List ℚ) :
    ∀ c ∈ l, minElementFrom a l ≤ c := by
  induction l generalizing a with
  | nil => intro c hc; cases hc
  | cons x rest ih =>
    intro c hc
    simp only [minElementFrom]
    rcases List.mem_cons.mp hc with rfl | hc
    · refine le_trans (minElementFrom_le_start _ _) ?_
      split_ifs with hx
      · exact le_refl c
      · exact not_lt.mp hx
    · exact ih _ c hc

theorem irLps_pos_iff (jr : JurisdictionRefs) : 0 < irLps jr ↔ 0 < jr.IR := by
  unfold irLps
  constructor
  · intro h
    have h2 : jr.IR = jr.IR / 86400 * 86400 := by ring
    rw [h2]
    positivity
  · intro h
    positivity

theorem doseWHO_pos_iff (jr : JurisdictionRefs) :
    0 < doseWHO jr ↔ 0 < jr.Cref_WHO ∧ 0 < jr.BW ∧ 0 < jr.IR := by
  unfold doseWHO
  rw [← irLps_pos_iff]
  constructor
  · intro h
    by_contra hn
    simp only [gt_iff_lt] at h
    rw [if_neg hn] at h
    exact lt_irrefl _ h
  · intro h
    simp only [gt_iff_lt]
    rw [if_pos h]
    obtain ⟨h1, h2, h3⟩ := h
    positivity

theorem doseWHO_eq (jr : JurisdictionRefs)
    (h : 0 < jr.Cref_WHO ∧ 0 < jr.BW ∧ 0 < jr.IR) :
    doseWHO jr = jr.Cref_WHO * jr.BW / (jr.IR / 86400) := by
  have h2 : jr.Cref_WHO > 0 ∧ jr.BW > 0 ∧ irLps jr > 0 :=
    ⟨h.1, h.2.1, (irLps_pos_iff jr).mpr h.2.2⟩
  unfold doseWHO
  rw [if_pos h2]
  rfl

theorem stdMax_zero_pos_iff (flow : ℚ) : 0 < stdMax flow 0 ↔ 0 < flow := by
  unfold stdMax
  split_ifs with h
  · constructor
    · intro h0; exact absurd h0 (lt_irrefl _)
    · intro h0; exact absurd (lt_trans h0 h) (lt_irrefl _)
  · exact Iff.rfl

/-- Membership in the collected limits, in the words of the source's three guards. -/
theorem mem_admissibleLimits (jr : JurisdictionRefs) (flow c : ℚ) :
    c ∈ admissibleLimits jr flow ↔
      (0 < jr.Cref_EPA ∧ c = jr.Cref_EPA) ∨
      (0 < jr.Cref_EU ∧ 0 < flow ∧ c = jr.Cref_EU) ∨
      (0 < jr.Cref_WHO ∧ 0 < jr.BW ∧ 0 < jr.IR ∧
        c = jr.Cref_WHO * jr.BW / (jr.IR / 86400)) := by
  unfold admissibleLimits
  simp only [List.mem_append, gt_iff_lt, stdMax_zero_pos_iff]
  constructor
  · rintro ((h | h) | h)
    · left
      split_ifs at h with h1
      · exact ⟨h1, List.mem_singleton.mp h⟩
      · cases h
    · right; left
      split_ifs at h with h1
      · exact ⟨h1.1, h1.2, List.mem_singleton.mp h⟩
      · cases h
    · right; right
      split_ifs at h with h1
      · have h2 := (doseWHO_pos_iff jr).mp h1
        refine ⟨h2.1, h2.2.1, h2.2.2, ?_⟩
        rw [List.mem_singleton.mp h, doseWHO_eq jr h2]
      · cases h
  · rintro (⟨h1, rfl⟩ | ⟨h1, h2, rfl⟩ | ⟨h1, h2, h3, rfl⟩)
    · left; left
      rw [if_pos h1]
      exact List.mem_singleton.mpr rfl
    · left; right
      rw [if_pos ⟨h1, h2⟩]
      exact List.mem_singleton.mpr rfl
    · right
      rw [if_pos ((doseWHO_pos_iff jr).mpr ⟨h1, h2, h3⟩)]
      exact List.mem_singleton.mpr (doseWHO_eq jr ⟨h1, h2, h3⟩).symm

/-- A successful resolution returns an element of the collected limits that is below
all of them. -/
theorem computeSupremeConcentration_ok (jr : JurisdictionRefs) (flow v : ℚ)
    (h : computeSupremeConcentration jr flow = Except.ok v) :
    v ∈ admissibleLimits jr flow ∧ ∀ c ∈ admissibleLimits jr flow, v ≤ c := by
  unfold computeSupremeConcentration at h
  cases hl : admissibleLimits jr flow with
  | nil => rw [hl] at h; cases h
  | cons x rest =>
    rw [hl] at h
    injection h with h
    subst h
    constructor
    · rcases minElementFrom_mem x rest with h1 | h1
      · rw [h1]; exact List.mem_cons_self x rest
      · exact List.mem_cons_of_mem x h1
    · intro c hc
      rcases List.mem_cons.mp hc with rfl | hc
      · exact minElementFrom_le_start c rest
      · exact minElementFrom_le_mem x rest c hc

/-- The resolver throws exactly when it collected no limit. -/
theorem computeSupremeConcentration_error_iff (jr : JurisdictionRefs) (flow : ℚ) (e : Error) :
    computeSupremeConcentration jr flow = Except.error e ↔
      admissibleLimits jr flow = [] ∧ e = noAdmissibleLimits := by
  unfold computeSupremeConcentration
  cases hl : admissibleLimits jr flow with
  | nil =>
    simp only [true_and]
    constructor
    · intro h; injection h with h; exact h.symm
    · intro h; rw [h]
  | cons x rest =>
    constructor
    · intro h; cases h
    · intro h; cases h.1

/-- A value the resolver returns is strictly positive. -/
theorem computeSupremeConcentration_pos (jr : JurisdictionRefs) (flow v : ℚ)
    (h : computeSupremeConcentration jr flow = Except.ok v) : 0 < v := by
  have hmem := (computeSupremeConcentration_ok jr flow v h).1
  rcases (mem_admissibleLimits jr flow v).mp hmem with
    ⟨h1, rfl⟩ | ⟨h1, -, rfl⟩ | ⟨h1, h2, h3, rfl⟩
  · exact h1
  · exact h1
  · positivity

/-! ## The accumulator: one equation per path of `updateCeimNode` -/

theorem stdMin_eq_min (a b : ℚ) : stdMin a b = min a b := by
  unfold stdMin
  split_ifs with h
  · exact (min_eq_right (le_of_lt h)).symm
  · exact (min_eq_left (not_lt.mp h)).symm

/-- First call: only the timestamp is recorded. -/
theorem updateCeimNode_first (exp : ℚ → ℚ) (st : CeimNodeState) (s : SensorSample)
    (hl : st.has_last = false) :
    updateCeimNode exp st s =
      ({ st with t_last := s.timestamp, has_last := true }, Except.ok st.Kn) := by
  simp [updateCeimNode, hl]

/-- Skipped sample: non-positive interval or non-positive flow. -/
theorem updateCeimNode_skip (exp : ℚ → ℚ) (st : CeimNodeState) (s : SensorSample)
    (hl : st.has_last = true) (hskip : s.timestamp - st.t_last ≤ 0 ∨ s.flow ≤ 0) :
    updateCeimNode exp st s = ({ st with t_last := s.timestamp }, Except.ok st.Kn) := by
  simp only [updateCeimNode, hl, Bool.not_true, Bool.false_eq_true, if_false, if_pos hskip]

/-- The resolver's exception escapes and the state is the one passed in. -/
theorem updateCeimNode_throw (exp : ℚ → ℚ) (st : CeimNodeState) (s : SensorSample)
    (hl : st.has_last = true) (hdt : 0 < s.timestamp - st.t_last) (hflow : 0 < s.flow)
    (e : Error) (hres : computeSupremeConcentration st.refs s.flow = Except.error e) :
    updateCeimNode exp st s = (st, Except.error e) := by
  have hskip : ¬ (s.timestamp - st.t_last ≤ 0 ∨ s.flow ≤ 0) := by
    rintro (h | h)
    · exact absurd hdt (not_lt.mpr h)
    · exact absurd hflow (not_lt.mpr h)
  simp only [updateCeimNode, hl, Bool.not_true, Bool.false_eq_true, if_false, if_neg hskip,
    hres]

/-- The local `deltaC` of the source is the specification's `deltaC`. -/
theorem deltaC_eq_spec (exp : ℚ → ℚ) (st : CeimNodeState) (s : SensorSample) (Csup : ℚ) :
    s.concentration -
        stdMin (if st.k > 0 then
            s.concentration * exp (-st.k * (if st.volume > 0 then st.volume / s.flow else 0))
          else s.concentration) Csup =
      specDeltaC exp st s Csup := by
  rw [stdMin_eq_min]
  rfl

/-- No exceedance: only the timestamp moves. -/
theorem updateCeimNode_no_exceedance (exp : ℚ → ℚ) (st : CeimNodeState) (s : SensorSample)
    (hl : st.has_last = true) (hdt : 0 < s.timestamp - st.t_last) (hflow : 0 < s.flow)
    (Csup : ℚ) (hres : computeSupremeConcentration st.refs s.flow = Except.ok Csup)
    (hd : specDeltaC exp st s Csup ≤ 0) :
    updateCeimNode exp st s = ({ st with t_last := s.timestamp }, Except.ok st.Kn) := by
  have hskip : ¬ (s.timestamp - st.t_last ≤ 0 ∨ s.flow ≤ 0) := by
    rintro (h | h)
    · exact absurd hdt (not_lt.mpr h)
    · exact absurd hflow (not_lt.mpr h)
  simp only [updateCeimNode, hl, Bool.not_true, Bool.false_eq_true, if_false, if_neg hskip,
    hres, deltaC_eq_spec, if_pos hd]

/-- Exceedance: the increment is added and the timestamp moves. -/
theorem updateCeimNode_increment (exp : ℚ → ℚ) (st : CeimNodeState) (s : SensorSample)
    (hl : st.has_last = true) (hdt : 0 < s.timestamp - st.t_last) (hflow : 0 < s.flow)
    (Csup : ℚ) (hres : computeSupremeConcentration st.refs s.flow = Except.ok Csup)
    (hd : 0 < specDeltaC exp st s Csup) :
    updateCeimNode exp st s =
      ({ st with
          Kn := st.Kn + st.hazardWeight * (specDeltaC exp st s Csup / Csup) * s.flow *
            (s.timestamp - st.t_last),
          t_last := s.timestamp },
        Except.ok (st.Kn + st.hazardWeight * (specDeltaC exp st s Csup / Csup) * s.flow *
            (s.timestamp - st.t_last))) := by
  have hskip : ¬ (s.timestamp - st.t_last ≤ 0 ∨ s.flow ≤ 0) := by
    rintro (h | h)
    · exact absurd hdt (not_lt.mpr h)
    · exact absurd hflow (not_lt.mpr h)
  simp only [updateCeimNode, hl, Bool.not_true, Bool.false_eq_true, if_false, if_neg hskip,
    hres, deltaC_eq_spec, if_neg (not_le.mpr hd)]

/-- The five paths of `updateCeimNode`, as a case distinction on its input. -/
theorem updateCeimNode_cases (exp : ℚ → ℚ) (st : CeimNodeState) (s : SensorSample) :
    (st.has_last = false ∧
      updateCeimNode exp st s =
        ({ st with t_last := s.timestamp, has_last := true }, Except.ok st.Kn)) ∨
    (st.has_last = true ∧ (s.timestamp - st.t_last ≤ 0 ∨ s.flow ≤ 0) ∧
      updateCeimNode exp st s = ({ st with t_last := s.timestamp }, Except.ok st.Kn)) ∨
    (st.has_last = true ∧ 0 < s.timestamp - st.t_last ∧ 0 < s.flow ∧
      computeSupremeConcentration st.refs s.flow = Except.error noAdmissibleLimits ∧
      updateCeimNode exp st s = (st, Except.error noAdmissibleLimits)) ∨
    (∃ Csup, st.has_last = true ∧ 0 < s.timestamp - st.t_last ∧ 0 < s.flow ∧
      computeSupremeConcentration st.refs s.flow = Except.ok Csup ∧
      specDeltaC exp st s Csup ≤ 0 ∧
      updateCeimNode exp st s = ({ st with t_last := s.timestamp }, Except.ok st.Kn)) ∨
    (∃ Csup, st.has_last = true ∧ 0 < s.timestamp - st.t_last ∧ 0 < s.flow ∧
      computeSupremeConcentration st.refs s.flow = Except.ok Csup ∧
      0 < specDeltaC exp st s Csup ∧
      updateCeimNode exp st s =
        ({ st with
            Kn := st.Kn + st.hazardWeight * (specDeltaC exp st s Csup / Csup) * s.flow *
              (s.timestamp - st.t_last),
            t_last := s.timestamp },
          Except.ok (st.Kn + st.hazardWeight * (specDeltaC exp st s Csup / Csup) * s.flow *
              (s.timestamp - st.t_last)))) := by
  rcases Bool.eq_false_or_eq_true st.has_last with hl | hl
  · right
    by_cases hskip : s.timestamp - st.t_last ≤ 0 ∨ s.flow ≤ 0
    · exact Or.inl ⟨hl, hskip, updateCeimNode_skip exp st s hl hskip⟩
    · right
      rw [not_or] at hskip
      have hdt := not_le.mp hskip.1
      have hflow := not_le.mp hskip.2
      cases hres : computeSupremeConcentration st.refs s.flow with
      | error e =>
        have he := ((computeSupremeConcentration_error_iff st.refs s.flow e).mp hres).2
        subst he
        exact Or.inl ⟨hl, hdt, hflow, rfl,
          updateCeimNode_throw exp st s hl hdt hflow _ hres⟩
      | ok Csup =>
        right
        by_cases hd : specDeltaC exp st s Csup ≤ 0
        · exact Or.inl ⟨Csup, hl, hdt, hflow, rfl, hd,
            updateCeimNode_no_exceedance exp st s hl hdt hflow Csup hres hd⟩
        · exact Or.inr ⟨Csup, hl, hdt, hflow, rfl, not_le.mp hd,
            updateCeimNode_increment exp st s hl hdt hflow Csup hres (not_le.mp hd)⟩
  · exact Or.inl ⟨hl, updateCeimNode_first exp st s hl⟩

/-! ## Claims about the accumulator -/

/-- The resolver on the concrete references used below. -/
theorem computeSupremeConcentration_epaOnly (flow : ℚ) :
    computeSupremeConcentration epaOnlyRefs flow = Except.ok 1 := by
  simp [computeSupremeConcentration, admissibleLimits, doseWHO, irLps, epaOnlyRefs,
    minElementFrom]

theorem computeSupremeConcentration_unset (flow : ℚ) :
    computeSupremeConcentration unsetRefs flow = Except.error noAdmissibleLimits := by
  simp [computeSupremeConcentration, admissibleLimits, doseWHO, irLps, unsetRefs]

/-- Claim C4.  When `updateCeimNode` fails with the "no admissible limits" error, the
state it leaves is exactly the state it was given: `Kn` is unchanged (no partial
increment) and neither `t_last` nor `has_last` has been written. -/
theorem C4_failure_leaves_state (exp : ℚ → ℚ) (st : CeimNodeState) (s : SensorSample)
    (hfail : (updateCeimNode exp st s).2 = Except.error noAdmissibleLimits) :
    (updateCeimNode exp st s).1 = st ∧
    (updateCeimNode exp st s).1.Kn = st.Kn ∧
    (updateCeimNode exp st s).1.t_last = st.t_last ∧
    (updateCeimNode exp st s).1.has_last = st.has_last := by
  have hst : (updateCeimNode exp st s).1 = st := by
    rcases updateCeimNode_cases exp st s with
      ⟨-, h⟩ | ⟨-, -, h⟩ | ⟨-, -, -, -, h⟩ | ⟨c, -, -, -, -, -, h⟩ |
      ⟨c, -, -, -, -, -, h⟩
    · rw [h] at hfail; cases hfail
    · rw [h] at hfail; cases hfail
    · rw [h]
    · rw [h] at hfail; cases hfail
    · rw [h] at hfail; cases hfail
  rw [hst]
  exact ⟨rfl, rfl, rfl, rfl⟩

/-- Witness of C4: the node whose references admit no limit (`t_last = 0`, `Kn = 0`)
receives the sample `(C = 2, Q = 1, t = 10)`; the call throws and the state is the one
passed in, with `t_last` still `0`. -/
theorem C4_failure_leaves_state_witness :
    (updateCeimNode expQ misconfiguredState ⟨2, 1, 10⟩).2 =
      Except.error noAdmissibleLimits ∧
    ((updateCeimNode expQ misconfiguredState ⟨2, 1, 10⟩).1 = misconfiguredState ∧
      (updateCeimNode expQ misconfiguredState ⟨2, 1, 10⟩).1.Kn = misconfiguredState.Kn ∧
      (updateCeimNode expQ misconfiguredState ⟨2, 1, 10⟩).1.t_last =
        misconfiguredState.t_last ∧
      (updateCeimNode expQ misconfiguredState ⟨2, 1, 10⟩).1.has_last =
        misconfiguredState.has_last) :=
  have hfail : (updateCeimNode expQ misconfiguredState ⟨2, 1, 10⟩).2 =
      Except.error noAdmissibleLimits := by
    norm_num [updateCeimNode, misconfiguredState, startedState,
      computeSupremeConcentration_unset]
  ⟨hfail, C4_failure_leaves_state expQ misconfiguredState ⟨2, 1, 10⟩ hfail⟩

/-- Claim C5.  On a state with `has_last = false`, whatever the sample and the
configured references, `updateCeimNode` does not fail: it returns the current `Kn`,
leaves `Kn` as it was, sets `has_last = true` and `t_last = sample.timestamp`, and
changes nothing else.  For a freshly constructed state the returned value is `0`. -/
theorem C5_first_call_initialises (exp : ℚ → ℚ) (st : CeimNodeState) (s : SensorSample)
    (hl : st.has_last = false) :
    (updateCeimNode exp st s).2 = Except.ok st.Kn ∧
    (updateCeimNode exp st s).1.Kn = st.Kn ∧
    (updateCeimNode exp st s).1.has_last = true ∧
    (updateCeimNode exp st s).1.t_last = s.timestamp ∧
    (updateCeimNode exp st s).1 = { st with t_last := s.timestamp, has_last := true } ∧
    (∀ refs : JurisdictionRefs,
      (updateCeimNode exp (CeimNodeState.fresh refs) s).2 = Except.ok 0 ∧
      (updateCeimNode exp (CeimNodeState.fresh refs) s).1.Kn = 0 ∧
      (updateCeimNode exp (CeimNodeState.fresh refs) s).1.has_last = true) := by
  rw [updateCeimNode_first exp st s hl]
  refine ⟨rfl, rfl, rfl, rfl, rfl, ?_⟩
  intro refs
  rw [updateCeimNode_first exp (CeimNodeState.fresh refs) s rfl]
  exact ⟨rfl, rfl, rfl⟩

/-- Witness of C5: a freshly constructed state whose references admit no limit receives
the sample `(C = -5, Q = -1, t = 7)`: the call returns `0`, and the state has
`has_last = true` and `t_last = 7`. -/
theorem C5_first_call_initialises_witness :
    (CeimNodeState.fresh unsetRefs).has_last = false ∧
    (updateCeimNode expQ (CeimNodeState.fresh unsetRefs) ⟨-5, -1, 7⟩).2 = Except.ok 0 ∧
    (updateCeimNode expQ (CeimNodeState.fresh unsetRefs) ⟨-5, -1, 7⟩).1.Kn = 0 ∧
    (updateCeimNode expQ (CeimNodeState.fresh unsetRefs) ⟨-5, -1, 7⟩).1.has_last = true ∧
    (updateCeimNode expQ (CeimNodeState.fresh unsetRefs) ⟨-5, -1, 7⟩).1.t_last = 7 :=
  have h := C5_first_call_initialises expQ (CeimNodeState.fresh unsetRefs) ⟨-5, -1, 7⟩ rfl
  ⟨rfl, h.1, h.2.1, h.2.2.1, h.2.2.2.1⟩

/-- Claim C6.  On an initialised state, a sample with `timestamp - t_last ≤ 0` or with
`flow ≤ 0` never makes `updateCeimNode` fail, whatever the references: the call returns
`Kn` unchanged, whatever `concentration`, `hazardWeight`, `volume`, `k` and `refs` are,
and the only field written is `t_last = sample.timestamp`. -/
theorem C6_skip_leaves_Kn (exp : ℚ → ℚ) (st : CeimNodeState) (s : SensorSample)
    (hl : st.has_last = true)
    (hskip : s.timestamp - st.t_last ≤ 0 ∨ s.flow ≤ 0) :
    (updateCeimNode exp st s).2 = Except.ok st.Kn ∧
    (updateCeimNode exp st s).1.Kn = st.Kn ∧
    (updateCeimNode exp st s).1.t_last = s.timestamp ∧
    (updateCeimNode exp st s).1 = { st with t_last := s.timestamp } := by
  rw [updateCeimNode_skip exp st s hl hskip]
  exact ⟨rfl, rfl, rfl, rfl⟩

/-- Witness of C6: the node whose references admit no limit, with `t_last = 0`, receives
a sample at `t = 10` with zero flow, and the started node receives a sample at `t = -3`
with flow `1`: both calls return `Kn = 0` and move `t_last`. -/
theorem C6_skip_leaves_Kn_witness :
    ((updateCeimNode expQ misconfiguredState ⟨2, 0, 10⟩).2 = Except.ok 0 ∧
      (updateCeimNode expQ misconfiguredState ⟨2, 0, 10⟩).1.t_last = 10) ∧
    ((updateCeimNode expQ startedState ⟨2, 1, -3⟩).2 = Except.ok 0 ∧
      (updateCeimNode expQ startedState ⟨2, 1, -3⟩).1.t_last = -3) :=
  have h1 := C6_skip_leaves_Kn expQ misconfiguredState ⟨2, 0, 10⟩ rfl
    (Or.inr (le_refl (0 : ℚ)))
  have h2 := C6_skip_leaves_Kn expQ startedState ⟨2, 1, -3⟩ rfl
    (Or.inl (by norm_num [startedState]))
  ⟨⟨h1.1, h1.2.2.1⟩, ⟨h2.1, h2.2.2.1⟩⟩

/-- On non-positive arguments the stand-in `expQ` lies in `(0, 1]`, like the
exponential. -/
theorem expQ_of_nonpos (x : ℚ) (hx : x ≤ 0) : 0 ≤ expQ x ∧ expQ x ≤ 1 := by
  unfold expQ
  rw [if_pos hx]
  have h1 : (0 : ℚ) < 1 - x := by linarith
  constructor
  · positivity
  · rw [div_le_one h1]
    linarith

/-- The residence time of the specification is never negative when the flow is
positive. -/
theorem specTau_nonneg (st : CeimNodeState) (s : SensorSample) (hflow : 0 < s.flow) :
    0 ≤ specTau st s := by
  unfold specTau
  split_ifs with hv
  · positivity
  · exact le_refl 0

/-- Claim C8.  On an initialised state, for a sample with `dt = timestamp - t_last > 0`
and `flow > 0` for which the resolver returns `Csup`: with `tau = volume / flow` if
`volume > 0` else `0`, `Cout_model = concentration * exp(-k * tau)` if `k > 0` else
`concentration`, `Cout = min(Cout_model, Csup)` and `deltaC = concentration - Cout`, the
call returns `Kn + hazardWeight * (deltaC / Csup) * flow * dt` when `deltaC > 0` and
`Kn` unchanged when `deltaC ≤ 0`; in both cases the returned value is the `Kn` stored in
the resulting state, and `t_last` is the sample's timestamp. -/
theorem C8_increment_formula (exp : ℚ → ℚ) (st : CeimNodeState) (s : SensorSample)
    (Csup : ℚ) (hl : st.has_last = true) (hdt : 0 < s.timestamp - st.t_last)
    (hflow : 0 < s.flow)
    (hres : computeSupremeConcentration st.refs s.flow = Except.ok Csup) :
    (0 < specDeltaC exp st s Csup →
      (updateCeimNode exp st s).2 =
        Except.ok (st.Kn + st.hazardWeight * (specDeltaC exp st s Csup / Csup) * s.flow *
          (s.timestamp - st.t_last))) ∧
    (specDeltaC exp st s Csup ≤ 0 → (updateCeimNode exp st s).2 = Except.ok st.Kn) ∧
    (updateCeimNode exp st s).2 = Except.ok (updateCeimNode exp st s).1.Kn ∧
    (updateCeimNode exp st s).1.t_last = s.timestamp := by
  by_cases hd : specDeltaC exp st s Csup ≤ 0
  · rw [updateCeimNode_no_exceedance exp st s hl hdt hflow Csup hres hd]
    exact ⟨fun h => absurd h (not_lt.mpr hd), fun _ => rfl, rfl, rfl⟩
  · rw [updateCeimNode_increment exp st s hl hdt hflow Csup hres (not_le.mp hd)]
    exact ⟨fun _ => rfl, fun h => absurd h hd, rfl, rfl⟩

/-- Witness of C8: the node with the kinetic model on (`volume = 1`, `k = 1`,
`hazardWeight = 3`, `Cref_EPA = 1`, `t_last = 0`, `Kn = 0`) receives the sample
`(C = 3/2, Q = 1, t = 10)`.  With the stand-in exponential, `tau = 1`,
`Cout_model = 3/4`, `deltaC = 3/4` and the call returns `3 * (3/4) * 1 * 10 = 45/2`. -/
theorem C8_increment_formula_witness :
    specDeltaC expQ kineticState ⟨3 / 2, 1, 10⟩ 1 = 3 / 4 ∧
    (updateCeimNode expQ kineticState ⟨3 / 2, 1, 10⟩).2 = Except.ok (45 / 2) ∧
    (updateCeimNode expQ kineticState ⟨3 / 2, 1, 10⟩).1.Kn = 45 / 2 := by
  have hd : specDeltaC expQ kineticState ⟨3 / 2, 1, 10⟩ 1 = 3 / 4 := by
    norm_num [specDeltaC, specCoutModel, specTau, kineticState, startedState, expQ]
  have h := C8_increment_formula expQ kineticState ⟨3 / 2, 1, 10⟩ 1 rfl
    (by norm_num [kineticState, startedState]) (by norm_num)
    (computeSupremeConcentration_epaOnly 1)
  have hv := h.1 (by rw [hd]; norm_num)
  rw [hd] at hv
  have hv2 : (updateCeimNode expQ kineticState ⟨3 / 2, 1, 10⟩).2 = Except.ok (45 / 2) := by
    rw [hv]
    norm_num [kineticState, startedState]
  refine ⟨hd, hv2, ?_⟩
  have h3 := h.2.2.1
  rw [hv2] at h3
  injection h3 with h3
  exact h3.symm

/-- Claim C9.  On an initialised state, for a sample with `dt > 0` and `flow > 0` for
which the resolver returns `Csup`: if the modelled outflow `Cout_model` is greater than
`Csup`, the increment is computed with `Cout = Csup`, that is `deltaC =
concentration - Csup`, and the resulting `Kn` is the previous `Kn` plus
`hazardWeight * ((concentration - Csup) / Csup) * flow * dt`.  The exponential is only
asked to map non-positive arguments into `[0, 1]`. -/
theorem C9_clamp_to_supreme (exp : ℚ → ℚ) (st : CeimNodeState) (s : SensorSample)
    (Csup : ℚ) (hexp : ∀ x : ℚ, x ≤ 0 → 0 ≤ exp x ∧ exp x ≤ 1)
    (hl : st.has_last = true) (hdt : 0 < s.timestamp - st.t_last) (hflow : 0 < s.flow)
    (hres : computeSupremeConcentration st.refs s.flow = Except.ok Csup)
    (hgt : Csup < specCoutModel exp st s) :
    specDeltaC exp st s Csup = s.concentration - Csup ∧
    (updateCeimNode exp st s).1.Kn =
      st.Kn + st.hazardWeight * ((s.concentration - Csup) / Csup) * s.flow *
        (s.timestamp - st.t_last) ∧
    (updateCeimNode exp st s).2 =
      Except.ok (st.Kn + st.hazardWeight * ((s.concentration - Csup) / Csup) * s.flow *
        (s.timestamp - st.t_last)) := by
  have hc : 0 < Csup := computeSupremeConcentration_pos st.refs s.flow Csup hres
  have hdelta : specDeltaC exp st s Csup = s.concentration - Csup := by
    unfold specDeltaC
    rw [min_eq_right (le_of_lt hgt)]
  have hconc : Csup < s.concentration := by
    unfold specCoutModel at hgt
    split_ifs at hgt with hk
    · have harg : -st.k * specTau st s ≤ 0 := by
        have := specTau_nonneg st s hflow
        nlinarith
      obtain ⟨he0, he1⟩ := hexp _ harg
      by_contra hn
      have hn := not_lt.mp hn
      by_cases hcpos : 0 ≤ s.concentration
      · nlinarith
      · nlinarith
    · exact hgt
  have hd : 0 < specDeltaC exp st s Csup := by rw [hdelta]; linarith
  rw [updateCeimNode_increment exp st s hl hdt hflow Csup hres hd, hdelta]
  exact ⟨rfl, rfl, rfl⟩

/-- Witness of C9: the node with the kinetic model on receives the sample
`(C = 4, Q = 1, t = 10)`.  With the stand-in exponential `Cout_model = 2 > Csup = 1`, so
`deltaC = 4 - 1 = 3` and `Kn = 0 + 3 * (3 / 1) * 1 * 10 = 90`. -/
theorem C9_clamp_to_supreme_witness :
    (1 : ℚ) < specCoutModel expQ kineticState ⟨4, 1, 10⟩ ∧
    specDeltaC expQ kineticState ⟨4, 1, 10⟩ 1 = 3 ∧
    (updateCeimNode expQ kineticState ⟨4, 1, 10⟩).1.Kn = 90 ∧
    (updateCeimNode expQ kineticState ⟨4, 1, 10⟩).2 = Except.ok 90 := by
  have hgt : (1 : ℚ) < specCoutModel expQ kineticState ⟨4, 1, 10⟩ := by
    norm_num [specCoutModel, specTau, kineticState, startedState, expQ]
  have h := C9_clamp_to_supreme expQ kineticState ⟨4, 1, 10⟩ 1 expQ_of_nonpos rfl
    (by norm_num [kineticState, startedState]) (by norm_num)
    (computeSupremeConcentration_epaOnly 1) hgt
  refine ⟨hgt, ?_, ?_, ?_⟩
  · rw [h.1]; norm_num
  · rw [h.2.1]; norm_num [kineticState, startedState]
  · rw [h.2.2]; norm_num [kineticState, startedState]

/-- Claim C10.  A negative flow is resolved exactly like a zero flow (same value, or
failure in both); and for such a flow, as for a zero flow, `Cref_EU` is not admissible:
the outcome is the one obtained with `Cref_EU` unset. -/
theorem C10_negative_flow_as_zero (jr : JurisdictionRefs) (flow : ℚ) (hf : flow < 0) :
    computeSupremeConcentration jr flow = computeSupremeConcentration jr 0 ∧
    computeSupremeConcentration jr flow =
      computeSupremeConcentration { jr with Cref_EU := 0 } flow ∧
    computeSupremeConcentration jr 0 =
      computeSupremeConcentration { jr with Cref_EU := 0 } 0 := by
  have key : ∀ (jr : JurisdictionRefs) (flow : ℚ), flow ≤ 0 →
      admissibleLimits jr flow =
        (if jr.Cref_EPA > 0 then [jr.Cref_EPA] else []) ++
          (if doseWHO jr > 0 then [doseWHO jr] else []) := by
    intro jr flow hf
    have hq : ¬ (jr.Cref_EU > 0 ∧ stdMax flow 0 > 0) := by
      intro h
      exact absurd ((stdMax_zero_pos_iff flow).mp h.2) (not_lt.mpr hf)
    unfold admissibleLimits
    simp only [if_neg hq, List.append_nil]
  refine ⟨?_, ?_, ?_⟩
  · unfold computeSupremeConcentration
    rw [key jr flow (le_of_lt hf), key jr 0 (le_refl 0)]
  · unfold computeSupremeConcentration
    rw [key jr flow (le_of_lt hf), key _ flow (le_of_lt hf)]
    rfl
  · unfold computeSupremeConcentration
    rw [key jr 0 (le_refl 0), key _ 0 (le_refl 0)]
    rfl

/-- Witness of C10: with `Cref_EPA = 10` and `Cref_EU = 5` a flow of `-3` resolves to
`10`, like a zero flow: the smaller EU limit is not admitted. -/
theorem C10_negative_flow_as_zero_witness :
    (-3 : ℚ) < 0 ∧
    computeSupremeConcentration ⟨10, 5, 0, 0, 0⟩ (-3) = Except.ok 10 ∧
    (computeSupremeConcentration ⟨10, 5, 0, 0, 0⟩ (-3) =
        computeSupremeConcentration ⟨10, 5, 0, 0, 0⟩ 0 ∧
      computeSupremeConcentration ⟨10, 5, 0, 0, 0⟩ (-3) =
        computeSupremeConcentration { (⟨10, 5, 0, 0, 0⟩ : JurisdictionRefs) with
          Cref_EU := 0 } (-3) ∧
      computeSupremeConcentration ⟨10, 5, 0, 0, 0⟩ 0 =
        computeSupremeConcentration { (⟨10, 5, 0, 0, 0⟩ : JurisdictionRefs) with
          Cref_EU := 0 } 0) :=
  ⟨by norm_num,
    by norm_num [computeSupremeConcentration, admissibleLimits, doseWHO, irLps, stdMax,
      minElementFrom],
    C10_negative_flow_as_zero ⟨10, 5, 0, 0, 0⟩ (-3) (by norm_num)⟩

/-! ## Further claims about the resolver and the accumulator -/

/-- After a call that returns, the state is initialised and its last timestamp is the
sample's. -/
theorem updateCeimNode_ok_state (exp : ℚ → ℚ) (st : CeimNodeState) (s : SensorSample)
    (v : ℚ) (hv : (updateCeimNode exp st s).2 = Except.ok v) :
    (updateCeimNode exp st s).1.has_last = true ∧
    (updateCeimNode exp st s).1.t_last = s.timestamp ∧
    (updateCeimNode exp st s).1.Kn = v := by
  rcases updateCeimNode_cases exp st s with
    ⟨-, h⟩ | ⟨hl, -, h⟩ | ⟨-, -, -, -, h⟩ | ⟨c, hl, -, -, -, -, h⟩ |
    ⟨c, hl, -, -, -, -, h⟩ <;>
  rw [h] at hv ⊢
  · injection hv with hv; exact ⟨rfl, rfl, hv⟩
  · injection hv with hv; exact ⟨hl, rfl, hv⟩
  · cases hv
  · injection hv with hv; exact ⟨hl, rfl, hv⟩
  · injection hv with hv; exact ⟨hl, rfl, hv⟩

/-- Claim C13.  End-to-end scenario: a fresh state configured with `hazardWeight = 3`,
`volume = 0`, `k = 0` and only `Cref_EPA = 1` set.  The call with sample 1
`(C = 2, Q = 1, t = 0)` returns `0` and only initialises; the following call with
sample 2 `(C = 2, Q = 1, t = 10)` resolves `Csup = 1`, has `Cout_model = 2`,
`Cout = min(2, 1) = 1` and `deltaC = 1`, and returns `30`, leaving `Kn = 30` and
`t_last = 10`. -/
theorem C13_end_to_end (exp : ℚ → ℚ) :
    scenarioState.hazardWeight = 3 ∧ scenarioState.volume = 0 ∧ scenarioState.k = 0 ∧
    scenarioState.Kn = 0 ∧ scenarioState.has_last = false ∧
    updateCeimNode exp scenarioState ⟨2, 1, 0⟩ =
      ({ scenarioState with t_last := 0, has_last := true }, Except.ok 0) ∧
    computeSupremeConcentration scenarioState.refs 1 = Except.ok 1 ∧
    specCoutModel exp (updateCeimNode exp scenarioState ⟨2, 1, 0⟩).1 ⟨2, 1, 10⟩ = 2 ∧
    min (specCoutModel exp (updateCeimNode exp scenarioState ⟨2, 1, 0⟩).1 ⟨2, 1, 10⟩) 1 = 1 ∧
    specDeltaC exp (updateCeimNode exp scenarioState ⟨2, 1, 0⟩).1 ⟨2, 1, 10⟩ 1 = 1 ∧
    (updateCeimNode exp (updateCeimNode exp scenarioState ⟨2, 1, 0⟩).1 ⟨2, 1, 10⟩).2 =
      Except.ok 30 ∧
    (updateCeimNode exp (updateCeimNode exp scenarioState ⟨2, 1, 0⟩).1 ⟨2, 1, 10⟩).1.Kn =
      30 ∧
    (updateCeimNode exp (updateCeimNode exp scenarioState ⟨2, 1, 0⟩).1 ⟨2, 1, 10⟩).1.t_last =
      10 := by
  have hfirst : updateCeimNode exp scenarioState ⟨2, 1, 0⟩ =
      ({ scenarioState with t_last := 0, has_last := true }, Except.ok 0) :=
    updateCeimNode_first exp scenarioState ⟨2, 1, 0⟩ rfl
  have hres : computeSupremeConcentration scenarioState.refs 1 = Except.ok 1 :=
    computeSupremeConcentration_epaOnly 1
  refine ⟨rfl, rfl, rfl, rfl, rfl, hfirst, hres, ?_⟩
  rw [hfirst]
  have hk : ¬ ((0 : ℚ) < 0) := lt_irrefl 0
  have hmodel : specCoutModel exp { scenarioState with t_last := 0, has_last := true }
      ⟨2, 1, 10⟩ = 2 := by
    simp [specCoutModel, scenarioState, CeimNodeState.fresh]
  have hdelta : specDeltaC exp { scenarioState with t_last := 0, has_last := true }
      ⟨2, 1, 10⟩ 1 = 1 := by
    unfold specDeltaC
    rw [hmodel]
    norm_num
  have hstep := updateCeimNode_increment exp
    { scenarioState with t_last := 0, has_last := true } ⟨2, 1, 10⟩ rfl
    (by norm_num) (by norm_num) 1 hres (by rw [hdelta]; norm_num)
  rw [hdelta] at hstep
  refine ⟨hmodel, ?_, hdelta, ?_, ?_, ?_⟩
  · rw [hmodel]; norm_num
  · rw [hstep]; norm_num [scenarioState, CeimNodeState.fresh]
  · rw [hstep]; norm_num [scenarioState, CeimNodeState.fresh]
  · rw [hstep]

/-- Claim C14.  State machine of the accumulator: after any call of `updateCeimNode`
that does not fail the state has `has_last = true` and `t_last = sample.timestamp`; a
call on an initialised state leaves it initialised whether it succeeds or fails; and a
call on an uninitialised state always succeeds and initialises it, so the transition to
the initialised state happens on the first call, unconditionally, and only there. -/
theorem C14_state_machine (exp : ℚ → ℚ) (st : CeimNodeState) (s : SensorSample) :
    (∀ v, (updateCeimNode exp st s).2 = Except.ok v →
      (updateCeimNode exp st s).1.has_last = true ∧
      (updateCeimNode exp st s).1.t_last = s.timestamp) ∧
    (st.has_last = true → (updateCeimNode exp st s).1.has_last = true) ∧
    (st.has_last = false →
      (updateCeimNode exp st s).1.has_last = true ∧
      (updateCeimNode exp st s).2 = Except.ok st.Kn) ∧
    (∀ (s2 : SensorSample), (updateCeimNode exp st s).1.has_last = true →
      (updateCeimNode exp (updateCeimNode exp st s).1 s2).1.has_last = true) := by
  have keep : ∀ (st0 : CeimNodeState) (s0 : SensorSample), st0.has_last = true →
      (updateCeimNode exp st0 s0).1.has_last = true := by
    intro st0 s0 hl0
    rcases updateCeimNode_cases exp st0 s0 with
      ⟨hl, -⟩ | ⟨-, -, h⟩ | ⟨-, -, -, -, h⟩ | ⟨c, -, -, -, -, -, h⟩ |
      ⟨c, -, -, -, -, -, h⟩
    · rw [hl0] at hl; cases hl
    · rw [h]; exact hl0
    · rw [h]; exact hl0
    · rw [h]; exact hl0
    · rw [h]; exact hl0
  refine ⟨?_, keep st s, ?_, ?_⟩
  · intro v hv
    obtain ⟨h1, h2, -⟩ := updateCeimNode_ok_state exp st s v hv
    exact ⟨h1, h2⟩
  · intro hl
    rw [updateCeimNode_first exp st s hl]
    exact ⟨rfl, rfl⟩
  · intro s2 hl
    exact keep _ s2 hl

/-- Examples of C14: a fresh state whose references admit no limit is initialised by
its first call; the initialised node whose references admit no limit stays initialised
through a failing call. -/
theorem C14_state_machine_witness :
    ((updateCeimNode expQ (CeimNodeState.fresh unsetRefs) ⟨2, 1, 10⟩).1.has_last = true ∧
      (updateCeimNode expQ (CeimNodeState.fresh unsetRefs) ⟨2, 1, 10⟩).2 = Except.ok 0) ∧
    (updateCeimNode expQ misconfiguredState ⟨2, 1, 10⟩).2 =
      Except.error noAdmissibleLimits ∧
    (updateCeimNode expQ misconfiguredState ⟨2, 1, 10⟩).1.has_last = true :=
  ⟨(C14_state_machine expQ (CeimNodeState.fresh unsetRefs) ⟨2, 1, 10⟩).2.2.1 rfl,
    by norm_num [updateCeimNode, misconfiguredState, startedState,
      computeSupremeConcentration_unset],
    (C14_state_machine expQ misconfiguredState ⟨2, 1, 10⟩).2.1 rfl⟩

/-- Claim C17.  Whenever `computeSupremeConcentration` succeeds its result is strictly
greater than `0`; hence on the only path of `updateCeimNode` that evaluates
`deltaC / Csup` (the one that changes `Kn`) the divisor `Csup` is the resolver's
positive value, never zero and never negative. -/
theorem C17_supreme_positive (jr : JurisdictionRefs) (flow v : ℚ)
    (h : computeSupremeConcentration jr flow = Except.ok v) :
    0 < v ∧ v ≠ 0 ∧
    (∀ (exp : ℚ → ℚ) (st : CeimNodeState) (s : SensorSample),
      (updateCeimNode exp st s).1.Kn ≠ st.Kn →
      ∃ Csup, computeSupremeConcentration st.refs s.flow = Except.ok Csup ∧ 0 < Csup ∧
        (updateCeimNode exp st s).1.Kn =
          st.Kn + st.hazardWeight * (specDeltaC exp st s Csup / Csup) * s.flow *
            (s.timestamp - st.t_last)) := by
  have hv := computeSupremeConcentration_pos jr flow v h
  refine ⟨hv, ne_of_gt hv, ?_⟩
  intro exp st s hne
  rcases updateCeimNode_cases exp st s with
    ⟨-, h⟩ | ⟨-, -, h⟩ | ⟨-, -, -, -, h⟩ | ⟨c, -, -, -, -, -, h⟩ |
    ⟨c, -, -, -, hres, -, h⟩
  · rw [h] at hne; exact absurd rfl hne
  · rw [h] at hne; exact absurd rfl hne
  · rw [h] at hne; exact absurd rfl hne
  · rw [h] at hne; exact absurd rfl hne
  · refine ⟨c, hres, computeSupremeConcentration_pos st.refs s.flow c hres, ?_⟩
    rw [h]

/-- Witness of C17: references with `Cref_EPA = 10`, `Cref_EU = 5` and the WHO literals
`2`, `2`, `70` resolve at flow `1` to `5`, which is positive. -/
theorem C17_supreme_positive_witness :
    computeSupremeConcentration
        { Cref_EPA := 10, Cref_EU := 5, Cref_WHO := 2, IR := 2, BW := 70 } 1 =
      Except.ok 5 ∧ (0 : ℚ) < 5 :=
  have h : computeSupremeConcentration
      { Cref_EPA := 10, Cref_EU := 5, Cref_WHO := 2, IR := 2, BW := 70 } 1 =
        Except.ok 5 := by
    norm_num [computeSupremeConcentration, admissibleLimits, doseWHO, irLps, stdMax,
      minElementFrom]
  ⟨h, (C17_supreme_positive _ 1 5 h).1⟩

/-- Claim C20.  `updateCeimNode` writes only `Kn`, `t_last` and `has_last`: whether the
call succeeds or fails, `nodeId`, `contaminantId`, `hazardWeight`, `refs`, `volume` and
`k` of the state are unchanged. -/
theorem C20_frame (exp : ℚ → ℚ) (st : CeimNodeState) (s : SensorSample) :
    (updateCeimNode exp st s).1.nodeId = st.nodeId ∧
    (updateCeimNode exp st s).1.contaminantId = st.contaminantId ∧
    (updateCeimNode exp st s).1.hazardWeight = st.hazardWeight ∧
    (updateCeimNode exp st s).1.refs = st.refs ∧
    (updateCeimNode exp st s).1.volume = st.volume ∧
    (updateCeimNode exp st s).1.k = st.k := by
  rcases updateCeimNode_cases exp st s with
    ⟨-, h⟩ | ⟨-, -, h⟩ | ⟨-, -, -, -, h⟩ | ⟨c, -, -, -, -, -, h⟩ |
    ⟨c, -, -, -, -, -, h⟩ <;>
  rw [h] <;> exact ⟨rfl, rfl, rfl, rfl, rfl, rfl⟩

/-! ## The flattened variant -/

theorem updateNodeImpact_first (exp : ℚ → ℚ) (st : NodeImpactState) (s : SensorSample)
    (hl : st.haslast = false) :
    updateNodeImpact exp st s =
      ({ st with tlast := s.timestamp, haslast := true }, Except.ok st.Kn) := by
  simp [updateNodeImpact, hl]

theorem updateNodeImpact_skip (exp : ℚ → ℚ) (st : NodeImpactState) (s : SensorSample)
    (hl : st.haslast = true) (hdt : s.timestamp - st.tlast ≤ 0) :
    updateNodeImpact exp st s = ({ st with tlast := s.timestamp }, Except.ok st.Kn) := by
  simp only [updateNodeImpact, hl, Bool.not_true, Bool.false_eq_true, if_false, if_pos hdt]

theorem updateNodeImpact_throw (exp : ℚ → ℚ) (st : NodeImpactState) (s : SensorSample)
    (hl : st.haslast = true) (hdt : 0 < s.timestamp - st.tlast) (e : Error)
    (hres : computeSupremeConcentration6 st.Cepa st.Leu st.Dwho s.flow st.IR st.BW =
      Except.error e) :
    updateNodeImpact exp st s = (st, Except.error e) := by
  simp only [updateNodeImpact, hl, Bool.not_true, Bool.false_eq_true, if_false,
    if_neg (not_le.mpr hdt), hres]

theorem updateNodeImpact_no_exceedance (exp : ℚ → ℚ) (st : NodeImpactState)
    (s : SensorSample) (hl : st.haslast = true) (hdt : 0 < s.timestamp - st.tlast)
    (Csup : ℚ)
    (hres : computeSupremeConcentration6 st.Cepa st.Leu st.Dwho s.flow st.IR st.BW =
      Except.ok Csup)
    (hd : flatDeltaC exp st s Csup ≤ 0) :
    updateNodeImpact exp st s = ({ st with tlast := s.timestamp }, Except.ok st.Kn) := by
  unfold flatDeltaC at hd
  simp only [updateNodeImpact, hl, Bool.not_true, Bool.false_eq_true, if_false,
    if_neg (not_le.mpr hdt), hres, if_pos hd]

theorem updateNodeImpact_increment (exp : ℚ → ℚ) (st : NodeImpactState)
    (s : SensorSample) (hl : st.haslast = true) (hdt : 0 < s.timestamp - st.tlast)
    (Csup : ℚ)
    (hres : computeSupremeConcentration6 st.Cepa st.Leu st.Dwho s.flow st.IR st.BW =
      Except.ok Csup)
    (hd : 0 < flatDeltaC exp st s Csup) :
    updateNodeImpact exp st s =
      ({ st with
          Kn := st.Kn + st.hazardWeight * (flatDeltaC exp st s Csup / Csup) * s.flow *
            (s.timestamp - st.tlast),
          tlast := s.timestamp },
        Except.ok (st.Kn + st.hazardWeight * (flatDeltaC exp st s Csup / Csup) * s.flow *
            (s.timestamp - st.tlast))) := by
  unfold flatDeltaC at hd ⊢
  simp only [updateNodeImpact, hl, Bool.not_true, Bool.false_eq_true, if_false,
    if_neg (not_le.mpr hdt), hres, if_neg (not_le.mpr hd)]

/-- Claim C15, evaluated on the code.  The flattened `updateNodeImpact` tests only
`dt <= 0.0`: on the initialised flattened node (`hazardWeight = 3`, `Cepa = 1`,
`tlast = 0`, `Kn = 0`) the sample `(C = 2, Q = -1, t = 10)`, whose flow is not positive,
is integrated and `Kn` becomes `3 * (1 / 1) * (-1) * 10 = -30`, whereas the structured
`updateCeimNode` skips the same sample on the corresponding state and keeps `Kn = 0`. -/
theorem C15_flat_integrates_nonpositive_flow :
    startedFlatState.haslast = true ∧ startedFlatState.Kn = 0 ∧
    (⟨2, -1, 10⟩ : SensorSample).flow ≤ 0 ∧
    updateNodeImpact expQ startedFlatState ⟨2, -1, 10⟩ =
      ({ startedFlatState with Kn := -30, tlast := 10 }, Except.ok (-30)) ∧
    (updateNodeImpact expQ startedFlatState ⟨2, -1, 10⟩).1.Kn ≠ startedFlatState.Kn ∧
    Corresponds startedState startedFlatState ∧
    (updateCeimNode expQ startedState ⟨2, -1, 10⟩).1.Kn = startedState.Kn := by
  have hres : computeSupremeConcentration6 1 0 0 (-1) 0 0 = Except.ok 1 :=
    computeSupremeConcentration_epaOnly (-1)
  have hd : flatDeltaC expQ startedFlatState ⟨2, -1, 10⟩ 1 = 1 := by
    norm_num [flatDeltaC, startedFlatState, expQ, stdMin]
  have hstep := updateNodeImpact_increment expQ startedFlatState ⟨2, -1, 10⟩ rfl
    (by norm_num [startedFlatState]) 1 hres (by rw [hd]; norm_num)
  rw [hd] at hstep
  have hval : updateNodeImpact expQ startedFlatState ⟨2, -1, 10⟩ =
      ({ startedFlatState with Kn := -30, tlast := 10 }, Except.ok (-30)) := by
    rw [hstep]
    norm_num [startedFlatState]
  refine ⟨rfl, rfl, by norm_num, hval, ?_, ?_, ?_⟩
  · rw [hval]
    norm_num [startedFlatState]
  · exact ⟨rfl, rfl, rfl, rfl, rfl, rfl, rfl⟩
  · rw [updateCeimNode_skip expQ startedState ⟨2, -1, 10⟩ rfl (Or.inr (by norm_num))]

/-! # The kernel in binary64 arithmetic -/

namespace F64

open Dbl

/-! ## Rounding to the nearest integer, ties to even -/

theorem abs_sub_rne_le (x : ℚ) : |x - (rne x : ℚ)| ≤ 1 / 2 := by
  have h1 : (⌊x⌋ : ℚ) ≤ x := Int.floor_le x
  have h2 : x < (⌊x⌋ : ℚ) + 1 := Int.lt_floor_add_one x
  unfold rne
  split_ifs with ha hb hc
  · rw [abs_le]; constructor <;> linarith
  · rw [abs_le]; push_cast; constructor <;> linarith
  · rw [abs_le]; constructor <;> linarith
  · have hb := not_lt.mp hb
    rw [abs_le]; push_cast; constructor <;> linarith

theorem rne_eq_of_abs_lt (x : ℚ) (n : ℤ) (h : |x - (n : ℚ)| < 1 / 2) : rne x = n := by
  have h1 := abs_sub_rne_le x
  rw [abs_le] at h1
  rw [abs_lt] at h
  have h2 : ((rne x - n : ℤ) : ℚ) < 1 := by push_cast; linarith
  have h3 : (-1 : ℚ) < ((rne x - n : ℤ) : ℚ) := by push_cast; linarith
  have h4 : rne x - n < 1 := by exact_mod_cast h2
  have h5 : -1 < rne x - n := by exact_mod_cast h3
  omega

theorem rne_intCast (n : ℤ) : rne (n : ℚ) = n :=
  rne_eq_of_abs_lt _ n (by rw [sub_self, abs_zero]; norm_num)

theorem rne_mono {x y : ℚ} (h : x ≤ y) : rne x ≤ rne y := by
  by_contra hlt
  have hlt := not_le.mp hlt
  have hx := abs_sub_rne_le x
  have hy := abs_sub_rne_le y
  rw [abs_le] at hx hy
  have h1 : rne y + 1 ≤ rne x := hlt
  have h2 : ((rne y : ℚ)) + 1 ≤ (rne x : ℚ) := by exact_mod_cast h1
  have hxy : x = y := by linarith
  subst hxy
  exact lt_irrefl _ hlt

theorem rne_nonneg {x : ℚ} (h : 0 ≤ x) : 0 ≤ rne x := by
  have := rne_mono h
  rwa [show (0 : ℚ) = ((0 : ℤ) : ℚ) by norm_num, rne_intCast] at this

/-- A tie above an even integer goes down to it. -/
theorem rne_half_even (m : ℤ) (hm : m % 2 = 0) : rne ((m : ℚ) + 1 / 2) = m := by
  have hf : ⌊(m : ℚ) + 1 / 2⌋ = m := by
    rw [Int.floor_eq_iff]; constructor <;> linarith
  unfold rne
  rw [hf]
  have h1 : ¬ ((m : ℚ) + 1 / 2 - (m : ℚ) < 1 / 2) := by norm_num
  have h2 : ¬ ((1 : ℚ) / 2 < (m : ℚ) + 1 / 2 - (m : ℚ)) := by norm_num
  rw [if_neg h1, if_neg h2, if_pos hm]

/-- A tie above an odd integer goes up to the next, even, integer. -/
theorem rne_half_odd (m : ℤ) (hm : m % 2 = 1) : rne ((m : ℚ) + 1 / 2) = m + 1 := by
  have hf : ⌊(m : ℚ) + 1 / 2⌋ = m := by
    rw [Int.floor_eq_iff]; constructor <;> linarith
  unfold rne
  rw [hf]
  have h1 : ¬ ((m : ℚ) + 1 / 2 - (m : ℚ) < 1 / 2) := by norm_num
  have h2 : ¬ ((1 : ℚ) / 2 < (m : ℚ) + 1 / 2 - (m : ℚ)) := by norm_num
  have h3 : ¬ (m % 2 = 0) := by omega
  rw [if_neg h1, if_neg h2, if_neg h3]

/-! ## Binades -/

theorem binade_ge (a : ℚ) : -1022 ≤ binade a := le_max_right _ _

theorem lt_zpow_binade_succ (a : ℚ) : a < 2 ^ (binade a + 1) := by
  have h1 : a < ((2 : ℕ) : ℚ) ^ (Int.log 2 a + 1) := Int.lt_zpow_succ_log_self (by norm_num) a
  have h2 : ((2 : ℕ) : ℚ) ^ (Int.log 2 a + 1) ≤ ((2 : ℕ) : ℚ) ^ (binade a + 1) := by
    apply zpow_le_zpow_right₀ (by norm_num)
    unfold binade
    have := le_max_left (Int.log 2 a) (-1022)
    omega
  have h3 := lt_of_lt_of_le h1 h2
  simpa using h3

theorem zpow_binade_le {a : ℚ} (ha : 0 < a) (h : -1022 < binade a) : 2 ^ binade a ≤ a := by
  have hb : binade a = Int.log 2 a := by
    unfold binade at h ⊢
    rcases max_cases (Int.log 2 a) (-1022) with ⟨h1, -⟩ | ⟨h1, -⟩
    · exact h1
    · rw [h1] at h; exact absurd h (lt_irrefl _)
  rw [hb]
  have := Int.zpow_log_le_self (R := ℚ) (b := 2) (by norm_num) ha
  simpa using this

theorem binade_mono {a b : ℚ} (ha : 0 < a) (hab : a ≤ b) : binade a ≤ binade b := by
  unfold binade
  exact max_le_max (Int.log_mono_right ha hab) (le_refl _)

theorem binade_eq (a : ℚ) (e : ℤ) (ha : 0 < a) (he : -1022 ≤ e)
    (hlo : e = -1022 ∨ 2 ^ e ≤ a) (hhi : a < 2 ^ (e + 1)) : binade a = e := by
  have h1 : Int.log 2 a < e + 1 := by
    rw [← Int.lt_zpow_iff_log_lt (by norm_num) ha]
    simpa using hhi
  unfold binade
  rcases hlo with h | h
  · rw [h] at h1 ⊢
    exact max_eq_right (by omega)
  · have h2 : e ≤ Int.log 2 a := by
      rw [← Int.zpow_le_iff_le_log (by norm_num) ha]
      simpa using h
    rw [max_eq_left (by omega)]
    omega

theorem ulp_pos (a : ℚ) : 0 < ulp a := by
  unfold ulp
  positivity

/-! ## Rounded magnitudes -/

theorem roundMag_nonneg {a : ℚ} (ha : 0 ≤ a) : 0 ≤ roundMag a := by
  unfold roundMag
  have h1 : 0 ≤ a / ulp a := div_nonneg ha (le_of_lt (ulp_pos a))
  have h2 : (0 : ℚ) ≤ (rne (a / ulp a) : ℚ) := by exact_mod_cast rne_nonneg h1
  exact mul_nonneg h2 (le_of_lt (ulp_pos a))

theorem roundMag_le_top (a : ℚ) : roundMag a ≤ 2 ^ (binade a + 1) := by
  unfold roundMag
  have hu := ulp_pos a
  have h1 : a / ulp a ≤ (((2 : ℤ) ^ 53 : ℤ) : ℚ) := by
    rw [div_le_iff₀ hu]
    have h := le_of_lt (lt_zpow_binade_succ a)
    have e : (((2 : ℤ) ^ 53 : ℤ) : ℚ) * ulp a = 2 ^ (binade a + 1) := by
      unfold ulp
      rw [show binade a + 1 = 53 + (binade a - 52) by ring, zpow_add₀ (by norm_num)]
      norm_num
    rw [e]; exact h
  have h2 := rne_mono h1
  rw [rne_intCast] at h2
  have h3 : (rne (a / ulp a) : ℚ) ≤ (((2 : ℤ) ^ 53 : ℤ) : ℚ) := by exact_mod_cast h2
  have e : (2 : ℚ) ^ (binade a + 1) = (((2 : ℤ) ^ 53 : ℤ) : ℚ) * ulp a := by
    unfold ulp
    rw [show binade a + 1 = 53 + (binade a - 52) by ring, zpow_add₀ (by norm_num)]
    norm_num
  rw [e]
  exact mul_le_mul_of_nonneg_right h3 (le_of_lt hu)

theorem roundMag_ge_bot {a : ℚ} (h : 2 ^ binade a ≤ a) : 2 ^ binade a ≤ roundMag a := by
  unfold roundMag
  have hu := ulp_pos a
  have e : (2 : ℚ) ^ binade a = (((2 : ℤ) ^ 52 : ℤ) : ℚ) * ulp a := by
    unfold ulp
    rw [show binade a = 52 + (binade a - 52) by ring, zpow_add₀ (by norm_num)]
    norm_num
  have h1 : (((2 : ℤ) ^ 52 : ℤ) : ℚ) ≤ a / ulp a := by
    rw [le_div_iff₀ hu, ← e]; exact h
  have h2 := rne_mono h1
  rw [rne_intCast] at h2
  have h3 : (((2 : ℤ) ^ 52 : ℤ) : ℚ) ≤ (rne (a / ulp a) : ℚ) := by exact_mod_cast h2
  rw [e]
  exact mul_le_mul_of_nonneg_right h3 (le_of_lt hu)

theorem roundMag_mono {a b : ℚ} (ha : 0 < a) (hab : a ≤ b) : roundMag a ≤ roundMag b := by
  have hb : 0 < b := lt_of_lt_of_le ha hab
  rcases lt_or_eq_of_le (binade_mono ha hab) with hlt | heq
  · have h1 := roundMag_le_top a
    have h2 : (2 : ℚ) ^ (binade a + 1) ≤ 2 ^ binade b :=
      zpow_le_zpow_right₀ (by norm_num) (by omega)
    have h3 : (2 : ℚ) ^ binade b ≤ b :=
      zpow_binade_le hb (by have := binade_ge a; omega)
    exact le_trans h1 (le_trans h2 (roundMag_ge_bot h3))
  · have hu : ulp a = ulp b := by unfold ulp; rw [heq]
    unfold roundMag
    rw [hu]
    have h1 : a / ulp b ≤ b / ulp b := div_le_div_of_nonneg_right hab (le_of_lt (ulp_pos b))
    have h2 : (rne (a / ulp b) : ℚ) ≤ (rne (b / ulp b) : ℚ) := by exact_mod_cast rne_mono h1
    exact mul_le_mul_of_nonneg_right h2 (le_of_lt (ulp_pos b))

/-- A number with at most 53 significant bits and an exponent no lower than that of the
subnormals is left unchanged. -/
theorem roundMag_exact (m k : ℤ) (hm : 0 < m) (hm2 : m < 2 ^ 53) (hk : -1074 ≤ k) :
    roundMag ((m : ℚ) * 2 ^ k) = (m : ℚ) * 2 ^ k := by
  have hmq : (0 : ℚ) < (m : ℚ) := by exact_mod_cast hm
  have hpos : (0 : ℚ) < (m : ℚ) * 2 ^ k := by positivity
  have hbk : binade ((m : ℚ) * 2 ^ k) - 52 ≤ k := by
    by_cases hb : -1022 < binade ((m : ℚ) * 2 ^ k)
    · have h1 := zpow_binade_le hpos hb
      have h2 : (m : ℚ) * 2 ^ k < 2 ^ (53 + k) := by
        rw [zpow_add₀ (by norm_num)]
        have : (m : ℚ) < 2 ^ (53 : ℤ) := by
          have h0 : (m : ℚ) < (((2 : ℤ) ^ 53 : ℤ) : ℚ) := by exact_mod_cast hm2
          have h1 : (((2 : ℤ) ^ 53 : ℤ) : ℚ) = 2 ^ (53 : ℤ) := by norm_num
          rw [h1] at h0
          exact h0
        exact mul_lt_mul_of_pos_right this (by positivity)
      have h3 : (2 : ℚ) ^ binade ((m : ℚ) * 2 ^ k) < 2 ^ (53 + k) := lt_of_le_of_lt h1 h2
      have h4 := (zpow_lt_zpow_iff_right₀ (by norm_num : (1 : ℚ) < 2)).mp h3
      omega
    · have := binade_ge ((m : ℚ) * 2 ^ k)
      omega
  obtain ⟨j, hj⟩ : ∃ j : ℕ, k = (binade ((m : ℚ) * 2 ^ k) - 52) + j :=
    ⟨(k - (binade ((m : ℚ) * 2 ^ k) - 52)).toNat, by omega⟩
  have hdiv : (m : ℚ) * 2 ^ k / ulp ((m : ℚ) * 2 ^ k) = ((m * 2 ^ j : ℤ) : ℚ) := by
    unfold ulp
    rw [div_eq_iff (by positivity)]
    nth_rewrite 1 [hj]
    rw [zpow_add₀ (by norm_num), zpow_natCast]
    push_cast
    ring
  unfold roundMag
  rw [hdiv, rne_intCast, ← hdiv]
  exact div_mul_cancel₀ _ (ne_of_gt (ulp_pos _))

/-- A rounded magnitude is zero or has at most 53 significant bits. -/
theorem roundMag_repr {a : ℚ} (ha : 0 < a) :
    roundMag a = 0 ∨
      ∃ m k : ℤ, 0 < m ∧ m < 2 ^ 53 ∧ -1074 ≤ k ∧ roundMag a = (m : ℚ) * 2 ^ k := by
  have hn : 0 ≤ rne (a / ulp a) := rne_nonneg (div_nonneg (le_of_lt ha) (le_of_lt (ulp_pos a)))
  have htop : rne (a / ulp a) ≤ 2 ^ 53 := by
    have h1 := roundMag_le_top a
    unfold roundMag at h1
    have e : (2 : ℚ) ^ (binade a + 1) = (((2 : ℤ) ^ 53 : ℤ) : ℚ) * ulp a := by
      unfold ulp
      rw [show binade a + 1 = 53 + (binade a - 52) by ring, zpow_add₀ (by norm_num)]
      norm_num
    rw [e] at h1
    have h2 := le_of_mul_le_mul_right h1 (ulp_pos a)
    exact_mod_cast h2
  have hb := binade_ge a
  rcases eq_or_lt_of_le hn with h0 | hpos
  · left
    unfold roundMag
    rw [← h0]
    simp
  · right
    rcases eq_or_lt_of_le htop with htop | hlt
    · refine ⟨1, binade a + 1, by norm_num, by norm_num, by omega, ?_⟩
      unfold roundMag
      rw [htop]
      unfold ulp
      rw [show binade a + 1 = 53 + (binade a - 52) by ring, zpow_add₀ (by norm_num)]
      norm_num
    · exact ⟨rne (a / ulp a), binade a - 52, hpos, hlt, by omega, rfl⟩

theorem roundMag_idem {a : ℚ} (ha : 0 < a) (h : 0 < roundMag a) :
    roundMag (roundMag a) = roundMag a := by
  rcases roundMag_repr ha with h0 | ⟨m, k, hm, hm2, hk, he⟩
  · rw [h0] at h; exact absurd h (lt_irrefl _)
  · rw [he]
    exact roundMag_exact m k hm hm2 hk

/-! ## Order on doubles -/

theorem dbl_zero_eq : (0 : Dbl) = fin 0 := congrArg fin Nat.cast_zero

theorem dbl_one_eq : (1 : Dbl) = fin 1 := congrArg fin Nat.cast_one

theorem dbl_ofNat_eq (n : ℕ) [n.AtLeastTwo] :
    (OfNat.ofNat n : Dbl) = fin (OfNat.ofNat n) :=
  congrArg fin Nat.cast_ofNat

@[simp] theorem dbl_fin_lt_fin (a b : ℚ) : (fin a < fin b) ↔ a < b := Iff.rfl

@[simp] theorem dbl_fin_le_fin (a b : ℚ) : (fin a ≤ fin b) ↔ a ≤ b := Iff.rfl

@[simp] theorem dbl_not_nan_lt (x : Dbl) : ¬ (nan < x) := fun h => h

@[simp] theorem dbl_not_lt_nan (x : Dbl) : ¬ (x < nan) := by
  cases x <;> exact fun h => h

@[simp] theorem dbl_not_nan_le (x : Dbl) : ¬ (nan ≤ x) := fun h => h

@[simp] theorem dbl_not_le_nan (x : Dbl) : ¬ (x ≤ nan) := by
  cases x <;> exact fun h => h

@[simp] theorem dbl_fin_lt_inf (a : ℚ) (n : Bool) : (fin a < inf n) ↔ n = false := Iff.rfl

@[simp] theorem dbl_inf_lt_fin (a : ℚ) (n : Bool) : (inf n < fin a) ↔ n = true := Iff.rfl

@[simp] theorem dbl_inf_lt_inf (n m : Bool) : (inf n < inf m) ↔ n = true ∧ m = false :=
  Iff.rfl

@[simp] theorem dbl_fin_le_inf (a : ℚ) (n : Bool) : (fin a ≤ inf n) ↔ n = false := Iff.rfl

@[simp] theorem dbl_inf_le_fin (a : ℚ) (n : Bool) : (inf n ≤ fin a) ↔ n = true := Iff.rfl

@[simp] theorem dbl_inf_le_inf (n m : Bool) : (inf n ≤ inf m) ↔ n = true ∨ m = false :=
  Iff.rfl

theorem dbl_ne_nan_of_lt {x y : Dbl} (h : x < y) : x ≠ nan ∧ y ≠ nan := by
  constructor
  · rintro rfl; exact dbl_not_nan_lt _ h
  · rintro rfl; exact dbl_not_lt_nan _ h

theorem dbl_ne_nan_of_le {x y : Dbl} (h : x ≤ y) : x ≠ nan ∧ y ≠ nan := by
  constructor
  · rintro rfl; exact dbl_not_nan_le _ h
  · rintro rfl; exact dbl_not_le_nan _ h

theorem dbl_le_refl {x : Dbl} (h : x ≠ nan) : x ≤ x := by
  cases x with
  | nan => exact absurd rfl h
  | inf n => cases n <;> simp
  | fin a => simp

theorem dbl_le_of_lt {x y : Dbl} (h : x < y) : x ≤ y := by
  cases x with
  | nan => exact absurd h (dbl_not_nan_lt _)
  | inf n =>
    cases y with
    | nan => exact absurd h (dbl_not_lt_nan _)
    | inf m => cases n <;> cases m <;> simp_all
    | fin b => cases n <;> simp_all
  | fin a =>
    cases y with
    | nan => exact absurd h (dbl_not_lt_nan _)
    | inf m => cases m <;> simp_all
    | fin b =>
      have h1 : a < b := h
      exact (dbl_fin_le_fin a b).mpr h1.le

theorem dbl_lt_irrefl (x : Dbl) : ¬ (x < x) := by
  cases x with
  | nan => simp
  | inf n => cases n <;> simp
  | fin a => simp

theorem dbl_le_trans {x y z : Dbl} (h1 : x ≤ y) (h2 : y ≤ z) : x ≤ z := by
  cases x <;> cases y <;> cases z <;> simp_all <;>
  first
    | exact h1.trans h2
    | (rename_i n m k; cases n <;> cases m <;> cases k <;> simp_all)

theorem dbl_lt_of_lt_of_le {x y z : Dbl} (h1 : x < y) (h2 : y ≤ z) : x < z := by
  cases x <;> cases y <;> cases z <;> simp_all
  exact h1.trans_le h2

theorem dbl_lt_of_le_of_lt {x y z : Dbl} (h1 : x ≤ y) (h2 : y < z) : x < z := by
  cases x <;> cases y <;> cases z <;> simp_all
  exact h1.trans_lt h2

theorem dbl_lt_trans {x y z : Dbl} (h1 : x < y) (h2 : y < z) : x < z :=
  dbl_lt_of_lt_of_le h1 (dbl_le_of_lt h2)

/-- Among values that are not NaN the order is total. -/
theorem dbl_le_of_not_lt {x y : Dbl} (hx : x ≠ nan) (hy : y ≠ nan) (h : ¬ (x < y)) :
    y ≤ x := by
  cases x with
  | nan => exact absurd rfl hx
  | inf n =>
    cases y with
    | nan => exact absurd rfl hy
    | inf m => cases n <;> cases m <;> simp_all
    | fin b => cases n <;> simp_all
  | fin a =>
    cases y with
    | nan => exact absurd rfl hy
    | inf m => cases m <;> simp_all
    | fin b => simp_all

theorem dbl_not_lt_of_le {x y : Dbl} (h : x ≤ y) : ¬ (y < x) := by
  cases x with
  | nan => simp
  | inf n =>
    cases y with
    | nan => simp
    | inf m => cases n <;> cases m <;> simp_all
    | fin b => cases n <;> simp_all
  | fin a =>
    cases y with
    | nan => simp
    | inf m => cases m <;> simp_all
    | fin b => simp_all

theorem dbl_not_le_of_lt {x y : Dbl} (h : x < y) : ¬ (y ≤ x) := by
  cases x with
  | nan => simp
  | inf n =>
    cases y with
    | nan => simp
    | inf m => cases n <;> cases m <;> simp_all
    | fin b => cases n <;> simp_all
  | fin a =>
    cases y with
    | nan => simp
    | inf m => cases m <;> simp_all
    | fin b => simp_all

theorem dbl_lt_of_not_le {x y : Dbl} (hx : x ≠ nan) (hy : y ≠ nan) (h : ¬ (x ≤ y)) :
    y < x := by
  cases x with
  | nan => exact absurd rfl hx
  | inf n =>
    cases y with
    | nan => exact absurd rfl hy
    | inf m => cases n <;> cases m <;> simp_all
    | fin b => cases n <;> simp_all
  | fin a =>
    cases y with
    | nan => exact absurd rfl hy
    | inf m => cases m <;> simp_all
    | fin b => simp_all

/-! ## Rounding to binary64 -/

theorem round64_zero : round64 0 = fin 0 := by
  unfold round64
  rw [if_pos rfl]

theorem round64_ne_nan (q : ℚ) : round64 q ≠ nan := by
  unfold round64
  split_ifs <;> exact fun h => Dbl.noConfusion h

theorem round64_of_pos {q : ℚ} (hq : 0 < q) :
    round64 q = if (2 : ℚ) ^ (1024 : ℤ) ≤ roundMag q then inf false else fin (roundMag q) := by
  unfold round64
  rw [if_neg (ne_of_gt hq), abs_of_pos hq, if_neg (not_lt.mpr (le_of_lt hq))]
  split_ifs
  · simp [not_lt.mpr (le_of_lt hq)]
  · rfl

theorem round64_neg (q : ℚ) : round64 (-q) = Dbl.neg (round64 q) := by
  have key : ∀ p : ℚ, 0 < p → round64 (-p) = Dbl.neg (round64 p) := by
    intro p hp
    have hn : -p < 0 := neg_neg_of_pos hp
    rw [round64_of_pos hp]
    unfold round64
    rw [if_neg (ne_of_lt hn), abs_neg, abs_of_pos hp, if_pos hn]
    by_cases h1 : (2 : ℚ) ^ (1024 : ℤ) ≤ roundMag p
    · rw [if_pos h1, if_pos h1]
      simp [Dbl.neg, hn]
    · rw [if_neg h1, if_neg h1]
      rfl
  rcases lt_trichotomy q 0 with h | h | h
  · have h2 := key (-q) (neg_pos.mpr h)
    rw [neg_neg] at h2
    rw [h2]
    cases round64 (-q) <;> simp [Dbl.neg]
  · subst h
    rw [neg_zero, round64_zero]
    simp [Dbl.neg]
  · exact key q h

theorem round64_nonneg {q : ℚ} (hq : 0 ≤ q) : (0 : Dbl) ≤ round64 q := by
  rw [dbl_zero_eq]
  rcases eq_or_lt_of_le hq with h | h
  · rw [← h, round64_zero]; simp
  · rw [round64_of_pos h]
    split_ifs
    · simp
    · simp; exact roundMag_nonneg hq

theorem round64_mono_pos {q r : ℚ} (hq : 0 < q) (hqr : q ≤ r) : round64 q ≤ round64 r := by
  have hr : 0 < r := lt_of_lt_of_le hq hqr
  have hm := roundMag_mono hq hqr
  rw [round64_of_pos hq, round64_of_pos hr]
  split_ifs with h1 h2 h2
  · simp
  · exact absurd (le_trans h1 hm) h2
  · simp
  · simp; exact hm

theorem dbl_neg_le_neg {x y : Dbl} (h : x ≤ y) : Dbl.neg y ≤ Dbl.neg x := by
  cases x with
  | nan => exact absurd h (dbl_not_nan_le _)
  | inf n =>
    cases y with
    | nan => exact absurd h (dbl_not_le_nan _)
    | inf m => cases n <;> cases m <;> simp_all [Dbl.neg]
    | fin b => cases n <;> simp_all [Dbl.neg]
  | fin a =>
    cases y with
    | nan => exact absurd h (dbl_not_le_nan _)
    | inf m => cases m <;> simp_all [Dbl.neg]
    | fin b =>
      have h1 : a ≤ b := h
      simp only [Dbl.neg, dbl_fin_le_fin]
      linarith

theorem round64_nonpos {q : ℚ} (hq : q ≤ 0) : round64 q ≤ (0 : Dbl) := by
  have h := dbl_neg_le_neg (round64_nonneg (neg_nonneg.mpr hq))
  rw [round64_neg] at h
  have e1 : Dbl.neg (Dbl.neg (round64 q)) = round64 q := by
    cases round64 q <;> simp [Dbl.neg]
  have e2 : Dbl.neg (0 : Dbl) = 0 := by
    rw [dbl_zero_eq]; simp [Dbl.neg]
  rw [e1, e2] at h
  exact h

/-- Rounding is monotone. -/
theorem round64_mono {q r : ℚ} (hqr : q ≤ r) : round64 q ≤ round64 r := by
  rcases lt_or_le 0 q with hq | hq
  · exact round64_mono_pos hq hqr
  · rcases le_or_lt 0 r with hr | hr
    · exact dbl_le_trans (round64_nonpos hq) (round64_nonneg hr)
    · have h := round64_mono_pos (neg_pos.mpr hr) (neg_le_neg hqr)
      rw [round64_neg, round64_neg] at h
      have h2 := dbl_neg_le_neg h
      have e : ∀ x : Dbl, Dbl.neg (Dbl.neg x) = x := by
        intro x; cases x <;> simp [Dbl.neg]
      rw [e, e] at h2
      exact h2

/-- A value produced by rounding is left unchanged by rounding. -/
theorem round64_idem {q r : ℚ} (h : round64 q = fin r) : round64 r = fin r := by
  have key : ∀ p s : ℚ, 0 < p → round64 p = fin s → round64 s = fin s := by
    intro p s hp hs
    rw [round64_of_pos hp] at hs
    split_ifs at hs with h1
    injection hs with hs
    subst hs
    rcases eq_or_lt_of_le (roundMag_nonneg (le_of_lt hp)) with h0 | hpos
    · rw [← h0]; exact round64_zero
    · rw [round64_of_pos hpos, roundMag_idem hp hpos, if_neg h1]
  rcases lt_trichotomy q 0 with hq | hq | hq
  · have h2 : round64 (-q) = fin (-r) := by
      rw [round64_neg, h]; rfl
    have h3 := key (-q) (-r) (neg_pos.mpr hq) h2
    have h4 := round64_neg (-r)
    rw [neg_neg, h3] at h4
    rw [h4]
    simp [Dbl.neg]
  · subst hq
    rw [round64_zero] at h
    injection h with h
    rw [← h]
    exact round64_zero
  · exact key q r hq h

/-- A number with at most 53 significant bits, an exponent no lower than that of the
subnormals and a magnitude below `2 ^ 1024` is a double. -/
theorem round64_exact (m k : ℤ) (hm : |m| < 2 ^ 53) (hk : -1074 ≤ k) (hk2 : k ≤ 971) :
    round64 ((m : ℚ) * 2 ^ k) = fin ((m : ℚ) * 2 ^ k) := by
  have key : ∀ n : ℤ, 0 < n → n < 2 ^ 53 →
      round64 ((n : ℚ) * 2 ^ k) = fin ((n : ℚ) * 2 ^ k) := by
    intro n hn hn2
    have hnq : (0 : ℚ) < (n : ℚ) := by exact_mod_cast hn
    have hpos : (0 : ℚ) < (n : ℚ) * 2 ^ k := by positivity
    rw [round64_of_pos hpos, roundMag_exact n k hn hn2 hk]
    have hlt : (n : ℚ) * 2 ^ k < 2 ^ (1024 : ℤ) := by
      have h1 : (n : ℚ) < 2 ^ (53 : ℤ) := by
        have h0 : (n : ℚ) < (((2 : ℤ) ^ 53 : ℤ) : ℚ) := by exact_mod_cast hn2
        have e : (((2 : ℤ) ^ 53 : ℤ) : ℚ) = 2 ^ (53 : ℤ) := by norm_num
        rw [e] at h0
        exact h0
      have h2 : (2 : ℚ) ^ k ≤ 2 ^ (971 : ℤ) := zpow_le_zpow_right₀ (by norm_num) hk2
      calc (n : ℚ) * 2 ^ k < 2 ^ (53 : ℤ) * 2 ^ k :=
            mul_lt_mul_of_pos_right h1 (by positivity)
        _ ≤ 2 ^ (53 : ℤ) * 2 ^ (971 : ℤ) := mul_le_mul_of_nonneg_left h2 (by positivity)
        _ = 2 ^ (1024 : ℤ) := by rw [← zpow_add₀ (by norm_num)]; norm_num
    rw [if_neg (not_le.mpr hlt)]
  rcases lt_trichotomy m 0 with h | h | h
  · have h1 := key (-m) (by omega) (by rw [abs_of_neg h] at hm; exact hm)
    have h2 := round64_neg (((-m : ℤ) : ℚ) * 2 ^ k)
    rw [h1] at h2
    have e : -(((-m : ℤ) : ℚ) * 2 ^ k) = (m : ℚ) * 2 ^ k := by push_cast; ring
    rw [e] at h2
    rw [h2]
    simp only [Dbl.neg]
    rw [e]
  · subst h
    simp [round64_zero]
  · exact key m h (by rw [abs_of_pos h] at hm; exact hm)

/-- Evaluation of rounding on a positive rational from its binade `e` and the rounded
significand `n`. -/
theorem round64_eval {q : ℚ} (e n : ℤ) (hq : 0 < q) (he : -1022 ≤ e)
    (hlo : e = -1022 ∨ 2 ^ e ≤ q) (hhi : q < 2 ^ (e + 1))
    (hn : rne (q / 2 ^ (e - 52)) = n) (hr : (n : ℚ) * 2 ^ (e - 52) < 2 ^ (1024 : ℤ)) :
    round64 q = fin ((n : ℚ) * 2 ^ (e - 52)) := by
  have hb := binade_eq q e hq he hlo hhi
  rw [round64_of_pos hq]
  unfold roundMag ulp
  rw [hb, hn, if_neg (not_le.mpr hr)]

/-- An exact result of magnitude `2 ^ 1024` or more overflows to an infinity. -/
theorem round64_overflow {q : ℚ} (hq : 2 ^ (1024 : ℤ) ≤ q) : round64 q = inf false := by
  have hpos : 0 < q := lt_of_lt_of_le (by positivity) hq
  have hb : 1024 ≤ binade q := by
    unfold binade
    refine le_trans ?_ (le_max_left _ _)
    rw [← Int.zpow_le_iff_le_log (by norm_num) hpos]
    simpa using hq
  have h1 : (2 : ℚ) ^ binade q ≤ q := zpow_binade_le hpos (by omega)
  have h2 := roundMag_ge_bot h1
  have h3 : (2 : ℚ) ^ (1024 : ℤ) ≤ 2 ^ binade q := zpow_le_zpow_right₀ (by norm_num) hb
  rw [round64_of_pos hpos, if_pos (le_trans h3 h2)]

/-- A double is an integer multiple of `2 ^ (-1074)`. -/
theorem fin_multiple {x : ℚ} (h : round64 x = fin x) : ∃ z : ℤ, x = (z : ℚ) * 2 ^ (-1074 : ℤ) := by
  have key : ∀ p : ℚ, 0 < p → round64 p = fin p → ∃ z : ℤ, p = (z : ℚ) * 2 ^ (-1074 : ℤ) := by
    intro p hp hv
    rw [round64_of_pos hp] at hv
    split_ifs at hv with h1
    injection hv with hv
    obtain ⟨j, hj⟩ : ∃ j : ℕ, binade p - 52 = -1074 + j :=
      ⟨(binade p - 52 + 1074).toNat, by have := binade_ge p; omega⟩
    refine ⟨rne (p / ulp p) * 2 ^ j, ?_⟩
    nth_rewrite 1 [← hv]
    unfold roundMag ulp
    rw [hj, zpow_add₀ (by norm_num), zpow_natCast]
    push_cast
    ring
  rcases lt_trichotomy x 0 with hx | hx | hx
  · have h2 : round64 (-x) = fin (-x) := by rw [round64_neg, h]; rfl
    obtain ⟨z, hz⟩ := key (-x) (neg_pos.mpr hx) h2
    refine ⟨-z, ?_⟩
    push_cast
    linarith
  · exact ⟨0, by simp [hx]⟩
  · exact key x hx h

/-- The difference of two distinct doubles does not round to zero: `x < y` gives
`y - x > 0` in double arithmetic. -/
theorem round64_sub_pos {x y : ℚ} (hx : round64 x = fin x) (hy : round64 y = fin y)
    (hxy : x < y) : (0 : Dbl) < round64 (y - x) := by
  obtain ⟨zx, hzx⟩ := fin_multiple hx
  obtain ⟨zy, hzy⟩ := fin_multiple hy
  have hz : zx < zy := by
    have h1 : (zx : ℚ) * 2 ^ (-1074 : ℤ) < (zy : ℚ) * 2 ^ (-1074 : ℤ) := by
      rw [← hzx, ← hzy]; exact hxy
    have h2 := lt_of_mul_lt_mul_right h1 (by positivity)
    exact_mod_cast h2
  have hd : (2 : ℚ) ^ (-1074 : ℤ) ≤ y - x := by
    rw [hzx, hzy, ← sub_mul]
    have h1 : (1 : ℚ) ≤ (zy : ℚ) - (zx : ℚ) := by
      have : zx + 1 ≤ zy := hz
      have h2 : ((zx + 1 : ℤ) : ℚ) ≤ (zy : ℚ) := by exact_mod_cast this
      push_cast at h2
      linarith
    calc (2 : ℚ) ^ (-1074 : ℤ) = 1 * 2 ^ (-1074 : ℤ) := (one_mul _).symm
      _ ≤ ((zy : ℚ) - (zx : ℚ)) * 2 ^ (-1074 : ℤ) :=
          mul_le_mul_of_nonneg_right h1 (by positivity)
  have hmin : round64 ((2 : ℚ) ^ (-1074 : ℤ)) = fin ((2 : ℚ) ^ (-1074 : ℤ)) := by
    have := round64_exact 1 (-1074) (by norm_num) (by norm_num) (by norm_num)
    simpa using this
  have hmono := round64_mono hd
  rw [hmin] at hmono
  rw [dbl_zero_eq]
  exact dbl_lt_of_lt_of_le (by simp; positivity) hmono

/-! ## Arithmetic on doubles -/

theorem dbl_add_def (x y : Dbl) : x + y = Dbl.add x y := rfl

theorem dbl_sub_def (x y : Dbl) : x - y = Dbl.add x (Dbl.neg y) := rfl

theorem dbl_mul_def (x y : Dbl) : x * y = Dbl.mul x y := rfl

theorem dbl_div_def (x y : Dbl) : x / y = Dbl.div x y := rfl

theorem dbl_neg_def (x : Dbl) : -x = Dbl.neg x := rfl

theorem isValue_round64 (q : ℚ) : (round64 q).IsValue := by
  cases h : round64 q with
  | nan => trivial
  | inf n => trivial
  | fin r => exact round64_idem h

theorem isValue_zero : (0 : Dbl).IsValue := by
  rw [dbl_zero_eq]; exact round64_zero

theorem isValue_add (x y : Dbl) : (x + y).IsValue := by
  rw [dbl_add_def]
  cases x <;> cases y <;> simp only [Dbl.add] <;>
    first | trivial | exact isValue_round64 _ | (split_ifs <;> trivial)

theorem isValue_neg {x : Dbl} (h : x.IsValue) : (Dbl.neg x).IsValue := by
  cases x with
  | nan => trivial
  | inf n => trivial
  | fin a =>
    have h1 : round64 a = fin a := h
    show round64 (-a) = fin (-a)
    rw [round64_neg, h1]
    rfl

theorem isValue_sub (x y : Dbl) : (x - y).IsValue := by
  rw [dbl_sub_def]
  exact isValue_add x (Dbl.neg y)

theorem isValue_mul (x y : Dbl) : (x * y).IsValue := by
  rw [dbl_mul_def]
  cases x <;> cases y <;> simp only [Dbl.mul] <;>
    first | trivial | exact isValue_round64 _ | (split_ifs <;> trivial)

theorem isValue_div (x y : Dbl) : (x / y).IsValue := by
  rw [dbl_div_def]
  cases x <;> cases y <;> simp only [Dbl.div] <;>
    first
      | trivial
      | exact round64_zero
      | (split_ifs <;> first | trivial | exact isValue_round64 _)

/-- A finite double minus itself is zero. -/
theorem dbl_sub_self_fin (a : ℚ) : fin a - fin a = 0 := by
  rw [dbl_sub_def, dbl_zero_eq]
  simp only [Dbl.neg, Dbl.add]
  rw [add_neg_cancel, round64_zero]

/-- For doubles `x < y`, the computed difference `y - x` is positive. -/
theorem dbl_sub_pos {x y : Dbl} (hx : x.IsValue) (hy : y.IsValue) (h : x < y) :
    (0 : Dbl) < y - x := by
  rw [dbl_sub_def]
  cases x with
  | nan => exact absurd h (dbl_not_nan_lt _)
  | inf n =>
    cases y with
    | nan => exact absurd h (dbl_not_lt_nan _)
    | inf m =>
      cases n <;> cases m <;> simp_all [Dbl.neg, Dbl.add, dbl_zero_eq]
    | fin b => cases n <;> simp_all [Dbl.neg, Dbl.add, dbl_zero_eq]
  | fin a =>
    cases y with
    | nan => exact absurd h (dbl_not_lt_nan _)
    | inf m => cases m <;> simp_all [Dbl.neg, Dbl.add, dbl_zero_eq]
    | fin b =>
      have h1 : a < b := h
      have h2 := round64_sub_pos hx hy h1
      simp only [Dbl.neg, Dbl.add]
      rw [← sub_eq_add_neg]
      exact h2

/-- The product of two non-negative doubles is non-negative, or NaN (zero times an
infinity); a NaN factor gives NaN. -/
theorem dbl_mul_nonneg {x y : Dbl} (hx : x = nan ∨ (0 : Dbl) ≤ x)
    (hy : y = nan ∨ (0 : Dbl) ≤ y) : x * y = nan ∨ (0 : Dbl) ≤ x * y := by
  rw [dbl_mul_def]
  rw [dbl_zero_eq] at hx hy ⊢
  rcases hx with rfl | hx
  · left; cases y <;> rfl
  rcases hy with rfl | hy
  · left; cases x <;> rfl
  cases x with
  | nan => exact absurd hx (dbl_not_le_nan _)
  | inf n =>
    cases y with
    | nan => exact absurd hy (dbl_not_le_nan _)
    | inf m =>
      right
      simp only [dbl_fin_le_inf] at hx hy
      subst hx; subst hy
      simp [Dbl.mul]
    | fin b =>
      simp only [dbl_fin_le_inf] at hx
      subst hx
      have hb : 0 ≤ b := hy
      simp only [Dbl.mul]
      split_ifs with h0
      · left; rfl
      · right
        have : ¬ b < 0 := not_lt.mpr hb
        simp [this]
  | fin a =>
    have ha : 0 ≤ a := hx
    cases y with
    | nan => exact absurd hy (dbl_not_le_nan _)
    | inf m =>
      simp only [dbl_fin_le_inf] at hy
      subst hy
      simp only [Dbl.mul]
      split_ifs with h0
      · left; rfl
      · right
        have : ¬ a < 0 := not_lt.mpr ha
        simp [this]
    | fin b =>
      have hb : 0 ≤ b := hy
      right
      simp only [Dbl.mul]
      have := round64_nonneg (mul_nonneg ha hb)
      rw [dbl_zero_eq] at this
      exact this

/-- The quotient of a non-negative double by a positive one is non-negative, or NaN
(an infinity over an infinity); a NaN dividend gives NaN. -/
theorem dbl_div_nonneg {x y : Dbl} (hx : x = nan ∨ (0 : Dbl) ≤ x) (hy : (0 : Dbl) < y) :
    x / y = nan ∨ (0 : Dbl) ≤ x / y := by
  rw [dbl_div_def]
  rw [dbl_zero_eq] at hx hy ⊢
  rcases hx with rfl | hx
  · left; rfl
  cases x with
  | nan => exact absurd hx (dbl_not_le_nan _)
  | inf n =>
    cases y with
    | nan => exact absurd hy (dbl_not_lt_nan _)
    | inf m => left; rfl
    | fin b =>
      simp only [dbl_fin_le_inf] at hx
      subst hx
      have hb : 0 < b := hy
      right
      have : ¬ b < 0 := not_lt.mpr (le_of_lt hb)
      simp [Dbl.div, this]
  | fin a =>
    have ha : 0 ≤ a := hx
    cases y with
    | nan => exact absurd hy (dbl_not_lt_nan _)
    | inf m => right; simp [Dbl.div]
    | fin b =>
      have hb : 0 < b := hy
      right
      simp only [Dbl.div]
      rw [if_neg (ne_of_gt hb)]
      have := round64_nonneg (div_nonneg ha (le_of_lt hb))
      rw [dbl_zero_eq] at this
      exact this

/-- A double that fails the test `x <= 0` is NaN or positive. -/
theorem dbl_nan_or_pos_of_not_le {x : Dbl} (h : ¬ (x ≤ 0)) : x = nan ∨ (0 : Dbl) < x := by
  by_cases hx : x = nan
  · exact Or.inl hx
  · right
    have h0 : (0 : Dbl) ≠ nan := by rw [dbl_zero_eq]; exact fun h => Dbl.noConfusion h
    exact dbl_lt_of_not_le hx h0 h

/-- Adding a non-negative double (or NaN) to a double gives NaN or a value that is not
below it. -/
theorem dbl_add_ge {x y : Dbl} (hx : x.IsValue) (hy : y = nan ∨ (0 : Dbl) ≤ y) :
    x + y = nan ∨ x ≤ x + y := by
  rw [dbl_add_def]
  rw [dbl_zero_eq] at hy
  rcases hy with rfl | hy
  · left; cases x <;> rfl
  cases y with
  | nan => exact absurd hy (dbl_not_le_nan _)
  | inf m =>
    simp only [dbl_fin_le_inf] at hy
    subst hy
    cases x with
    | nan => left; rfl
    | inf n => cases n <;> simp [Dbl.add]
    | fin a => right; simp [Dbl.add]
  | fin b =>
    have hb : 0 ≤ b := hy
    cases x with
    | nan => left; rfl
    | inf n => right; cases n <;> simp [Dbl.add]
    | fin a =>
      right
      have h1 : round64 a = fin a := hx
      have h2 : round64 a ≤ round64 (a + b) := round64_mono (by linarith)
      rw [h1] at h2
      exact h2

/-- Multiplying a double by `1` leaves it unchanged. -/
theorem dbl_mul_one {x : Dbl} (hx : x.IsValue) : x * 1 = x := by
  rw [dbl_mul_def, dbl_one_eq]
  cases x with
  | nan => rfl
  | inf n =>
    have h1 : ¬ ((1 : ℚ) < 0) := by norm_num
    cases n <;> simp [Dbl.mul, h1]
  | fin a =>
    have h1 : round64 a = fin a := hx
    simp only [Dbl.mul]
    rw [mul_one, h1]

/-! ## The limit resolver in double arithmetic -/

theorem d_stdMax_zero_pos_iff (flow : Dbl) : (0 : Dbl) < stdMax flow 0 ↔ (0 : Dbl) < flow := by
  unfold stdMax
  split_ifs with h
  · constructor
    · intro h0; exact absurd h0 (dbl_lt_irrefl _)
    · intro h0; exact absurd (dbl_lt_trans h0 h) (dbl_lt_irrefl _)
  · exact Iff.rfl

theorem d_doseWHO_pos_iff (jr : JurisdictionRefs) :
    (0 : Dbl) < doseWHO jr ↔
      (0 : Dbl) < jr.Cref_WHO ∧ (0 : Dbl) < jr.BW ∧ (0 : Dbl) < irLps jr ∧
        (0 : Dbl) < jr.Cref_WHO * jr.BW / irLps jr := by
  unfold doseWHO
  by_cases hg : jr.Cref_WHO > 0 ∧ jr.BW > 0 ∧ irLps jr > 0
  · rw [if_pos hg]
    exact ⟨fun h => ⟨hg.1, hg.2.1, hg.2.2, h⟩, fun h => h.2.2.2⟩
  · rw [if_neg hg]
    constructor
    · intro h; exact absurd h (dbl_lt_irrefl _)
    · intro h; exact absurd ⟨h.1, h.2.1, h.2.2.1⟩ hg

theorem d_doseWHO_eq (jr : JurisdictionRefs) (h : (0 : Dbl) < doseWHO jr) :
    doseWHO jr = jr.Cref_WHO * jr.BW / irLps jr := by
  have hg := (d_doseWHO_pos_iff jr).mp h
  unfold doseWHO
  rw [if_pos ⟨hg.1, hg.2.1, hg.2.2.1⟩]

/-- Membership in the collected limits, in the words of the source's three guards. -/
theorem d_mem_admissibleLimits (jr : JurisdictionRefs) (flow c : Dbl) :
    c ∈ admissibleLimits jr flow ↔
      ((0 : Dbl) < jr.Cref_EPA ∧ c = jr.Cref_EPA) ∨
      ((0 : Dbl) < jr.Cref_EU ∧ (0 : Dbl) < flow ∧ c = jr.Cref_EU) ∨
      ((0 : Dbl) < doseWHO jr ∧ c = doseWHO jr) := by
  unfold admissibleLimits
  simp only [List.mem_append, gt_iff_lt, d_stdMax_zero_pos_iff]
  constructor
  · rintro ((h | h) | h)
    · left
      split_ifs at h with h1
      · exact ⟨h1, List.mem_singleton.mp h⟩
      · cases h
    · right; left
      split_ifs at h with h1
      · exact ⟨h1.1, h1.2, List.mem_singleton.mp h⟩
      · cases h
    · right; right
      split_ifs at h with h1
      · exact ⟨h1, List.mem_singleton.mp h⟩
      · cases h
  · rintro (⟨h1, rfl⟩ | ⟨h1, h2, rfl⟩ | ⟨h1, rfl⟩)
    · left; left
      rw [if_pos h1]
      exact List.mem_singleton.mpr rfl
    · left; right
      rw [if_pos ⟨h1, h2⟩]
      exact List.mem_singleton.mpr rfl
    · right
      rw [if_pos h1]
      exact List.mem_singleton.mpr rfl

/-- The collected limits with the clamp `Q = std::max(flow, 0)` resolved: `Q > 0` holds
exactly when `flow > 0`. -/
theorem d_admissibleLimits_eq (jr : JurisdictionRefs) (flow : Dbl) :
    admissibleLimits jr flow =
      (if (0 : Dbl) < jr.Cref_EPA then [jr.Cref_EPA] else []) ++
        (if (0 : Dbl) < jr.Cref_EU ∧ (0 : Dbl) < flow then [jr.Cref_EU] else []) ++
        (if (0 : Dbl) < doseWHO jr then [doseWHO jr] else []) := by
  unfold admissibleLimits
  simp only [gt_iff_lt, d_stdMax_zero_pos_iff]

/-- Every collected limit is positive, hence not NaN. -/
theorem d_admissibleLimits_pos (jr : JurisdictionRefs) (flow c : Dbl)
    (h : c ∈ admissibleLimits jr flow) : (0 : Dbl) < c := by
  rcases (d_mem_admissibleLimits jr flow c).mp h with ⟨h1, rfl⟩ | ⟨h1, -, rfl⟩ | ⟨h1, rfl⟩ <;>
  exact h1

theorem d_minElementFrom_mem (a : Dbl) (l : List Dbl) :
    minElementFrom a l = a ∨ minElementFrom a l ∈ l := by
  induction l generalizing a with
  | nil => exact Or.inl rfl
  | cons x rest ih =>
    simp only [minElementFrom, List.mem_cons]
    rcases ih (if x < a then x else a) with h | h
    · rw [h]
      split_ifs
      · exact Or.inr (Or.inl rfl)
      · exact Or.inl rfl
    · exact Or.inr (Or.inr h)

theorem d_minElementFrom_le (l : List Dbl) :
    ∀ a : Dbl, a ≠ nan → (∀ x ∈ l, x ≠ nan) →
      minElementFrom a l ≤ a ∧ ∀ c ∈ l, minElementFrom a l ≤ c := by
  induction l with
  | nil =>
    intro a ha _
    exact ⟨dbl_le_refl ha, fun c hc => by cases hc⟩
  | cons x rest ih =>
    intro a ha hl
    have hx : x ≠ nan := hl x (List.mem_cons_self x rest)
    have hrest : ∀ y ∈ rest, y ≠ nan := fun y hy => hl y (List.mem_cons_of_mem x hy)
    simp only [minElementFrom]
    by_cases hlt : x < a
    · rw [if_pos hlt]
      obtain ⟨h1, h2⟩ := ih x hx hrest
      refine ⟨dbl_le_trans h1 (dbl_le_of_lt hlt), ?_⟩
      intro c hc
      rcases List.mem_cons.mp hc with rfl | hc
      · exact h1
      · exact h2 c hc
    · rw [if_neg hlt]
      obtain ⟨h1, h2⟩ := ih a ha hrest
      refine ⟨h1, ?_⟩
      intro c hc
      rcases List.mem_cons.mp hc with rfl | hc
      · exact dbl_le_trans h1 (dbl_le_of_not_lt hx ha hlt)
      · exact h2 c hc

/-- A successful resolution returns an element of the collected limits that is below
all of them. -/
theorem d_computeSupremeConcentration_ok (jr : JurisdictionRefs) (flow v : Dbl)
    (h : computeSupremeConcentration jr flow = Except.ok v) :
    v ∈ admissibleLimits jr flow ∧ ∀ c ∈ admissibleLimits jr flow, v ≤ c := by
  have hpos := d_admissibleLimits_pos jr flow
  unfold computeSupremeConcentration at h
  cases hl : admissibleLimits jr flow with
  | nil => rw [hl] at h; cases h
  | cons x rest =>
    rw [hl] at h hpos
    injection h with h
    subst h
    have hnn : ∀ y ∈ x :: rest, y ≠ nan := fun y hy => (dbl_ne_nan_of_lt (hpos y hy)).2
    obtain ⟨h1, h2⟩ := d_minElementFrom_le rest x (hnn x (List.mem_cons_self x rest))
      (fun y hy => hnn y (List.mem_cons_of_mem x hy))
    constructor
    · rcases d_minElementFrom_mem x rest with h3 | h3
      · rw [h3]; exact List.mem_cons_self x rest
      · exact List.mem_cons_of_mem x h3
    · intro c hc
      rcases List.mem_cons.mp hc with rfl | hc
      · exact h1
      · exact h2 c hc

/-- The resolver throws exactly when it collected no limit. -/
theorem d_computeSupremeConcentration_error_iff (jr : JurisdictionRefs) (flow : Dbl)
    (e : Error) :
    computeSupremeConcentration jr flow = Except.error e ↔
      admissibleLimits jr flow = [] ∧ e = noAdmissibleLimits := by
  unfold computeSupremeConcentration
  cases hl : admissibleLimits jr flow with
  | nil =>
    simp only [true_and]
    constructor
    · intro h; injection h with h; exact h.symm
    · intro h; rw [h]
  | cons x rest =>
    constructor
    · intro h; cases h
    · intro h; cases h.1

theorem d_admissibleLimits_eq_nil_iff (jr : JurisdictionRefs) (flow : Dbl) :
    admissibleLimits jr flow = [] ↔
      ¬ ((0 : Dbl) < jr.Cref_EPA) ∧ ¬ ((0 : Dbl) < jr.Cref_EU ∧ (0 : Dbl) < flow) ∧
        ¬ ((0 : Dbl) < doseWHO jr) := by
  rw [List.eq_nil_iff_forall_not_mem]
  simp only [d_mem_admissibleLimits]
  constructor
  · intro h
    refine ⟨?_, ?_, ?_⟩
    · intro hn; exact h _ (Or.inl ⟨hn, rfl⟩)
    · intro hn; exact h _ (Or.inr (Or.inl ⟨hn.1, hn.2, rfl⟩))
    · intro hn; exact h _ (Or.inr (Or.inr ⟨hn, rfl⟩))
  · rintro ⟨h1, h2, h3⟩ c (⟨h, -⟩ | ⟨h, h', -⟩ | ⟨h, -⟩)
    · exact h1 h
    · exact h2 ⟨h, h'⟩
    · exact h3 h

/-- A value the resolver returns is strictly positive. -/
theorem d_computeSupremeConcentration_pos (jr : JurisdictionRefs) (flow v : Dbl)
    (h : computeSupremeConcentration jr flow = Except.ok v) : (0 : Dbl) < v :=
  d_admissibleLimits_pos jr flow v (d_computeSupremeConcentration_ok jr flow v h).1

/-- A value the resolver returns is a double when the references are. -/
theorem d_computeSupremeConcentration_isValue (jr : JurisdictionRefs) (flow v : Dbl)
    (hEPA : jr.Cref_EPA.IsValue) (hEU : jr.Cref_EU.IsValue)
    (h : computeSupremeConcentration jr flow = Except.ok v) : v.IsValue := by
  have hmem := (d_computeSupremeConcentration_ok jr flow v h).1
  rcases (d_mem_admissibleLimits jr flow v).mp hmem with ⟨-, rfl⟩ | ⟨-, -, rfl⟩ | ⟨h1, rfl⟩
  · exact hEPA
  · exact hEU
  · rw [d_doseWHO_eq jr h1]
    exact isValue_div _ _

/-! ## The accumulator in double arithmetic: one equation per path -/

theorem d_updateCeimNode_first (exp : Dbl → Dbl) (st : CeimNodeState) (s : SensorSample)
    (hl : st.has_last = false) :
    updateCeimNode exp st s =
      ({ st with t_last := s.timestamp, has_last := true }, Except.ok st.Kn) := by
  simp [updateCeimNode, hl]

theorem d_updateCeimNode_skip (exp : Dbl → Dbl) (st : CeimNodeState) (s : SensorSample)
    (hl : st.has_last = true)
    (hskip : s.timestamp - st.t_last ≤ 0 ∨ s.flow ≤ 0) :
    updateCeimNode exp st s = ({ st with t_last := s.timestamp }, Except.ok st.Kn) := by
  simp only [updateCeimNode, hl, Bool.not_true, Bool.false_eq_true, if_false, if_pos hskip]

theorem d_updateCeimNode_throw (exp : Dbl → Dbl) (st : CeimNodeState) (s : SensorSample)
    (hl : st.has_last = true)
    (hgo : ¬ (s.timestamp - st.t_last ≤ 0 ∨ s.flow ≤ 0)) (e : Error)
    (hres : computeSupremeConcentration st.refs s.flow = Except.error e) :
    updateCeimNode exp st s = (st, Except.error e) := by
  simp only [updateCeimNode, hl, Bool.not_true, Bool.false_eq_true, if_false, if_neg hgo,
    hres]

theorem d_deltaC_eq (exp : Dbl → Dbl) (st : CeimNodeState) (s : SensorSample) (Csup : Dbl) :
    s.concentration -
        stdMin (if st.k > 0 then
            s.concentration * exp (-st.k * (if st.volume > 0 then st.volume / s.flow else 0))
          else s.concentration) Csup =
      deltaCOf exp st s Csup := rfl

theorem d_updateCeimNode_no_exceedance (exp : Dbl → Dbl) (st : CeimNodeState)
    (s : SensorSample) (hl : st.has_last = true)
    (hgo : ¬ (s.timestamp - st.t_last ≤ 0 ∨ s.flow ≤ 0)) (Csup : Dbl)
    (hres : computeSupremeConcentration st.refs s.flow = Except.ok Csup)
    (hd : deltaCOf exp st s Csup ≤ 0) :
    updateCeimNode exp st s = ({ st with t_last := s.timestamp }, Except.ok st.Kn) := by
  simp only [updateCeimNode, hl, Bool.not_true, Bool.false_eq_true, if_false, if_neg hgo,
    hres, d_deltaC_eq, if_pos hd]

theorem d_updateCeimNode_increment (exp : Dbl → Dbl) (st : CeimNodeState)
    (s : SensorSample) (hl : st.has_last = true)
    (hgo : ¬ (s.timestamp - st.t_last ≤ 0 ∨ s.flow ≤ 0)) (Csup : Dbl)
    (hres : computeSupremeConcentration st.refs s.flow = Except.ok Csup)
    (hd : ¬ (deltaCOf exp st s Csup ≤ 0)) :
    updateCeimNode exp st s =
      ({ st with Kn := st.Kn + incrementOf exp st s Csup, t_last := s.timestamp },
        Except.ok (st.Kn + incrementOf exp st s Csup)) := by
  simp only [updateCeimNode, hl, Bool.not_true, Bool.false_eq_true, if_false, if_neg hgo,
    hres, d_deltaC_eq, if_neg hd]
  rfl

/-- The five paths of `updateCeimNode`, as a case distinction on its input. -/
theorem d_updateCeimNode_cases (exp : Dbl → Dbl) (st : CeimNodeState) (s : SensorSample) :
    (st.has_last = false ∧
      updateCeimNode exp st s =
        ({ st with t_last := s.timestamp, has_last := true }, Except.ok st.Kn)) ∨
    (st.has_last = true ∧ (s.timestamp - st.t_last ≤ 0 ∨ s.flow ≤ 0) ∧
      updateCeimNode exp st s = ({ st with t_last := s.timestamp }, Except.ok st.Kn)) ∨
    (st.has_last = true ∧ ¬ (s.timestamp - st.t_last ≤ 0 ∨ s.flow ≤ 0) ∧
      computeSupremeConcentration st.refs s.flow = Except.error noAdmissibleLimits ∧
      updateCeimNode exp st s = (st, Except.error noAdmissibleLimits)) ∨
    (∃ Csup, st.has_last = true ∧ ¬ (s.timestamp - st.t_last ≤ 0 ∨ s.flow ≤ 0) ∧
      computeSupremeConcentration st.refs s.flow = Except.ok Csup ∧
      deltaCOf exp st s Csup ≤ 0 ∧
      updateCeimNode exp st s = ({ st with t_last := s.timestamp }, Except.ok st.Kn)) ∨
    (∃ Csup, st.has_last = true ∧ ¬ (s.timestamp - st.t_last ≤ 0 ∨ s.flow ≤ 0) ∧
      computeSupremeConcentration st.refs s.flow = Except.ok Csup ∧
      ¬ (deltaCOf exp st s Csup ≤ 0) ∧
      updateCeimNode exp st s =
        ({ st with Kn := st.Kn + incrementOf exp st s Csup, t_last := s.timestamp },
          Except.ok (st.Kn + incrementOf exp st s Csup))) := by
  rcases Bool.eq_false_or_eq_true st.has_last with hl | hl
  · right
    by_cases hskip : s.timestamp - st.t_last ≤ 0 ∨ s.flow ≤ 0
    · exact Or.inl ⟨hl, hskip, d_updateCeimNode_skip exp st s hl hskip⟩
    · right
      cases hres : computeSupremeConcentration st.refs s.flow with
      | error e =>
        have he := ((d_computeSupremeConcentration_error_iff st.refs s.flow e).mp hres).2
        subst he
        exact Or.inl ⟨hl, hskip, rfl, d_updateCeimNode_throw exp st s hl hskip _ hres⟩
      | ok Csup =>
        right
        by_cases hd : deltaCOf exp st s Csup ≤ 0
        · exact Or.inl ⟨Csup, hl, hskip, rfl, hd,
            d_updateCeimNode_no_exceedance exp st s hl hskip Csup hres hd⟩
        · exact Or.inr ⟨Csup, hl, hskip, rfl, hd,
            d_updateCeimNode_increment exp st s hl hskip Csup hres hd⟩
  · exact Or.inl ⟨hl, d_updateCeimNode_first exp st s hl⟩

/-! ## Claims about the limit resolver in double arithmetic -/

/-- Claim C1, as amended.  Whenever `computeSupremeConcentration` returns a value `v`,
that value is the minimum of the candidates the code admits: it is one of them and it is
below each of them.  The candidates are `Cref_EPA` (admitted iff `Cref_EPA > 0`),
`Cref_EU` (iff `Cref_EU > 0` and `flow > 0`) and the double
`dose_WHO = Cref_WHO * BW / (IR / 86400)` (iff `Cref_WHO > 0`, `BW > 0`, the double
`IR / 86400 > 0` and the double `dose_WHO > 0`). -/
theorem C1_supreme_is_min_of_admitted (jr : JurisdictionRefs) (flow v : Dbl)
    (h : computeSupremeConcentration jr flow = Except.ok v) :
    (((0 : Dbl) < jr.Cref_EPA ∧ v = jr.Cref_EPA) ∨
      ((0 : Dbl) < jr.Cref_EU ∧ (0 : Dbl) < flow ∧ v = jr.Cref_EU) ∨
      ((0 : Dbl) < jr.Cref_WHO ∧ (0 : Dbl) < jr.BW ∧ (0 : Dbl) < jr.IR / 86400 ∧
        (0 : Dbl) < jr.Cref_WHO * jr.BW / (jr.IR / 86400) ∧
        v = jr.Cref_WHO * jr.BW / (jr.IR / 86400))) ∧
    ((0 : Dbl) < jr.Cref_EPA → v ≤ jr.Cref_EPA) ∧
    ((0 : Dbl) < jr.Cref_EU ∧ (0 : Dbl) < flow → v ≤ jr.Cref_EU) ∧
    ((0 : Dbl) < jr.Cref_WHO ∧ (0 : Dbl) < jr.BW ∧ (0 : Dbl) < jr.IR / 86400 ∧
        (0 : Dbl) < jr.Cref_WHO * jr.BW / (jr.IR / 86400) →
      v ≤ jr.Cref_WHO * jr.BW / (jr.IR / 86400)) := by
  obtain ⟨hmem, hle⟩ := d_computeSupremeConcentration_ok jr flow v h
  have hdose : ∀ hg : (0 : Dbl) < jr.Cref_WHO ∧ (0 : Dbl) < jr.BW ∧
      (0 : Dbl) < jr.IR / 86400 ∧ (0 : Dbl) < jr.Cref_WHO * jr.BW / (jr.IR / 86400),
      (0 : Dbl) < doseWHO jr ∧ doseWHO jr = jr.Cref_WHO * jr.BW / (jr.IR / 86400) := by
    intro hg
    have h1 : (0 : Dbl) < doseWHO jr := (d_doseWHO_pos_iff jr).mpr hg
    exact ⟨h1, d_doseWHO_eq jr h1⟩
  refine ⟨?_, ?_, ?_, ?_⟩
  · rcases (d_mem_admissibleLimits jr flow v).mp hmem with h1 | h1 | ⟨h1, h2⟩
    · exact Or.inl h1
    · exact Or.inr (Or.inl h1)
    · have hg := (d_doseWHO_pos_iff jr).mp h1
      refine Or.inr (Or.inr ⟨hg.1, hg.2.1, hg.2.2.1, hg.2.2.2, ?_⟩)
      rw [h2]
      exact d_doseWHO_eq jr h1
  · intro h1
    exact hle _ ((d_mem_admissibleLimits jr flow _).mpr (Or.inl ⟨h1, rfl⟩))
  · intro h1
    exact hle _ ((d_mem_admissibleLimits jr flow _).mpr (Or.inr (Or.inl ⟨h1.1, h1.2, rfl⟩)))
  · intro h1
    obtain ⟨h2, h3⟩ := hdose h1
    rw [← h3]
    exact hle _ ((d_mem_admissibleLimits jr flow _).mpr (Or.inr (Or.inr ⟨h2, rfl⟩)))

/-! ### Evaluation of double arithmetic on concrete values -/

theorem round64_repr {q : ℚ} (m k : ℤ) (hq : q = (m : ℚ) * 2 ^ k) (hm : |m| < 2 ^ 53)
    (hk : -1074 ≤ k) (hk2 : k ≤ 971) : round64 q = fin q := by
  rw [hq]
  exact round64_exact m k hm hk hk2

/-- A positive exact result below half the smallest subnormal underflows to zero. -/
theorem round64_underflow {q : ℚ} (hq : 0 < q) (h : q < 2 ^ (-1075 : ℤ)) :
    round64 q = fin 0 := by
  have hn : rne (q / 2 ^ ((-1022 : ℤ) - 52)) = 0 := by
    apply rne_eq_of_abs_lt
    have h1 : q / 2 ^ ((-1022 : ℤ) - 52) < 1 / 2 := by
      rw [div_lt_iff₀ (by positivity)]
      calc q < 2 ^ (-1075 : ℤ) := h
        _ = 1 / 2 * 2 ^ ((-1022 : ℤ) - 52) := by norm_num
    have h2 : 0 < q / 2 ^ ((-1022 : ℤ) - 52) := by positivity
    rw [Int.cast_zero, sub_zero, abs_lt]
    constructor <;> linarith
  have hhi : q < 2 ^ ((-1022 : ℤ) + 1) :=
    lt_trans h (zpow_lt_zpow_right₀ (by norm_num) (by norm_num))
  have := round64_eval (-1022) 0 hq (le_refl _) (Or.inl rfl) hhi hn (by norm_num)
  rw [this]
  norm_num

theorem dbl_fin_add (a b : ℚ) : fin a + fin b = round64 (a + b) := rfl

theorem dbl_fin_sub (a b : ℚ) : fin a - fin b = round64 (a - b) := by
  rw [dbl_sub_def]
  simp only [Dbl.neg, Dbl.add]
  rw [← sub_eq_add_neg]

theorem dbl_fin_mul (a b : ℚ) : fin a * fin b = round64 (a * b) := rfl

theorem dbl_fin_div (a b : ℚ) (hb : b ≠ 0) : fin a / fin b = round64 (a / b) := by
  rw [dbl_div_def]
  simp only [Dbl.div]
  rw [if_neg hb]

theorem isValue_fin_of_repr {q : ℚ} (m k : ℤ) (hq : q = (m : ℚ) * 2 ^ k) (hm : |m| < 2 ^ 53)
    (hk : -1074 ≤ k) (hk2 : k ≤ 971) : (fin q).IsValue :=
  round64_repr m k hq hm hk hk2

/-- Witness of C1: with `Cref_EPA = 10`, `Cref_EU = 5`, `flow = 1` and the WHO reference
unset the resolver returns `5`, the EU candidate, which is below the EPA one. -/
theorem C1_supreme_is_min_of_admitted_witness :
    computeSupremeConcentration ⟨10, 5, 0, 0, 0⟩ 1 = Except.ok 5 ∧
    (((0 : Dbl) < 5 ∧ (0 : Dbl) < 1 ∧ (5 : Dbl) = 5) ∧ (5 : Dbl) ≤ 10) := by
  have hv : computeSupremeConcentration ⟨10, 5, 0, 0, 0⟩ 1 = Except.ok 5 := by
    simp only [computeSupremeConcentration, admissibleLimits, doseWHO, irLps, stdMax,
      dbl_zero_eq, dbl_one_eq, dbl_ofNat_eq, gt_iff_lt, dbl_fin_lt_fin]
    norm_num [minElementFrom]
  have h := C1_supreme_is_min_of_admitted ⟨10, 5, 0, 0, 0⟩ 1 5 hv
  exact ⟨hv, ⟨by decide, by decide, rfl⟩, h.2.1 (by decide)⟩

/-- Counterexample to C1 as stated.  With `Cref_EPA = 10`, `Cref_EU = 0`,
`Cref_WHO = BW = 2 ^ (-600)`, `IR = 86400` and `flow = 1`, the WHO reference is admissible in
the claim's sense (`Cref_WHO > 0`, `BW > 0`, `IR > 0`), but the double product
`Cref_WHO * BW` underflows to `0`, the test `dose_WHO > 0` drops the candidate and the
resolver returns `10`, which is above `Cref_WHO * BW / (IR / 86400)`, whether that is
computed in doubles (`0`) or exactly (`2 ^ (-1200)`). -/
theorem C1_counterexample_underflow :
    computeSupremeConcentration
        ⟨10, 0, fin (2 ^ (-600 : ℤ)), 86400, fin (2 ^ (-600 : ℤ))⟩ 1 = Except.ok 10 ∧
    (fin (2 ^ (-600 : ℤ))).IsValue ∧
    (0 : Dbl) < fin (2 ^ (-600 : ℤ)) ∧ (0 : Dbl) < (86400 : Dbl) ∧
    fin (2 ^ (-600 : ℤ)) * fin (2 ^ (-600 : ℤ)) / ((86400 : Dbl) / 86400) = 0 ∧
    ¬ ((10 : Dbl) ≤ fin (2 ^ (-600 : ℤ)) * fin (2 ^ (-600 : ℤ)) / ((86400 : Dbl) / 86400)) ∧
    ¬ ((10 : ℚ) ≤ 2 ^ (-600 : ℤ) * 2 ^ (-600 : ℤ) / (86400 / 86400)) := by
  have hir : (86400 : Dbl) / 86400 = fin 1 := by
    rw [dbl_ofNat_eq, dbl_fin_div _ _ (by norm_num), div_self (by norm_num)]
    exact round64_repr 1 0 (by norm_num) (by norm_num) (by norm_num) (by norm_num)
  have hprod : fin (2 ^ (-600 : ℤ)) * fin (2 ^ (-600 : ℤ)) = fin 0 := by
    rw [dbl_fin_mul]
    exact round64_underflow (by positivity) (by norm_num)
  have hdose : fin (2 ^ (-600 : ℤ)) * fin (2 ^ (-600 : ℤ)) / ((86400 : Dbl) / 86400) =
      fin 0 := by
    rw [hir, hprod, dbl_fin_div _ _ (by norm_num)]
    norm_num [round64_zero]
  have hpos : (0 : Dbl) < fin (2 ^ (-600 : ℤ)) := by
    rw [dbl_zero_eq, dbl_fin_lt_fin]; positivity
  have h864 : (0 : Dbl) < (86400 : Dbl) := by decide
  refine ⟨?_, ?_, hpos, h864, ?_, ?_, ?_⟩
  · have hd : doseWHO ⟨10, 0, fin (2 ^ (-600 : ℤ)), 86400, fin (2 ^ (-600 : ℤ))⟩ = fin 0 := by
      unfold doseWHO irLps
      simp only [gt_iff_lt]
      rw [if_pos ⟨hpos, hpos, by rw [hir]; decide⟩]
      exact hdose
    unfold computeSupremeConcentration
    have hEU : ¬ ((0 : Dbl) < (0 : Dbl) ∧ (0 : Dbl) < (1 : Dbl)) :=
      fun h => dbl_lt_irrefl _ h.1
    have hdz : ¬ ((0 : Dbl) < fin 0) := by rw [dbl_zero_eq]; exact dbl_lt_irrefl _
    rw [d_admissibleLimits_eq, hd]
    simp only []
    rw [if_pos (by decide), if_neg hEU, if_neg hdz]
    rfl
  · exact isValue_fin_of_repr 1 (-600) (by norm_num) (by norm_num) (by norm_num)
      (by norm_num)
  · rw [hdose, dbl_zero_eq]
  · rw [hdose, dbl_ofNat_eq, dbl_fin_le_fin]
    norm_num
  · norm_num

/-- Claim C2, as amended.  `computeSupremeConcentration` throws the "no admissible
limits" error exactly when the code admits no candidate: not `Cref_EPA > 0`, not
(`Cref_EU > 0` and `flow > 0`), and not `dose_WHO > 0`, where `dose_WHO` is the double
`Cref_WHO * BW / (IR / 86400)` when `Cref_WHO > 0`, `BW > 0` and the double
`IR / 86400 > 0`, and `0` otherwise.  On every other input, and only there, it returns a
value; and it throws no other error. -/
theorem C2_fails_iff_none_admitted (jr : JurisdictionRefs) (flow : Dbl) :
    (computeSupremeConcentration jr flow = Except.error noAdmissibleLimits ↔
      ¬ ((0 : Dbl) < jr.Cref_EPA) ∧ ¬ ((0 : Dbl) < jr.Cref_EU ∧ (0 : Dbl) < flow) ∧
        ¬ ((0 : Dbl) < jr.Cref_WHO ∧ (0 : Dbl) < jr.BW ∧ (0 : Dbl) < jr.IR / 86400 ∧
          (0 : Dbl) < jr.Cref_WHO * jr.BW / (jr.IR / 86400))) ∧
    ((∃ v, computeSupremeConcentration jr flow = Except.ok v) ↔
      ¬ (¬ ((0 : Dbl) < jr.Cref_EPA) ∧ ¬ ((0 : Dbl) < jr.Cref_EU ∧ (0 : Dbl) < flow) ∧
        ¬ ((0 : Dbl) < jr.Cref_WHO ∧ (0 : Dbl) < jr.BW ∧ (0 : Dbl) < jr.IR / 86400 ∧
          (0 : Dbl) < jr.Cref_WHO * jr.BW / (jr.IR / 86400)))) ∧
    (∀ e, computeSupremeConcentration jr flow = Except.error e → e = noAdmissibleLimits) := by
  have herr : computeSupremeConcentration jr flow = Except.error noAdmissibleLimits ↔
      ¬ ((0 : Dbl) < jr.Cref_EPA) ∧ ¬ ((0 : Dbl) < jr.Cref_EU ∧ (0 : Dbl) < flow) ∧
        ¬ ((0 : Dbl) < jr.Cref_WHO ∧ (0 : Dbl) < jr.BW ∧ (0 : Dbl) < jr.IR / 86400 ∧
          (0 : Dbl) < jr.Cref_WHO * jr.BW / (jr.IR / 86400)) := by
    rw [d_computeSupremeConcentration_error_iff, d_admissibleLimits_eq_nil_iff,
      d_doseWHO_pos_iff]
    exact ⟨fun h => h.1, fun h => ⟨h, rfl⟩⟩
  refine ⟨herr, ?_, ?_⟩
  · rw [← herr]
    cases hc : computeSupremeConcentration jr flow with
    | error e =>
      have he := ((d_computeSupremeConcentration_error_iff jr flow e).mp hc).2
      subst he
      constructor
      · rintro ⟨v, hv⟩; cases hv
      · intro hn; exact absurd rfl hn
    | ok v =>
      constructor
      · intro _ hn; cases hn
      · intro _; exact ⟨v, rfl⟩
  · intro e he
    exact ((d_computeSupremeConcentration_error_iff jr flow e).mp he).2

/-- Example of C2: with `Cref_EPA = 0`, `Cref_EU = 5`, the WHO reference unset and
`flow = 0` the resolver throws, EU being inadmissible at zero flow. -/
theorem C2_fails_iff_none_admitted_witness :
    computeSupremeConcentration ⟨0, 5, 0, 0, 0⟩ 0 = Except.error noAdmissibleLimits :=
  (C2_fails_iff_none_admitted ⟨0, 5, 0, 0, 0⟩ 0).1.mpr
    ⟨by decide, fun h => absurd h.2 (by decide), fun h => absurd h.1 (by decide)⟩

/-- The smallest positive double divided by `86400` underflows to zero. -/
theorem dbl_min_subnormal_div :
    fin (2 ^ (-1074 : ℤ)) / (86400 : Dbl) = fin 0 := by
  rw [dbl_ofNat_eq, dbl_fin_div _ _ (by norm_num)]
  exact round64_underflow (by positivity) (by norm_num)

/-- Counterexample to C2 as stated.  With `Cref_WHO = 2`, `BW = 70`,
`IR = 2 ^ (-1074)` (the smallest positive double), `Cref_EPA = Cref_EU = 0` and `flow = 1`
the WHO reference is usable in the claim's sense (`Cref_WHO > 0`, `BW > 0`, `IR > 0`), so
the claim says a value is returned; but the double `IR / 86400` is `0`, the guard
`IR_Lps > 0` fails and the resolver throws. -/
theorem C2_counterexample_underflow :
    computeSupremeConcentration ⟨0, 0, 2, fin (2 ^ (-1074 : ℤ)), 70⟩ 1 =
      Except.error noAdmissibleLimits ∧
    (fin (2 ^ (-1074 : ℤ))).IsValue ∧
    ((0 : Dbl) < 2 ∧ (0 : Dbl) < 70 ∧ (0 : Dbl) < fin (2 ^ (-1074 : ℤ))) ∧
    ¬ ((0 : Dbl) ≤ 0 ∧ ((0 : Dbl) ≤ 0 ∨ (1 : Dbl) ≤ 0) ∧
      ¬ ((0 : Dbl) < 2 ∧ (0 : Dbl) < 70 ∧ (0 : Dbl) < fin (2 ^ (-1074 : ℤ)))) := by
  have hpos : (0 : Dbl) < fin (2 ^ (-1074 : ℤ)) := by
    rw [dbl_zero_eq, dbl_fin_lt_fin]; positivity
  refine ⟨?_, ?_, ⟨by decide, by decide, hpos⟩, ?_⟩
  · rw [d_computeSupremeConcentration_error_iff, d_admissibleLimits_eq_nil_iff,
      d_doseWHO_pos_iff]
    refine ⟨⟨by decide, fun h => absurd h.1 (by decide), ?_⟩, rfl⟩
    rintro ⟨-, -, h, -⟩
    have h2 : irLps ⟨0, 0, 2, fin (2 ^ (-1074 : ℤ)), 70⟩ = fin 0 := dbl_min_subnormal_div
    rw [h2, dbl_zero_eq] at h
    exact dbl_lt_irrefl _ h
  · exact isValue_fin_of_repr 1 (-1074) (by norm_num) (by norm_num) (by norm_num)
      (by norm_num)
  · intro h
    exact h.2.2 ⟨by decide, by decide, hpos⟩

/-- Claim C11, as amended.  When the WHO reference is the only admissible one
(`Cref_EPA ≤ 0`, and `Cref_EU ≤ 0` or `flow ≤ 0`), `Cref_WHO > 0`, `BW > 0`, and neither
the double `IR / 86400` nor the double `Cref_WHO * BW / (IR / 86400)` underflows to zero
(both are `> 0`), `computeSupremeConcentration` returns exactly that double. -/
theorem C11_who_only_dose_no_underflow (jr : JurisdictionRefs) (flow : Dbl)
    (hWHO : (0 : Dbl) < jr.Cref_WHO) (hBW : (0 : Dbl) < jr.BW)
    (hIR : (0 : Dbl) < jr.IR / 86400)
    (hdose : (0 : Dbl) < jr.Cref_WHO * jr.BW / (jr.IR / 86400))
    (hEPA : jr.Cref_EPA ≤ 0) (hEU : jr.Cref_EU ≤ 0 ∨ flow ≤ 0) :
    computeSupremeConcentration jr flow =
      Except.ok (jr.Cref_WHO * jr.BW / (jr.IR / 86400)) := by
  have h1 : ¬ ((0 : Dbl) < jr.Cref_EPA) := dbl_not_lt_of_le hEPA
  have h2 : ¬ ((0 : Dbl) < jr.Cref_EU ∧ (0 : Dbl) < flow) := by
    rintro ⟨ha, hb⟩
    rcases hEU with h | h
    · exact dbl_not_lt_of_le h ha
    · exact dbl_not_lt_of_le h hb
  have h3 : (0 : Dbl) < doseWHO jr := (d_doseWHO_pos_iff jr).mpr ⟨hWHO, hBW, hIR, hdose⟩
  have h4 := d_doseWHO_eq jr h3
  unfold computeSupremeConcentration
  rw [d_admissibleLimits_eq, if_neg h1, if_neg h2, if_pos h3, h4]
  rfl

/-- Witness of C11: with the literals `Cref_WHO = 2`, `BW = 70`, `IR = 2`, the EPA
reference unset and `Cref_EU = 5` at zero flow, the double `IR / 86400` is
`6832127434707241 * 2 ^ (-68)` and the result is exactly `6048000`. -/
theorem C11_who_only_dose_no_underflow_witness :
    (2 : Dbl) / 86400 = fin (6832127434707241 * 2 ^ (-68 : ℤ)) ∧
    (2 : Dbl) * 70 / ((2 : Dbl) / 86400) = 6048000 ∧
    computeSupremeConcentration ⟨0, 5, 2, 2, 70⟩ 0 = Except.ok 6048000 := by
  have hir : (2 : Dbl) / 86400 = fin (6832127434707241 * 2 ^ (-68 : ℤ)) := by
    rw [dbl_ofNat_eq, dbl_ofNat_eq, dbl_fin_div _ _ (by norm_num)]
    have h := round64_eval (q := (2 : ℚ) / 86400) (-16) 6832127434707241 (by norm_num)
      (by norm_num) (Or.inr (by norm_num)) (by norm_num)
      (rne_eq_of_abs_lt _ _ (by rw [abs_lt]; constructor <;> norm_num)) (by norm_num)
    rw [h]
    norm_num
  have hprod : (2 : Dbl) * 70 = fin 140 := by
    rw [dbl_ofNat_eq, dbl_ofNat_eq, dbl_fin_mul]
    rw [show (2 : ℚ) * 70 = 140 by norm_num]
    exact round64_repr 140 0 (by norm_num) (by norm_num) (by norm_num) (by norm_num)
  have hdose : (2 : Dbl) * 70 / ((2 : Dbl) / 86400) = 6048000 := by
    rw [hir, hprod, dbl_fin_div _ _ (by norm_num), dbl_ofNat_eq]
    have h := round64_eval (q := (140 : ℚ) / (6832127434707241 * 2 ^ (-68 : ℤ))) 22
      (6048000 * 2 ^ 30) (by norm_num) (by norm_num) (Or.inr (by norm_num)) (by norm_num)
      (rne_eq_of_abs_lt _ _ (by rw [abs_lt]; constructor <;> norm_num)) (by norm_num)
    rw [h]
    norm_num
  refine ⟨hir, hdose, ?_⟩
  have h := C11_who_only_dose_no_underflow ⟨0, 5, 2, 2, 70⟩ 0 (by decide) (by decide)
    (by show (0 : Dbl) < (2 : Dbl) / 86400; rw [hir, dbl_zero_eq, dbl_fin_lt_fin]; norm_num)
    (by
      show (0 : Dbl) < (2 : Dbl) * 70 / ((2 : Dbl) / 86400)
      rw [hdose]; decide)
    (by decide) (Or.inr (by decide))
  rw [h]
  exact congrArg Except.ok hdose

/-- Counterexample to C11 as stated.  With `Cref_WHO = 2`, `BW = 70`,
`IR = 2 ^ (-1074)`, `Cref_EPA = Cref_EU = 0` and `flow = 0` every hypothesis of the claim
holds (`Cref_WHO > 0`, `BW > 0`, `IR > 0`, `Cref_EPA ≤ 0`, `Cref_EU ≤ 0`), yet the
resolver returns no value at all: the double `IR / 86400` is `0` and it throws. -/
theorem C11_counterexample_underflow :
    ((0 : Dbl) < 2 ∧ (0 : Dbl) < 70 ∧ (0 : Dbl) < fin (2 ^ (-1074 : ℤ)) ∧
      (0 : Dbl) ≤ 0 ∧ (0 : Dbl) ≤ 0) ∧
    fin (2 ^ (-1074 : ℤ)) / (86400 : Dbl) = 0 ∧
    computeSupremeConcentration ⟨0, 0, 2, fin (2 ^ (-1074 : ℤ)), 70⟩ 0 =
      Except.error noAdmissibleLimits ∧
    ¬ ∃ v, computeSupremeConcentration ⟨0, 0, 2, fin (2 ^ (-1074 : ℤ)), 70⟩ 0 =
      Except.ok v := by
  have hpos : (0 : Dbl) < fin (2 ^ (-1074 : ℤ)) := by
    rw [dbl_zero_eq, dbl_fin_lt_fin]; positivity
  have herr : computeSupremeConcentration ⟨0, 0, 2, fin (2 ^ (-1074 : ℤ)), 70⟩ 0 =
      Except.error noAdmissibleLimits := by
    rw [d_computeSupremeConcentration_error_iff, d_admissibleLimits_eq_nil_iff,
      d_doseWHO_pos_iff]
    refine ⟨⟨by decide, fun h => absurd h.1 (by decide), ?_⟩, rfl⟩
    rintro ⟨-, -, h, -⟩
    have h2 : irLps ⟨0, 0, 2, fin (2 ^ (-1074 : ℤ)), 70⟩ = fin 0 := dbl_min_subnormal_div
    rw [h2, dbl_zero_eq] at h
    exact dbl_lt_irrefl _ h
  refine ⟨⟨by decide, by decide, hpos, by decide, by decide⟩, ?_, herr, ?_⟩
  · rw [dbl_min_subnormal_div, dbl_zero_eq]
  · rintro ⟨v, hv⟩
    rw [herr] at hv
    cases hv

/-! ## Claims about the accumulator in double arithmetic -/

/-- Whatever the outcome of a call, `hazardWeight` is not touched. -/
theorem d_updateCeimNode_hazardWeight (exp : Dbl → Dbl) (st : CeimNodeState)
    (s : SensorSample) : (updateCeimNode exp st s).1.hazardWeight = st.hazardWeight := by
  rcases d_updateCeimNode_cases exp st s with
    ⟨-, h⟩ | ⟨-, -, h⟩ | ⟨-, -, -, h⟩ | ⟨c, -, -, -, -, h⟩ | ⟨c, -, -, -, -, h⟩ <;>
  rw [h]

/-- The `Kn` a call leaves is a double when the `Kn` it was given is. -/
theorem d_updateCeimNode_Kn_isValue (exp : Dbl → Dbl) (st : CeimNodeState)
    (s : SensorSample) (hKn : st.Kn.IsValue) : (updateCeimNode exp st s).1.Kn.IsValue := by
  rcases d_updateCeimNode_cases exp st s with
    ⟨-, h⟩ | ⟨-, -, h⟩ | ⟨-, -, -, h⟩ | ⟨c, -, -, -, -, h⟩ | ⟨c, -, -, -, -, h⟩ <;>
  rw [h]
  · exact hKn
  · exact hKn
  · exact hKn
  · exact hKn
  · exact isValue_add _ _

/-- The increment is non-negative, or NaN, when `hazardWeight ≥ 0`. -/
theorem d_increment_nonneg (exp : Dbl → Dbl) (st : CeimNodeState) (s : SensorSample)
    (Csup : Dbl) (hw : (0 : Dbl) ≤ st.hazardWeight)
    (hgo : ¬ (s.timestamp - st.t_last ≤ 0 ∨ s.flow ≤ 0))
    (hc : (0 : Dbl) < Csup) (hd : ¬ (deltaCOf exp st s Csup ≤ 0)) :
    incrementOf exp st s Csup = nan ∨ (0 : Dbl) ≤ incrementOf exp st s Csup := by
  rw [not_or] at hgo
  have h1 : deltaCOf exp st s Csup = nan ∨ (0 : Dbl) ≤ deltaCOf exp st s Csup :=
    (dbl_nan_or_pos_of_not_le hd).imp id dbl_le_of_lt
  have h2 : s.flow = nan ∨ (0 : Dbl) ≤ s.flow :=
    (dbl_nan_or_pos_of_not_le hgo.2).imp id dbl_le_of_lt
  have h3 : s.timestamp - st.t_last = nan ∨ (0 : Dbl) ≤ s.timestamp - st.t_last :=
    (dbl_nan_or_pos_of_not_le hgo.1).imp id dbl_le_of_lt
  unfold incrementOf
  exact dbl_mul_nonneg (dbl_mul_nonneg (dbl_mul_nonneg (Or.inr hw) (dbl_div_nonneg h1 hc)) h2)
    h3

/-- With a non-negative `hazardWeight`, the `Kn` a call leaves is NaN or is not below
the `Kn` it was given. -/
theorem d_updateCeimNode_Kn_ge (exp : Dbl → Dbl) (st : CeimNodeState) (s : SensorSample)
    (hw : (0 : Dbl) ≤ st.hazardWeight) (hKn : st.Kn.IsValue) :
    (updateCeimNode exp st s).1.Kn = nan ∨ st.Kn ≤ (updateCeimNode exp st s).1.Kn := by
  have hsame : st.Kn = nan ∨ st.Kn ≤ st.Kn := by
    by_cases h : st.Kn = nan
    · exact Or.inl h
    · exact Or.inr (dbl_le_refl h)
  rcases d_updateCeimNode_cases exp st s with
    ⟨-, h⟩ | ⟨-, -, h⟩ | ⟨-, -, -, h⟩ | ⟨c, -, -, -, -, h⟩ | ⟨c, -, hgo, hres, hd, h⟩
  · rw [h]; exact hsame
  · rw [h]; exact hsame
  · rw [h]; exact hsame
  · rw [h]; exact hsame
  · rw [h]
    exact dbl_add_ge hKn (d_increment_nonneg exp st s c hw hgo
      (d_computeSupremeConcentration_pos st.refs s.flow c hres) hd)

theorem d_updateTrace_head (exp : Dbl → Dbl) (st : CeimNodeState)
    (samples : List SensorSample) (trace : List CeimNodeState)
    (h : updateTrace exp st samples = some trace) : ∃ tail, trace = st :: tail := by
  cases samples with
  | nil =>
    simp only [updateTrace, Option.some.injEq] at h
    exact ⟨[], h.symm⟩
  | cons s rest =>
    simp only [updateTrace] at h
    split at h
    · rcases Option.map_eq_some'.mp h with ⟨tr, -, htr⟩
      exact ⟨tr, htr.symm⟩
    · cases h

/-- Along a run of successful calls from a state with non-negative `hazardWeight`, the
`Kn` of a later state is NaN or is not below the `Kn` of an earlier state. -/
theorem d_updateTrace_pairwise (exp : Dbl → Dbl) (samples : List SensorSample) :
    ∀ (st : CeimNodeState) (trace : List CeimNodeState), (0 : Dbl) ≤ st.hazardWeight →
      st.Kn.IsValue → updateTrace exp st samples = some trace →
      List.Pairwise (fun a b : CeimNodeState => b.Kn = nan ∨ a.Kn ≤ b.Kn) trace := by
  induction samples with
  | nil =>
    intro st trace _ _ h
    simp only [updateTrace, Option.some.injEq] at h
    subst h
    exact List.pairwise_singleton _ _
  | cons s rest ih =>
    intro st trace hw hKn h
    simp only [updateTrace] at h
    split at h
    · rename_i st1 v heq
      rcases Option.map_eq_some'.mp h with ⟨tr, htr, rfl⟩
      have hst1 : st1 = (updateCeimNode exp st s).1 := by rw [heq]
      have hw1 : (0 : Dbl) ≤ st1.hazardWeight := by
        rw [hst1, d_updateCeimNode_hazardWeight]; exact hw
      have hKn1 : st1.Kn.IsValue := by
        rw [hst1]; exact d_updateCeimNode_Kn_isValue exp st s hKn
      have hstep : st1.Kn = nan ∨ st.Kn ≤ st1.Kn := by
        rw [hst1]; exact d_updateCeimNode_Kn_ge exp st s hw hKn
      have hpw := ih st1 tr hw1 hKn1 htr
      obtain ⟨tail, rfl⟩ := d_updateTrace_head exp st1 rest tr htr
      refine List.Pairwise.cons ?_ hpw
      intro b hb
      have hb1 : b.Kn = nan ∨ st1.Kn ≤ b.Kn := by
        rcases List.mem_cons.mp hb with rfl | hb
        · by_cases hn : b.Kn = nan
          · exact Or.inl hn
          · exact Or.inr (dbl_le_refl hn)
        · exact List.rel_of_pairwise_cons hpw hb
      rcases hb1 with hb1 | hb1
      · exact Or.inl hb1
      · rcases hstep with hs | hs
        · rw [hs] at hb1
          exact absurd hb1 (dbl_not_nan_le _)
        · exact Or.inr (dbl_le_trans hs hb1)
    · cases h

/-- Claim C3, as amended.  From a state with `hazardWeight ≥ 0` whose `Kn` is a double, a
call of `updateCeimNode` that does not fail leaves a `Kn` that is NaN or is greater than
or equal to the `Kn` before the call; and along every sequence of successful calls on
the same state each recorded `Kn` is NaN or is at least every earlier one. -/
theorem C3_Kn_nondecreasing_or_nan (exp : Dbl → Dbl) (st : CeimNodeState)
    (hw : (0 : Dbl) ≤ st.hazardWeight) (hKn : st.Kn.IsValue) :
    (∀ (s : SensorSample) (v : Dbl), (updateCeimNode exp st s).2 = Except.ok v →
      v = (updateCeimNode exp st s).1.Kn ∧
      ((updateCeimNode exp st s).1.Kn = nan ∨ st.Kn ≤ (updateCeimNode exp st s).1.Kn)) ∧
    (∀ (samples : List SensorSample) (trace : List CeimNodeState),
      updateTrace exp st samples = some trace →
      List.Pairwise (fun a b : CeimNodeState => b.Kn = nan ∨ a.Kn ≤ b.Kn) trace) := by
  refine ⟨?_, ?_⟩
  · intro s v hv
    refine ⟨?_, d_updateCeimNode_Kn_ge exp st s hw hKn⟩
    rcases d_updateCeimNode_cases exp st s with
      ⟨-, h⟩ | ⟨-, -, h⟩ | ⟨-, -, -, h⟩ | ⟨c, -, -, -, -, h⟩ | ⟨c, -, -, -, -, h⟩ <;>
    rw [h] at hv ⊢
    · injection hv with hv; exact hv.symm
    · injection hv with hv; exact hv.symm
    · cases hv
    · injection hv with hv; exact hv.symm
    · injection hv with hv; exact hv.symm
  · intro samples trace h
    exact d_updateTrace_pairwise exp samples st trace hw hKn h

/-! ### Evaluation helpers -/

theorem eval_add (a b c : ℚ) (m k : ℤ) (h : a + b = c) (hc : c = (m : ℚ) * 2 ^ k)
    (hm : |m| < 2 ^ 53) (hk : -1074 ≤ k) (hk2 : k ≤ 971) : fin a + fin b = fin c := by
  rw [dbl_fin_add, h]
  exact round64_repr m k hc hm hk hk2

theorem eval_sub (a b c : ℚ) (m k : ℤ) (h : a - b = c) (hc : c = (m : ℚ) * 2 ^ k)
    (hm : |m| < 2 ^ 53) (hk : -1074 ≤ k) (hk2 : k ≤ 971) : fin a - fin b = fin c := by
  rw [dbl_fin_sub, h]
  exact round64_repr m k hc hm hk hk2

theorem eval_mul (a b c : ℚ) (m k : ℤ) (h : a * b = c) (hc : c = (m : ℚ) * 2 ^ k)
    (hm : |m| < 2 ^ 53) (hk : -1074 ≤ k) (hk2 : k ≤ 971) : fin a * fin b = fin c := by
  rw [dbl_fin_mul, h]
  exact round64_repr m k hc hm hk hk2

theorem eval_div (a b c : ℚ) (m k : ℤ) (hb : b ≠ 0) (h : a / b = c)
    (hc : c = (m : ℚ) * 2 ^ k) (hm : |m| < 2 ^ 53) (hk : -1074 ≤ k) (hk2 : k ≤ 971) :
    fin a / fin b = fin c := by
  rw [dbl_fin_div _ _ hb, h]
  exact round64_repr m k hc hm hk hk2

theorem d_doseWHO_unset (c e : Dbl) (ir bw : Dbl) :
    doseWHO { Cref_EPA := c, Cref_EU := e, Cref_WHO := 0, IR := ir, BW := bw } = 0 := by
  unfold doseWHO
  rw [if_neg (fun h => dbl_lt_irrefl _ h.1)]

/-- The resolver on references with only a positive `Cref_EPA` set. -/
theorem d_computeSupremeConcentration_epaOnly (c flow : Dbl) (hc : (0 : Dbl) < c) :
    computeSupremeConcentration (epaOnly c) flow = Except.ok c := by
  unfold computeSupremeConcentration epaOnly
  rw [d_admissibleLimits_eq, d_doseWHO_unset]
  simp only []
  rw [if_pos hc, if_neg (fun h => dbl_lt_irrefl _ h.1), if_neg (dbl_lt_irrefl _)]
  rfl

/-- The resolver on references with only `Cref_EU` set and a flow that is not positive
(also a NaN flow). -/
theorem d_computeSupremeConcentration_euOnly (c flow : Dbl) (hf : ¬ ((0 : Dbl) < flow)) :
    computeSupremeConcentration
        { Cref_EPA := 0, Cref_EU := c, Cref_WHO := 0, IR := 0, BW := 0 } flow =
      Except.error noAdmissibleLimits := by
  unfold computeSupremeConcentration
  rw [d_admissibleLimits_eq, d_doseWHO_unset]
  simp only []
  rw [if_neg (dbl_lt_irrefl _), if_neg (fun h => hf h.2)]
  rfl

theorem d_computeSupremeConcentration_unset (flow : Dbl) :
    computeSupremeConcentration unsetRefs flow = Except.error noAdmissibleLimits := by
  unfold computeSupremeConcentration unsetRefs
  rw [d_admissibleLimits_eq, d_doseWHO_unset]
  simp only []
  rw [if_neg (dbl_lt_irrefl _), if_neg (fun h => dbl_lt_irrefl _ h.1)]
  rfl

theorem dbl_ten_sub_zero : (10 : Dbl) - 0 = fin 10 := by
  rw [dbl_ofNat_eq, dbl_zero_eq]
  exact eval_sub 10 0 10 10 0 (by norm_num) (by norm_num) (by norm_num) (by norm_num)
    (by norm_num)

/-- On a state without kinetic model (`k = 0`) the modelled outflow is the
concentration. -/
theorem d_coutModelOf_of_k_zero (exp : Dbl → Dbl) (st : CeimNodeState) (s : SensorSample)
    (hk : st.k = 0) : coutModelOf exp st s = s.concentration := by
  unfold coutModelOf
  simp only [gt_iff_lt]
  rw [hk, if_neg (dbl_lt_irrefl _)]

theorem isValue_ofNat (n : ℕ) [n.AtLeastTwo] (hn : n < 2 ^ 53) :
    (OfNat.ofNat n : Dbl).IsValue := by
  rw [dbl_ofNat_eq]
  refine isValue_fin_of_repr (n : ℤ) 0 ?_ ?_ (by norm_num) (by norm_num)
  · rw [zpow_zero, mul_one, Int.cast_natCast]
    exact (Nat.cast_ofNat (R := ℚ) (n := n)).symm
  · rw [abs_of_nonneg (by positivity)]
    exact_mod_cast hn

/-- The started node with `hazardWeight = 3` and `Cref_EPA = 1` (`Kn = 0`, `t_last = 0`)
on the sample `(C = 2, Q = 1, t = 10)`: in double arithmetic `deltaC = 1`, the increment
is `3 * (1 / 1) * 1 * 10 = 30` and the call returns `30`, whatever the exponential. -/
theorem d_started_example (exp : Dbl → Dbl) :
    updateCeimNode exp (startedWith 3 (epaOnly 1)) ⟨2, 1, 10⟩ =
      ({ startedWith 3 (epaOnly 1) with Kn := 30, t_last := 10 }, Except.ok 30) := by
  have hgo : ¬ ((10 : Dbl) - 0 ≤ 0 ∨ (1 : Dbl) ≤ 0) := by
    rw [dbl_ten_sub_zero]; decide
  have hres := d_computeSupremeConcentration_epaOnly 1 1 (by decide)
  have hdelta : deltaCOf exp (startedWith 3 (epaOnly 1)) ⟨2, 1, 10⟩ 1 = fin 1 := by
    unfold deltaCOf
    rw [d_coutModelOf_of_k_zero exp _ _ rfl]
    have hmin : stdMin (2 : Dbl) 1 = 1 := by unfold stdMin; rw [if_pos (by decide)]
    simp only []
    rw [hmin, dbl_ofNat_eq, dbl_one_eq]
    exact eval_sub 2 1 1 1 0 (by norm_num) (by norm_num) (by norm_num) (by norm_num)
      (by norm_num)
  have hinc : incrementOf exp (startedWith 3 (epaOnly 1)) ⟨2, 1, 10⟩ 1 = fin 30 := by
    unfold incrementOf
    rw [hdelta]
    show (3 : Dbl) * (fin 1 / 1) * 1 * ((10 : Dbl) - 0) = fin 30
    rw [dbl_ten_sub_zero, dbl_one_eq, dbl_ofNat_eq,
      eval_div 1 1 1 1 0 (by norm_num) (by norm_num) (by norm_num) (by norm_num)
        (by norm_num) (by norm_num),
      eval_mul 3 1 3 3 0 (by norm_num) (by norm_num) (by norm_num) (by norm_num)
        (by norm_num),
      eval_mul 3 1 3 3 0 (by norm_num) (by norm_num) (by norm_num) (by norm_num)
        (by norm_num)]
    exact eval_mul 3 10 30 30 0 (by norm_num) (by norm_num) (by norm_num) (by norm_num)
      (by norm_num)
  have hstep := d_updateCeimNode_increment exp (startedWith 3 (epaOnly 1)) ⟨2, 1, 10⟩
    rfl hgo 1 hres (by rw [hdelta]; decide)
  have hKn : (startedWith 3 (epaOnly 1)).Kn +
      incrementOf exp (startedWith 3 (epaOnly 1)) ⟨2, 1, 10⟩ 1 = 30 := by
    rw [hinc]
    show (0 : Dbl) + fin 30 = 30
    rw [dbl_zero_eq, dbl_ofNat_eq]
    exact eval_add 0 30 30 30 0 (by norm_num) (by norm_num) (by norm_num) (by norm_num)
      (by norm_num)
  rw [hstep, hKn]

/-- Witness of C3: the started node with `hazardWeight = 3` and `Cref_EPA = 1`
(`Kn = 0`, `t_last = 0`) receives the sample `(C = 2, Q = 1, t = 10)`; the call leaves
`Kn = 30`, which is not below `0`. -/
theorem C3_Kn_nondecreasing_or_nan_witness :
    (updateCeimNode expStep (startedWith 3 (epaOnly 1)) ⟨2, 1, 10⟩).2 = Except.ok 30 ∧
    (updateCeimNode expStep (startedWith 3 (epaOnly 1)) ⟨2, 1, 10⟩).1.Kn = 30 ∧
    ((updateCeimNode expStep (startedWith 3 (epaOnly 1)) ⟨2, 1, 10⟩).1.Kn = nan ∨
      (startedWith 3 (epaOnly 1)).Kn ≤
        (updateCeimNode expStep (startedWith 3 (epaOnly 1)) ⟨2, 1, 10⟩).1.Kn) := by
  have hv : (updateCeimNode expStep (startedWith 3 (epaOnly 1)) ⟨2, 1, 10⟩).2 =
      Except.ok 30 := by
    rw [d_started_example]
  have h := (C3_Kn_nondecreasing_or_nan expStep (startedWith 3 (epaOnly 1)) (by decide)
    isValue_zero).1 ⟨2, 1, 10⟩ 30 hv
  exact ⟨hv, h.1.symm, h.2⟩

theorem dbl_nan_mul (x : Dbl) : nan * x = nan := by
  rw [dbl_mul_def]; cases x <;> rfl

theorem dbl_add_nan (x : Dbl) : x + nan = nan := by
  rw [dbl_add_def]; cases x <;> rfl

/-- Counterexample to C3 as stated.  The started node has `hazardWeight = 0` (which is
`≥ 0`), `Cref_EPA = 2 ^ (-1022)` and `Kn = 0`, and receives the sample
`(C = 2 ^ 1023, Q = 1, t = 10)`, all finite doubles.  Then `deltaC = 2 ^ 1023`, the
quotient `deltaC / Csup` overflows to `+∞`, `hazardWeight * ∞ = 0 * ∞` is NaN, and the call
succeeds leaving `Kn = NaN`, which is not `≥ 0`. -/
theorem C3_counterexample_nan :
    (0 : Dbl) ≤ (startedWith 0 (epaOnly (fin (2 ^ (-1022 : ℤ))))).hazardWeight ∧
    (fin (2 ^ (-1022 : ℤ))).IsValue ∧ (fin (2 ^ (1023 : ℤ))).IsValue ∧
    (updateCeimNode expStep (startedWith 0 (epaOnly (fin (2 ^ (-1022 : ℤ)))))
        ⟨fin (2 ^ (1023 : ℤ)), 1, 10⟩).2 = Except.ok nan ∧
    (updateCeimNode expStep (startedWith 0 (epaOnly (fin (2 ^ (-1022 : ℤ)))))
        ⟨fin (2 ^ (1023 : ℤ)), 1, 10⟩).1.Kn = nan ∧
    ¬ ((startedWith 0 (epaOnly (fin (2 ^ (-1022 : ℤ))))).Kn ≤
      (updateCeimNode expStep (startedWith 0 (epaOnly (fin (2 ^ (-1022 : ℤ)))))
        ⟨fin (2 ^ (1023 : ℤ)), 1, 10⟩).1.Kn) := by
  have hgo : ¬ ((10 : Dbl) - 0 ≤ 0 ∨ (1 : Dbl) ≤ 0) := by
    rw [dbl_ten_sub_zero]; decide
  have hcpos : (0 : Dbl) < fin (2 ^ (-1022 : ℤ)) := by
    rw [dbl_zero_eq, dbl_fin_lt_fin]; positivity
  have hres := d_computeSupremeConcentration_epaOnly (fin (2 ^ (-1022 : ℤ))) 1 hcpos
  have hlt : (2 : ℚ) ^ (-1022 : ℤ) < 2 ^ (1023 : ℤ) :=
    zpow_lt_zpow_right₀ (by norm_num) (by norm_num)
  have hsub : fin (2 ^ (1023 : ℤ)) - fin (2 ^ (-1022 : ℤ)) = fin (2 ^ (1023 : ℤ)) := by
    rw [dbl_fin_sub]
    have h := round64_eval (q := (2 : ℚ) ^ (1023 : ℤ) - 2 ^ (-1022 : ℤ)) 1022 (2 ^ 53)
      (by linarith) (by norm_num) (Or.inr (by norm_num)) (by norm_num)
      (rne_eq_of_abs_lt _ _ (by rw [abs_lt]; constructor <;> norm_num)) (by norm_num)
    rw [h]
    norm_num
  have hdelta : deltaCOf expStep (startedWith 0 (epaOnly (fin (2 ^ (-1022 : ℤ)))))
      ⟨fin (2 ^ (1023 : ℤ)), 1, 10⟩ (fin (2 ^ (-1022 : ℤ))) = fin (2 ^ (1023 : ℤ)) := by
    unfold deltaCOf
    rw [d_coutModelOf_of_k_zero expStep _ _ rfl]
    have hmin : stdMin (fin (2 ^ (1023 : ℤ))) (fin (2 ^ (-1022 : ℤ))) =
        fin (2 ^ (-1022 : ℤ)) := by
      unfold stdMin
      rw [if_pos ((dbl_fin_lt_fin _ _).mpr hlt)]
    simp only []
    rw [hmin, hsub]
  have hquot : fin (2 ^ (1023 : ℤ)) / fin (2 ^ (-1022 : ℤ)) = inf false := by
    rw [dbl_fin_div _ _ (by positivity)]
    exact round64_overflow (by norm_num)
  have hinc : incrementOf expStep (startedWith 0 (epaOnly (fin (2 ^ (-1022 : ℤ)))))
      ⟨fin (2 ^ (1023 : ℤ)), 1, 10⟩ (fin (2 ^ (-1022 : ℤ))) = nan := by
    unfold incrementOf
    rw [hdelta, hquot]
    show (0 : Dbl) * inf false * 1 * ((10 : Dbl) - 0) = nan
    have h0 : (0 : Dbl) * inf false = nan := by
      rw [dbl_zero_eq, dbl_mul_def]
      simp [Dbl.mul]
    rw [h0, dbl_nan_mul, dbl_nan_mul]
  have hd : ¬ (deltaCOf expStep (startedWith 0 (epaOnly (fin (2 ^ (-1022 : ℤ)))))
      ⟨fin (2 ^ (1023 : ℤ)), 1, 10⟩ (fin (2 ^ (-1022 : ℤ))) ≤ 0) := by
    rw [hdelta, dbl_zero_eq, dbl_fin_le_fin, not_le]
    positivity
  have hstep := d_updateCeimNode_increment expStep
    (startedWith 0 (epaOnly (fin (2 ^ (-1022 : ℤ))))) ⟨fin (2 ^ (1023 : ℤ)), 1, 10⟩
    rfl hgo (fin (2 ^ (-1022 : ℤ))) hres hd
  rw [hinc, dbl_add_nan] at hstep
  refine ⟨by decide, ?_, ?_, ?_, ?_, ?_⟩
  · exact isValue_fin_of_repr 1 (-1022) (by norm_num) (by norm_num) (by norm_num)
      (by norm_num)
  · exact isValue_fin_of_repr (2 ^ 52) 971 (by norm_num) (by norm_num) (by norm_num)
      (by norm_num)
  · rw [hstep]
  · rw [hstep]
  · rw [hstep]
    exact dbl_not_le_nan _

/-- After a call that returns, the state is initialised, its last timestamp is the
sample's and the returned value is its `Kn`. -/
theorem d_updateCeimNode_ok_state (exp : Dbl → Dbl) (st : CeimNodeState)
    (s : SensorSample) (v : Dbl) (hv : (updateCeimNode exp st s).2 = Except.ok v) :
    (updateCeimNode exp st s).1.has_last = true ∧
    (updateCeimNode exp st s).1.t_last = s.timestamp ∧
    (updateCeimNode exp st s).1.Kn = v := by
  rcases d_updateCeimNode_cases exp st s with
    ⟨-, h⟩ | ⟨hl, -, h⟩ | ⟨-, -, -, h⟩ | ⟨c, hl, -, -, -, h⟩ | ⟨c, hl, -, -, -, h⟩ <;>
  rw [h] at hv ⊢
  · injection hv with hv; exact ⟨rfl, rfl, hv⟩
  · injection hv with hv; exact ⟨hl, rfl, hv⟩
  · cases hv
  · injection hv with hv; exact ⟨hl, rfl, hv⟩
  · injection hv with hv; exact ⟨hl, rfl, hv⟩

/-- Claim C7, as amended.  `updateCeimNode` fails if and only if the state is
initialised, the test `dt <= 0 || flow <= 0` of the source is false (as it is when
`dt > 0` and `flow > 0`, and also when `dt` or `flow` is NaN) and
`computeSupremeConcentration(refs, sample.flow)` fails; nothing else makes it fail, and
the error that escapes is the resolver's own "no admissible limits" error. -/
theorem C7_fails_iff_test_false_and_resolver_fails (exp : Dbl → Dbl) (st : CeimNodeState)
    (s : SensorSample) :
    ((∃ e, (updateCeimNode exp st s).2 = Except.error e) ↔
      st.has_last = true ∧ ¬ (s.timestamp - st.t_last ≤ 0 ∨ s.flow ≤ 0) ∧
        ∃ e, computeSupremeConcentration st.refs s.flow = Except.error e) ∧
    (∀ e, (updateCeimNode exp st s).2 = Except.error e →
      e = noAdmissibleLimits ∧
        computeSupremeConcentration st.refs s.flow = Except.error e) ∧
    (¬ (s.timestamp - st.t_last ≤ 0 ∨ s.flow ≤ 0) ↔
      (s.timestamp - st.t_last = nan ∨ (0 : Dbl) < s.timestamp - st.t_last) ∧
        (s.flow = nan ∨ (0 : Dbl) < s.flow)) := by
  have key : ∀ e, (updateCeimNode exp st s).2 = Except.error e →
      st.has_last = true ∧ ¬ (s.timestamp - st.t_last ≤ 0 ∨ s.flow ≤ 0) ∧
        e = noAdmissibleLimits ∧
        computeSupremeConcentration st.refs s.flow = Except.error e := by
    intro e he
    rcases d_updateCeimNode_cases exp st s with
      ⟨-, h⟩ | ⟨-, -, h⟩ | ⟨hl, hgo, hres, h⟩ | ⟨c, -, -, -, -, h⟩ | ⟨c, -, -, -, -, h⟩
    · rw [h] at he; cases he
    · rw [h] at he; cases he
    · rw [h] at he
      injection he with he
      subst he
      exact ⟨hl, hgo, rfl, hres⟩
    · rw [h] at he; cases he
    · rw [h] at he; cases he
  refine ⟨⟨?_, ?_⟩, ?_, ?_⟩
  · rintro ⟨e, he⟩
    obtain ⟨hl, hgo, -, hres⟩ := key e he
    exact ⟨hl, hgo, e, hres⟩
  · rintro ⟨hl, hgo, e, hres⟩
    exact ⟨e, by rw [d_updateCeimNode_throw exp st s hl hgo e hres]⟩
  · intro e he
    obtain ⟨-, -, h1, h2⟩ := key e he
    exact ⟨h1, h2⟩
  · constructor
    · intro h
      rw [not_or] at h
      exact ⟨dbl_nan_or_pos_of_not_le h.1, dbl_nan_or_pos_of_not_le h.2⟩
    · rintro ⟨h1, h2⟩ (h | h)
      · rcases h1 with h1 | h1
        · rw [h1] at h; exact dbl_not_nan_le _ h
        · exact dbl_not_le_of_lt h1 h
      · rcases h2 with h2 | h2
        · rw [h2] at h; exact dbl_not_nan_le _ h
        · exact dbl_not_le_of_lt h2 h

/-- Examples of C7: the started node whose references admit no limit fails on the sample
`(C = 2, Q = 1, t = 10)` with the resolver's error; the started node with
`hazardWeight = 3` and `Cref_EPA = 1` does not fail on it. -/
theorem C7_fails_iff_test_false_and_resolver_fails_witness :
    (updateCeimNode expStep (startedWith 3 unsetRefs) ⟨2, 1, 10⟩).2 =
      Except.error noAdmissibleLimits ∧
    ¬ ∃ e, (updateCeimNode expStep (startedWith 3 (epaOnly 1)) ⟨2, 1, 10⟩).2 =
      Except.error e := by
  have hgo : ¬ ((10 : Dbl) - 0 ≤ 0 ∨ (1 : Dbl) ≤ 0) := by
    rw [dbl_ten_sub_zero]; decide
  constructor
  · obtain ⟨e, he⟩ :=
      (C7_fails_iff_test_false_and_resolver_fails expStep (startedWith 3 unsetRefs)
        ⟨2, 1, 10⟩).1.mpr ⟨rfl, hgo, noAdmissibleLimits, d_computeSupremeConcentration_unset 1⟩
    have h := ((C7_fails_iff_test_false_and_resolver_fails expStep
      (startedWith 3 unsetRefs) ⟨2, 1, 10⟩).2.1 e he).1
    rw [he, h]
  · intro hex
    obtain ⟨-, -, e, he⟩ :=
      (C7_fails_iff_test_false_and_resolver_fails expStep (startedWith 3 (epaOnly 1))
        ⟨2, 1, 10⟩).1.mp hex
    have h1 : computeSupremeConcentration (epaOnly 1) 1 = Except.error e := he
    rw [d_computeSupremeConcentration_epaOnly 1 1 (by decide)] at h1
    cases h1

/-- Counterexample to C7 as stated.  The started node with only `Cref_EU = 5` set receives
the sample `(C = 2, Q = NaN, t = 10)`.  `sample.flow > 0` is false, so the claim says the
call does not fail; but `NaN <= 0` is false too, the sample passes the test of the
source, the resolver finds no admissible limit and the call throws. -/
theorem C7_counterexample_nan_flow :
    (updateCeimNode expStep
        (startedWith 3 { Cref_EPA := 0, Cref_EU := 5, Cref_WHO := 0, IR := 0, BW := 0 })
        ⟨2, nan, 10⟩).2 = Except.error noAdmissibleLimits ∧
    ¬ ((0 : Dbl) < (⟨2, nan, 10⟩ : SensorSample).flow) := by
  have hgo : ¬ ((10 : Dbl) - 0 ≤ 0 ∨ (nan : Dbl) ≤ 0) := by
    rw [dbl_ten_sub_zero]; decide
  refine ⟨?_, dbl_not_lt_nan _⟩
  rw [d_updateCeimNode_throw expStep _ ⟨2, nan, 10⟩ rfl hgo noAdmissibleLimits
    (d_computeSupremeConcentration_euOnly 5 nan (dbl_not_lt_nan _))]

/-- Claim C12, as amended.  For two samples with the same finite timestamp, if the call
of `updateCeimNode` on the first succeeds then the following call on the second succeeds
too and leaves `Kn` at its value after the first call, whatever the concentrations,
flows and references. -/
theorem C12_same_finite_timestamp_skips (exp : Dbl → Dbl) (st : CeimNodeState)
    (s1 s2 : SensorSample) (v1 : Dbl) (t : ℚ) (hts : s1.timestamp = s2.timestamp)
    (hfin : s1.timestamp = fin t)
    (h1 : (updateCeimNode exp st s1).2 = Except.ok v1) :
    (updateCeimNode exp (updateCeimNode exp st s1).1 s2).2 =
      Except.ok (updateCeimNode exp st s1).1.Kn ∧
    (updateCeimNode exp (updateCeimNode exp st s1).1 s2).1.Kn =
      (updateCeimNode exp st s1).1.Kn ∧
    (updateCeimNode exp (updateCeimNode exp st s1).1 s2).2 = Except.ok v1 := by
  obtain ⟨hl, ht, hk⟩ := d_updateCeimNode_ok_state exp st s1 v1 h1
  have hskip : s2.timestamp - (updateCeimNode exp st s1).1.t_last ≤ 0 ∨ s2.flow ≤ 0 := by
    left
    rw [ht, ← hts, hfin, dbl_sub_self_fin]
    decide
  rw [d_updateCeimNode_skip exp _ s2 hl hskip]
  exact ⟨rfl, rfl, by rw [hk]⟩

/-- Witness of C12: a fresh node receives `(C = 2, Q = 1, t = 10)`, which returns `0`, and
then `(C = 9, Q = 4, t = 10)`, which returns `0` again. -/
theorem C12_same_finite_timestamp_skips_witness :
    (updateCeimNode expStep (CeimNodeState.fresh (epaOnly 1)) ⟨2, 1, 10⟩).2 = Except.ok 0 ∧
    (updateCeimNode expStep
        (updateCeimNode expStep (CeimNodeState.fresh (epaOnly 1)) ⟨2, 1, 10⟩).1
        ⟨9, 4, 10⟩).2 = Except.ok 0 :=
  have hv : (updateCeimNode expStep (CeimNodeState.fresh (epaOnly 1)) ⟨2, 1, 10⟩).2 =
      Except.ok 0 := by
    rw [d_updateCeimNode_first expStep _ _ rfl]
    rfl
  ⟨hv, (C12_same_finite_timestamp_skips expStep (CeimNodeState.fresh (epaOnly 1))
    ⟨2, 1, 10⟩ ⟨9, 4, 10⟩ 0 10 rfl (dbl_ofNat_eq 10) hv).2.2⟩

/-- Counterexample to C12 as stated.  A fresh node whose references admit no limit
receives twice the sample `(C = 2, Q = 1, t = +∞)`.  The first call succeeds and records
`t_last = +∞`; in the second `dt = ∞ - ∞` is NaN, the test `dt <= 0` is false, the sample
is not skipped and the call throws. -/
theorem C12_counterexample_infinite_timestamp :
    (updateCeimNode expStep (CeimNodeState.fresh unsetRefs) ⟨2, 1, inf false⟩).2 =
      Except.ok 0 ∧
    (updateCeimNode expStep
        (updateCeimNode expStep (CeimNodeState.fresh unsetRefs) ⟨2, 1, inf false⟩).1
        ⟨2, 1, inf false⟩).2 = Except.error noAdmissibleLimits := by
  have h1 := d_updateCeimNode_first expStep (CeimNodeState.fresh unsetRefs)
    ⟨2, 1, inf false⟩ rfl
  rw [h1]
  refine ⟨rfl, ?_⟩
  have hgo : ¬ ((inf false : Dbl) - inf false ≤ 0 ∨ (1 : Dbl) ≤ 0) := by decide
  rw [d_updateCeimNode_throw expStep _ ⟨2, 1, inf false⟩ rfl hgo noAdmissibleLimits
    (d_computeSupremeConcentration_unset 1)]

/-! ## The flattened variant in double arithmetic -/

theorem d_updateNodeImpact_first (exp : Dbl → Dbl) (st : NodeImpactState) (s : SensorSample)
    (hl : st.haslast = false) :
    updateNodeImpact exp st s =
      ({ st with tlast := s.timestamp, haslast := true }, Except.ok st.Kn) := by
  simp [updateNodeImpact, hl]

theorem d_updateNodeImpact_skip (exp : Dbl → Dbl) (st : NodeImpactState) (s : SensorSample)
    (hl : st.haslast = true) (hdt : s.timestamp - st.tlast ≤ 0) :
    updateNodeImpact exp st s = ({ st with tlast := s.timestamp }, Except.ok st.Kn) := by
  simp only [updateNodeImpact, hl, Bool.not_true, Bool.false_eq_true, if_false, if_pos hdt]

theorem d_updateNodeImpact_throw (exp : Dbl → Dbl) (st : NodeImpactState) (s : SensorSample)
    (hl : st.haslast = true) (hdt : ¬ (s.timestamp - st.tlast ≤ 0)) (e : Error)
    (hres : computeSupremeConcentration6 st.Cepa st.Leu st.Dwho s.flow st.IR st.BW =
      Except.error e) :
    updateNodeImpact exp st s = (st, Except.error e) := by
  simp only [updateNodeImpact, hl, Bool.not_true, Bool.false_eq_true, if_false,
    if_neg hdt, hres]

theorem d_flatDeltaC_eq (exp : Dbl → Dbl) (st : NodeImpactState) (s : SensorSample)
    (Csup : Dbl) :
    s.concentration - stdMin (s.concentration * exp (-st.k * (st.volume / s.flow))) Csup =
      flatDeltaCOf exp st s Csup := rfl

theorem d_updateNodeImpact_no_exceedance (exp : Dbl → Dbl) (st : NodeImpactState)
    (s : SensorSample) (hl : st.haslast = true) (hdt : ¬ (s.timestamp - st.tlast ≤ 0))
    (Csup : Dbl)
    (hres : computeSupremeConcentration6 st.Cepa st.Leu st.Dwho s.flow st.IR st.BW =
      Except.ok Csup)
    (hd : flatDeltaCOf exp st s Csup ≤ 0) :
    updateNodeImpact exp st s = ({ st with tlast := s.timestamp }, Except.ok st.Kn) := by
  simp only [updateNodeImpact, hl, Bool.not_true, Bool.false_eq_true, if_false,
    if_neg hdt, hres, d_flatDeltaC_eq, if_pos hd]

theorem d_updateNodeImpact_increment (exp : Dbl → Dbl) (st : NodeImpactState)
    (s : SensorSample) (hl : st.haslast = true) (hdt : ¬ (s.timestamp - st.tlast ≤ 0))
    (Csup : Dbl)
    (hres : computeSupremeConcentration6 st.Cepa st.Leu st.Dwho s.flow st.IR st.BW =
      Except.ok Csup)
    (hd : ¬ (flatDeltaCOf exp st s Csup ≤ 0)) :
    updateNodeImpact exp st s =
      ({ st with Kn := st.Kn + flatIncrementOf exp st s Csup, tlast := s.timestamp },
        Except.ok (st.Kn + flatIncrementOf exp st s Csup)) := by
  simp only [updateNodeImpact, hl, Bool.not_true, Bool.false_eq_true, if_false,
    if_neg hdt, hres, d_flatDeltaC_eq, if_neg hd]
  rfl

/-- A double that is `≥ 0` and not `> 0` is zero. -/
theorem dbl_eq_zero_of_nonneg_of_not_pos {x : Dbl} (h0 : (0 : Dbl) ≤ x)
    (h1 : ¬ ((0 : Dbl) < x)) : x = 0 := by
  rw [dbl_zero_eq] at h0 h1 ⊢
  cases x with
  | nan => exact absurd h0 (dbl_not_le_nan _)
  | inf n =>
    simp only [dbl_fin_le_inf] at h0
    simp only [dbl_fin_lt_inf] at h1
    exact absurd h0 h1
  | fin a =>
    have ha : 0 ≤ a := h0
    have hb : ¬ (0 < a) := h1
    rw [le_antisymm (not_lt.mp hb) ha]

/-- Zero divided by a positive double is zero. -/
theorem dbl_zero_div_pos {y : Dbl} (hy : (0 : Dbl) < y) : (0 : Dbl) / y = 0 := by
  rw [dbl_zero_eq] at hy ⊢
  rw [dbl_div_def]
  cases y with
  | nan => exact absurd hy (dbl_not_lt_nan _)
  | inf n => rfl
  | fin b =>
    have hb : 0 < b := hy
    simp only [Dbl.div]
    rw [if_neg (ne_of_gt hb), zero_div, round64_zero]

/-- With `flow > 0`, `volume ≥ 0`, `k ≥ 0`, an exponential that is `1` at `0` and, when
`k` is zero, a finite quotient `volume / flow`, the unguarded `Cout_model` of the
flattened variant is the guarded one of the structured variant. -/
theorem d_flat_coutModel_eq (exp : Dbl → Dbl) (hexp0 : exp 0 = 1) (st : CeimNodeState)
    (ft : NodeImpactState) (s : SensorSample)
    (hvol : st.volume = ft.volume) (hkk : st.k = ft.k)
    (hflow : (0 : Dbl) < s.flow) (hk : (0 : Dbl) ≤ st.k) (hv : (0 : Dbl) ≤ st.volume)
    (htau : (0 : Dbl) < st.k ∨ ∃ t : ℚ, st.volume / s.flow = fin t)
    (hconc : s.concentration.IsValue) :
    s.concentration * exp (-ft.k * (ft.volume / s.flow)) = coutModelOf exp st s := by
  rw [← hvol, ← hkk]
  have htauEq : tauOf st s = st.volume / s.flow := by
    unfold tauOf
    by_cases hpos : (0 : Dbl) < st.volume
    · rw [if_pos hpos]
    · rw [if_neg hpos, dbl_eq_zero_of_nonneg_of_not_pos hv hpos, dbl_zero_div_pos hflow]
  unfold coutModelOf
  by_cases hkpos : (0 : Dbl) < st.k
  · rw [if_pos hkpos, htauEq]
  · rw [if_neg hkpos]
    obtain ⟨t, ht⟩ : ∃ t : ℚ, st.volume / s.flow = fin t := by
      rcases htau with h | h
      · exact absurd h hkpos
      · exact h
    have hk0 : st.k = 0 := dbl_eq_zero_of_nonneg_of_not_pos hk hkpos
    have harg : -st.k * (st.volume / s.flow) = 0 := by
      rw [hk0, ht, dbl_zero_eq, dbl_neg_def, dbl_mul_def]
      simp only [Dbl.neg, Dbl.mul]
      rw [neg_zero, zero_mul, round64_zero]
    rw [harg, hexp0, dbl_mul_one hconc]

theorem expStep_zero : expStep 0 = 1 := by
  rw [dbl_zero_eq]
  simp [expStep]

theorem isValue_stdMin {a b : Dbl} (ha : a.IsValue) (hb : b.IsValue) :
    (stdMin a b).IsValue := by
  unfold stdMin
  split_ifs
  · exact hb
  · exact ha

theorem stdMin_lt_of_left_lt {a b c : Dbl} (h : a < c) : stdMin a b < c := by
  unfold stdMin
  split_ifs with hba
  · exact dbl_lt_trans hba h
  · exact h

theorem isValue_coutModelOf (exp : Dbl → Dbl) (st : CeimNodeState) (s : SensorSample)
    (hconc : s.concentration.IsValue) : (coutModelOf exp st s).IsValue := by
  unfold coutModelOf
  split_ifs
  · exact isValue_mul _ _
  · exact hconc

theorem dbl_one_sub_zero : (1 : Dbl) - 0 = fin 1 := by
  rw [dbl_one_eq, dbl_zero_eq]
  exact eval_sub 1 0 1 1 0 (by norm_num) (by norm_num) (by norm_num) (by norm_num)
    (by norm_num)

/-- On the kinetic nodes (`volume = 1`, `k = 1`) with `flow = 1` and the stand-in
exponential, `exp(-k * tau)` is `1/2`. -/
theorem d_kinetic_decay (w K c t : Dbl) :
    expStep (-(kineticWith w K).k * tauOf (kineticWith w K) ⟨c, 1, t⟩) = fin (1 / 2) := by
  have htau : tauOf (kineticWith w K) ⟨c, 1, t⟩ = fin 1 := by
    unfold tauOf kineticWith
    simp only [gt_iff_lt]
    rw [if_pos (by decide), dbl_one_eq]
    exact eval_div 1 1 1 1 0 (by norm_num) (by norm_num) (by norm_num) (by norm_num)
      (by norm_num) (by norm_num)
  rw [htau]
  show expStep (-(1 : Dbl) * fin 1) = fin (1 / 2)
  have harg : -(1 : Dbl) * fin 1 = fin (-1) := by
    rw [dbl_one_eq, dbl_neg_def]
    simp only [Dbl.neg]
    exact eval_mul (-1) 1 (-1) (-1) 0 (by norm_num) (by norm_num) (by norm_num)
      (by norm_num) (by norm_num)
  rw [harg]
  simp [expStep]

theorem d_kinetic_coutModel (w K : Dbl) (c : ℚ) (t : Dbl) (m k : ℤ)
    (hc : c * (1 / 2) = (m : ℚ) * 2 ^ k) (hm : |m| < 2 ^ 53) (hk : -1074 ≤ k)
    (hk2 : k ≤ 971) :
    coutModelOf expStep (kineticWith w K) ⟨fin c, 1, t⟩ = fin (c * (1 / 2)) := by
  unfold coutModelOf
  simp only [gt_iff_lt]
  rw [if_pos (show (0 : Dbl) < (kineticWith w K).k from (by decide : (0 : Dbl) < 1)), d_kinetic_decay]
  exact eval_mul c (1 / 2) (c * (1 / 2)) m k rfl hc hm hk hk2

/-- For `t0 < t1 < t2` (doubles), a flow `Q > 0` and an initialised state, none of the
three calls of the comparison is skipped by the test `dt <= 0 || flow <= 0`. -/
theorem d_constant_reading_tests (st : CeimNodeState) (Q t1 t2 : Dbl)
    (h0 : st.t_last.IsValue) (h1 : t1.IsValue) (h2 : t2.IsValue)
    (h01 : st.t_last < t1) (h12 : t1 < t2) (hQ : (0 : Dbl) < Q) :
    ¬ (t1 - st.t_last ≤ 0 ∨ Q ≤ 0) ∧ ¬ (t2 - t1 ≤ 0 ∨ Q ≤ 0) ∧
    ¬ (t2 - st.t_last ≤ 0 ∨ Q ≤ 0) := by
  have hQn : ¬ (Q ≤ 0) := dbl_not_le_of_lt hQ
  have ha : ¬ (t1 - st.t_last ≤ 0) := dbl_not_le_of_lt (dbl_sub_pos h0 h1 h01)
  have hb : ¬ (t2 - t1 ≤ 0) := dbl_not_le_of_lt (dbl_sub_pos h1 h2 h12)
  have hc : ¬ (t2 - st.t_last ≤ 0) :=
    dbl_not_le_of_lt (dbl_sub_pos h0 h2 (dbl_lt_trans h01 h12))
  exact ⟨fun h => h.elim ha hQn, fun h => h.elim hb hQn, fun h => h.elim hc hQn⟩

theorem d_constant_reading_throw (exp : Dbl → Dbl) (st : CeimNodeState) (C Q t1 t2 : Dbl)
    (hl : st.has_last = true) (h0 : st.t_last.IsValue) (h1 : t1.IsValue) (h2 : t2.IsValue)
    (h01 : st.t_last < t1) (h12 : t1 < t2) (hQ : (0 : Dbl) < Q) (e : Error)
    (hres : computeSupremeConcentration st.refs Q = Except.error e) :
    updateCeimNode exp st ⟨C, Q, t1⟩ = (st, Except.error e) ∧
    updateCeimNode exp st ⟨C, Q, t2⟩ = (st, Except.error e) := by
  obtain ⟨g1, -, g3⟩ := d_constant_reading_tests st Q t1 t2 h0 h1 h2 h01 h12 hQ
  exact ⟨d_updateCeimNode_throw exp st ⟨C, Q, t1⟩ hl g1 e hres,
    d_updateCeimNode_throw exp st ⟨C, Q, t2⟩ hl g3 e hres⟩

theorem d_constant_reading_no_exceedance (exp : Dbl → Dbl) (st : CeimNodeState)
    (C Q t1 t2 : Dbl)
    (hl : st.has_last = true) (h0 : st.t_last.IsValue) (h1 : t1.IsValue) (h2 : t2.IsValue)
    (h01 : st.t_last < t1) (h12 : t1 < t2) (hQ : (0 : Dbl) < Q) (Csup : Dbl)
    (hres : computeSupremeConcentration st.refs Q = Except.ok Csup)
    (hd : deltaCOf exp st ⟨C, Q, t1⟩ Csup ≤ 0) :
    updateCeimNode exp st ⟨C, Q, t1⟩ = ({ st with t_last := t1 }, Except.ok st.Kn) ∧
    updateCeimNode exp (updateCeimNode exp st ⟨C, Q, t1⟩).1 ⟨C, Q, t2⟩ =
      ({ st with t_last := t2 }, Except.ok st.Kn) ∧
    updateCeimNode exp st ⟨C, Q, t2⟩ = ({ st with t_last := t2 }, Except.ok st.Kn) := by
  obtain ⟨g1, g2, g3⟩ := d_constant_reading_tests st Q t1 t2 h0 h1 h2 h01 h12 hQ
  have e1 := d_updateCeimNode_no_exceedance exp st ⟨C, Q, t1⟩ hl g1 Csup hres hd
  have e3 := d_updateCeimNode_no_exceedance exp st ⟨C, Q, t2⟩ hl g3 Csup hres hd
  refine ⟨e1, ?_, e3⟩
  rw [e1]
  exact d_updateCeimNode_no_exceedance exp { st with t_last := t1 } ⟨C, Q, t2⟩ hl g2 Csup
    hres hd

theorem d_constant_reading_increment (exp : Dbl → Dbl) (st : CeimNodeState)
    (C Q t1 t2 : Dbl)
    (hl : st.has_last = true) (h0 : st.t_last.IsValue) (h1 : t1.IsValue) (h2 : t2.IsValue)
    (h01 : st.t_last < t1) (h12 : t1 < t2) (hQ : (0 : Dbl) < Q) (Csup : Dbl)
    (hres : computeSupremeConcentration st.refs Q = Except.ok Csup)
    (hd : ¬ (deltaCOf exp st ⟨C, Q, t1⟩ Csup ≤ 0)) :
    updateCeimNode exp st ⟨C, Q, t1⟩ =
      ({ st with Kn := st.Kn + incrementOf exp st ⟨C, Q, t1⟩ Csup, t_last := t1 },
        Except.ok (st.Kn + incrementOf exp st ⟨C, Q, t1⟩ Csup)) ∧
    updateCeimNode exp (updateCeimNode exp st ⟨C, Q, t1⟩).1 ⟨C, Q, t2⟩ =
      ({ st with
          Kn := st.Kn + incrementOf exp st ⟨C, Q, t1⟩ Csup +
            incrementOf exp { st with t_last := t1 } ⟨C, Q, t2⟩ Csup,
          t_last := t2 },
        Except.ok (st.Kn + incrementOf exp st ⟨C, Q, t1⟩ Csup +
          incrementOf exp { st with t_last := t1 } ⟨C, Q, t2⟩ Csup)) ∧
    updateCeimNode exp st ⟨C, Q, t2⟩ =
      ({ st with Kn := st.Kn + incrementOf exp st ⟨C, Q, t2⟩ Csup, t_last := t2 },
        Except.ok (st.Kn + incrementOf exp st ⟨C, Q, t2⟩ Csup)) := by
  obtain ⟨g1, g2, g3⟩ := d_constant_reading_tests st Q t1 t2 h0 h1 h2 h01 h12 hQ
  have e1 := d_updateCeimNode_increment exp st ⟨C, Q, t1⟩ hl g1 Csup hres hd
  have e3 := d_updateCeimNode_increment exp st ⟨C, Q, t2⟩ hl g3 Csup hres hd
  refine ⟨e1, ?_, e3⟩
  rw [e1]
  exact d_updateCeimNode_increment exp
    { st with Kn := st.Kn + incrementOf exp st ⟨C, Q, t1⟩ Csup, t_last := t1 }
    ⟨C, Q, t2⟩ hl g2 Csup hres hd

/-- Claim C19, as amended.  On an initialised state with last timestamp `t0` and for
doubles `t0 < t1 < t2` and a flow `Q > 0`, feed the constant reading `(C, Q)` at `t1` and
then at `t2`, or only at `t2`.  One sequence fails if and only if the other does, and
then the state is left as it was.  Otherwise both end with `t_last = t2`; when
`deltaC ≤ 0` both leave `Kn` unchanged and the final states are equal; when `deltaC > 0`
the two calls leave `(Kn + inc(t0, t1)) + inc(t1, t2)` and the single call leaves
`Kn + inc(t0, t2)`, where `inc(a, b) = hazardWeight * (deltaC / Csup) * Q * (b - a)` is
computed in double arithmetic: these two sums are not equal in general. -/
theorem C19_two_calls_add_two_increments (exp : Dbl → Dbl) (st : CeimNodeState)
    (C Q t1 t2 : Dbl)
    (hl : st.has_last = true) (h0 : st.t_last.IsValue) (h1 : t1.IsValue) (h2 : t2.IsValue)
    (h01 : st.t_last < t1) (h12 : t1 < t2) (hQ : (0 : Dbl) < Q) :
    (((∃ e, (updateCeimNode exp st ⟨C, Q, t1⟩).2 = Except.error e) ∨
        ∃ e, (updateCeimNode exp (updateCeimNode exp st ⟨C, Q, t1⟩).1 ⟨C, Q, t2⟩).2 =
          Except.error e) ↔
      ∃ e, (updateCeimNode exp st ⟨C, Q, t2⟩).2 = Except.error e) ∧
    ((∃ e, (updateCeimNode exp st ⟨C, Q, t2⟩).2 = Except.error e) →
      (updateCeimNode exp st ⟨C, Q, t1⟩).1 = st ∧
      (updateCeimNode exp st ⟨C, Q, t2⟩).1 = st) ∧
    (∀ Csup, computeSupremeConcentration st.refs Q = Except.ok Csup →
      (deltaCOf exp st ⟨C, Q, t1⟩ Csup ≤ 0 →
        updateCeimNode exp (updateCeimNode exp st ⟨C, Q, t1⟩).1 ⟨C, Q, t2⟩ =
          ({ st with t_last := t2 }, Except.ok st.Kn) ∧
        updateCeimNode exp st ⟨C, Q, t2⟩ = ({ st with t_last := t2 }, Except.ok st.Kn)) ∧
      (¬ (deltaCOf exp st ⟨C, Q, t1⟩ Csup ≤ 0) →
        updateCeimNode exp (updateCeimNode exp st ⟨C, Q, t1⟩).1 ⟨C, Q, t2⟩ =
          ({ st with
              Kn := st.Kn + incrementOf exp st ⟨C, Q, t1⟩ Csup +
                incrementOf exp { st with t_last := t1 } ⟨C, Q, t2⟩ Csup,
              t_last := t2 },
            Except.ok (st.Kn + incrementOf exp st ⟨C, Q, t1⟩ Csup +
              incrementOf exp { st with t_last := t1 } ⟨C, Q, t2⟩ Csup)) ∧
        updateCeimNode exp st ⟨C, Q, t2⟩ =
          ({ st with Kn := st.Kn + incrementOf exp st ⟨C, Q, t2⟩ Csup, t_last := t2 },
            Except.ok (st.Kn + incrementOf exp st ⟨C, Q, t2⟩ Csup)))) := by
  have hok : ∀ Csup, computeSupremeConcentration st.refs Q = Except.ok Csup →
      ∃ v1 v12 v2, (updateCeimNode exp st ⟨C, Q, t1⟩).2 = Except.ok v1 ∧
        (updateCeimNode exp (updateCeimNode exp st ⟨C, Q, t1⟩).1 ⟨C, Q, t2⟩).2 =
          Except.ok v12 ∧
        (updateCeimNode exp st ⟨C, Q, t2⟩).2 = Except.ok v2 := by
    intro Csup hres
    by_cases hd : deltaCOf exp st ⟨C, Q, t1⟩ Csup ≤ 0
    · obtain ⟨e1, e2, e3⟩ :=
        d_constant_reading_no_exceedance exp st C Q t1 t2 hl h0 h1 h2 h01 h12 hQ Csup hres hd
      exact ⟨_, _, _, congrArg Prod.snd e1, congrArg Prod.snd e2, congrArg Prod.snd e3⟩
    · obtain ⟨e1, e2, e3⟩ :=
        d_constant_reading_increment exp st C Q t1 t2 hl h0 h1 h2 h01 h12 hQ Csup hres hd
      exact ⟨_, _, _, congrArg Prod.snd e1, congrArg Prod.snd e2, congrArg Prod.snd e3⟩
  refine ⟨?_, ?_, ?_⟩
  · cases hres : computeSupremeConcentration st.refs Q with
    | error e =>
      obtain ⟨e1, e3⟩ :=
        d_constant_reading_throw exp st C Q t1 t2 hl h0 h1 h2 h01 h12 hQ e hres
      constructor
      · intro _
        exact ⟨e, congrArg Prod.snd e3⟩
      · intro _
        exact Or.inl ⟨e, congrArg Prod.snd e1⟩
    | ok Csup =>
      obtain ⟨v1, v12, v2, hv1, hv12, hv2⟩ := hok Csup hres
      constructor
      · rintro (⟨e, he⟩ | ⟨e, he⟩)
        · rw [hv1] at he; cases he
        · rw [hv12] at he; cases he
      · rintro ⟨e, he⟩
        rw [hv2] at he; cases he
  · rintro ⟨e, he⟩
    cases hres : computeSupremeConcentration st.refs Q with
    | error e' =>
      obtain ⟨e1, e3⟩ :=
        d_constant_reading_throw exp st C Q t1 t2 hl h0 h1 h2 h01 h12 hQ e' hres
      exact ⟨congrArg Prod.fst e1, congrArg Prod.fst e3⟩
    | ok Csup =>
      obtain ⟨v1, v12, v2, hv1, hv12, hv2⟩ := hok Csup hres
      rw [hv2] at he; cases he
  · intro Csup hres
    constructor
    · intro hd
      exact (d_constant_reading_no_exceedance exp st C Q t1 t2 hl h0 h1 h2 h01 h12 hQ Csup
        hres hd).2
    · intro hd
      exact (d_constant_reading_increment exp st C Q t1 t2 hl h0 h1 h2 h01 h12 hQ Csup
        hres hd).2

/-! ### Evaluation of the constant-reading examples -/

/-- On a started node without kinetic model, for a reading `C` above the limit `Csup`,
`deltaC` is `C - Csup`. -/
theorem d_started_deltaC (exp : Dbl → Dbl) (w : Dbl) (refs : JurisdictionRefs)
    (C Q t Csup : Dbl) (h : Csup < C) :
    deltaCOf exp (startedWith w refs) ⟨C, Q, t⟩ Csup = C - Csup := by
  unfold deltaCOf
  rw [d_coutModelOf_of_k_zero exp _ _ rfl]
  unfold stdMin
  simp only []
  rw [if_pos h]

theorem round64_third :
    round64 (1 / 3) = fin (6004799503160661 * 2 ^ (-54 : ℤ)) := by
  have h := round64_eval (q := (1 : ℚ) / 3) (-2) 6004799503160661 (by norm_num)
    (by norm_num) (Or.inr (by norm_num)) (by norm_num)
    (rne_eq_of_abs_lt _ _ (by rw [abs_lt]; constructor <;> norm_num)) (by norm_num)
  rw [h]
  norm_num

theorem round64_five_thirds :
    round64 (6004799503160661 * 2 ^ (-54 : ℤ) * 5) =
      fin (7505999378950826 * 2 ^ (-52 : ℤ)) := by
  have h := round64_eval (q := (6004799503160661 : ℚ) * 2 ^ (-54 : ℤ) * 5) 0
    7505999378950826 (by norm_num) (by norm_num) (Or.inr (by norm_num)) (by norm_num)
    (rne_eq_of_abs_lt _ _ (by rw [abs_lt]; constructor <;> norm_num)) (by norm_num)
  rw [h]
  norm_num

theorem round64_third_add_five_thirds :
    round64 (6004799503160661 * 2 ^ (-54 : ℤ) + 7505999378950826 * 2 ^ (-52 : ℤ)) =
      fin (9007199254740991 * 2 ^ (-52 : ℤ)) := by
  have h := round64_eval
    (q := (6004799503160661 : ℚ) * 2 ^ (-54 : ℤ) + 7505999378950826 * 2 ^ (-52 : ℤ)) 0
    9007199254740991 (by norm_num) (by norm_num) (Or.inr (by norm_num)) (by norm_num)
    (rne_eq_of_abs_lt _ _ (by rw [abs_lt]; constructor <;> norm_num)) (by norm_num)
  rw [h]
  norm_num

/-- Six times the double nearest to `1/3` lies half-way between two doubles and rounds
to the even one, `2`. -/
theorem round64_six_thirds :
    round64 (6004799503160661 * 2 ^ (-54 : ℤ) * 6) = fin 2 := by
  have hq : (6004799503160661 : ℚ) * 2 ^ (-54 : ℤ) * 6 / 2 ^ ((0 : ℤ) - 52) =
      ((9007199254740991 : ℤ) : ℚ) + 1 / 2 := by norm_num
  have h := round64_eval (q := (6004799503160661 : ℚ) * 2 ^ (-54 : ℤ) * 6) 0
    (9007199254740991 + 1) (by norm_num) (by norm_num) (Or.inr (by norm_num))
    (by norm_num)
    (by rw [hq]; exact rne_half_odd 9007199254740991 (by norm_num)) (by norm_num)
  rw [h]
  norm_num

theorem dbl_small_sub (a : ℕ) [a.AtLeastTwo] (b c : ℚ) (m : ℤ)
    (h : (OfNat.ofNat a : ℚ) - b = c) (hc : c = (m : ℚ) * 2 ^ (0 : ℤ))
    (hm : |m| < 2 ^ 53) : (OfNat.ofNat a : Dbl) - fin b = fin c := by
  rw [dbl_ofNat_eq]
  exact eval_sub _ _ c m 0 h hc hm (by norm_num) (by norm_num)

/-- Witness of C19: the started node (`hazardWeight = 3`, `Cref_EPA = 1`, `t_last = 0`,
`Kn = 0`) receives the reading `C = 2`, `Q = 1` at `t = 4` and then at `t = 10`, or only
at `t = 10`.  Here every intermediate value is a small integer: the two calls leave
`(0 + 12) + 18`, the single call `0 + 30`, and the final states are equal. -/
theorem C19_two_calls_add_two_increments_witness :
    (updateCeimNode expStep
        (updateCeimNode expStep (startedWith 3 (epaOnly 1)) ⟨2, 1, 4⟩).1 ⟨2, 1, 10⟩).1.Kn =
      fin 30 ∧
    (updateCeimNode expStep (startedWith 3 (epaOnly 1)) ⟨2, 1, 10⟩).1.Kn = fin 30 ∧
    (updateCeimNode expStep
        (updateCeimNode expStep (startedWith 3 (epaOnly 1)) ⟨2, 1, 4⟩).1 ⟨2, 1, 10⟩).1 =
      (updateCeimNode expStep (startedWith 3 (epaOnly 1)) ⟨2, 1, 10⟩).1 := by
  have hres := d_computeSupremeConcentration_epaOnly 1 1 (by decide)
  have hsub : (2 : Dbl) - 1 = fin 1 := by
    rw [dbl_one_eq]
    exact dbl_small_sub 2 1 1 1 (by norm_num) (by norm_num) (by norm_num)
  have hdelta : ∀ t, deltaCOf expStep (startedWith 3 (epaOnly 1)) ⟨2, 1, t⟩ 1 = fin 1 := by
    intro t
    rw [d_started_deltaC expStep 3 (epaOnly 1) 2 1 t 1 (by decide), hsub]
  have hrate : (3 : Dbl) * (fin 1 / 1) * 1 = fin 3 := by
    rw [dbl_one_eq, dbl_ofNat_eq,
      eval_div 1 1 1 1 0 (by norm_num) (by norm_num) (by norm_num) (by norm_num)
        (by norm_num) (by norm_num),
      eval_mul 3 1 3 3 0 (by norm_num) (by norm_num) (by norm_num) (by norm_num)
        (by norm_num)]
    exact eval_mul 3 1 3 3 0 (by norm_num) (by norm_num) (by norm_num) (by norm_num)
      (by norm_num)
  have hinc1 : incrementOf expStep (startedWith 3 (epaOnly 1)) ⟨2, 1, 4⟩ 1 = fin 12 := by
    unfold incrementOf
    rw [hdelta]
    show (3 : Dbl) * (fin 1 / 1) * 1 * ((4 : Dbl) - 0) = fin 12
    rw [hrate, dbl_zero_eq,
      dbl_small_sub 4 0 4 4 (by norm_num) (by norm_num) (by norm_num)]
    exact eval_mul 3 4 12 12 0 (by norm_num) (by norm_num) (by norm_num) (by norm_num)
      (by norm_num)
  have hinc2 : incrementOf expStep { startedWith 3 (epaOnly 1) with t_last := 4 }
      ⟨2, 1, 10⟩ 1 = fin 18 := by
    show (3 : Dbl) * (deltaCOf expStep (startedWith 3 (epaOnly 1)) ⟨2, 1, 10⟩ 1 / 1) * 1 *
      ((10 : Dbl) - 4) = fin 18
    rw [hdelta, hrate, dbl_ofNat_eq 4,
      dbl_small_sub 10 4 6 6 (by norm_num) (by norm_num) (by norm_num)]
    exact eval_mul 3 6 18 18 0 (by norm_num) (by norm_num) (by norm_num) (by norm_num)
      (by norm_num)
  have hinc3 : incrementOf expStep (startedWith 3 (epaOnly 1)) ⟨2, 1, 10⟩ 1 = fin 30 := by
    unfold incrementOf
    rw [hdelta]
    show (3 : Dbl) * (fin 1 / 1) * 1 * ((10 : Dbl) - 0) = fin 30
    rw [hrate, dbl_ten_sub_zero]
    exact eval_mul 3 10 30 30 0 (by norm_num) (by norm_num) (by norm_num) (by norm_num)
      (by norm_num)
  have hsum2 : (startedWith 3 (epaOnly 1)).Kn + fin 12 + fin 18 = fin 30 := by
    show (0 : Dbl) + fin 12 + fin 18 = fin 30
    rw [dbl_zero_eq,
      eval_add 0 12 12 12 0 (by norm_num) (by norm_num) (by norm_num) (by norm_num)
        (by norm_num)]
    exact eval_add 12 18 30 30 0 (by norm_num) (by norm_num) (by norm_num) (by norm_num)
      (by norm_num)
  have hsum1 : (startedWith 3 (epaOnly 1)).Kn + fin 30 = fin 30 := by
    show (0 : Dbl) + fin 30 = fin 30
    rw [dbl_zero_eq]
    exact eval_add 0 30 30 30 0 (by norm_num) (by norm_num) (by norm_num) (by norm_num)
      (by norm_num)
  have h := ((C19_two_calls_add_two_increments expStep (startedWith 3 (epaOnly 1)) 2 1 4 10
    rfl isValue_zero (isValue_ofNat 4 (by norm_num)) (isValue_ofNat 10 (by norm_num))
    (by decide) (by decide) (by decide)).2.2 1 hres).2 (by rw [hdelta]; decide)
  rw [hinc1, hinc2, hinc3, hsum2, hsum1] at h
  rw [h.1, h.2]
  exact ⟨rfl, rfl, rfl⟩

/-- Counterexample to C19 as stated.  The started node with `hazardWeight = 1` and
`Cref_EPA = 3` (`t_last = 0`, `Kn = 0`) receives the reading `C = 4`, `Q = 1`:
`deltaC / Csup` is the double nearest to `1/3`.  Fed at `t = 1` and then at `t = 6`, the
two increments add up to `9007199254740991 * 2 ^ (-52)`, the double just below `2`; fed
once at `t = 6`, the increment rounds to `2`.  The final states differ in `Kn`. -/
theorem C19_counterexample_rounding :
    ((startedWith 1 (epaOnly 3)).has_last = true ∧
      (startedWith 1 (epaOnly 3)).t_last < (1 : Dbl) ∧ (1 : Dbl) < 6 ∧ (0 : Dbl) < 1) ∧
    (updateCeimNode expStep
        (updateCeimNode expStep (startedWith 1 (epaOnly 3)) ⟨4, 1, 1⟩).1 ⟨4, 1, 6⟩).1.Kn =
      fin (9007199254740991 * 2 ^ (-52 : ℤ)) ∧
    (updateCeimNode expStep (startedWith 1 (epaOnly 3)) ⟨4, 1, 6⟩).1.Kn = fin 2 ∧
    (updateCeimNode expStep
        (updateCeimNode expStep (startedWith 1 (epaOnly 3)) ⟨4, 1, 1⟩).1 ⟨4, 1, 6⟩).1 ≠
      (updateCeimNode expStep (startedWith 1 (epaOnly 3)) ⟨4, 1, 6⟩).1 := by
  have hres := d_computeSupremeConcentration_epaOnly 3 1 (by decide)
  have hsub : (4 : Dbl) - 3 = fin 1 := by
    rw [dbl_ofNat_eq 3]
    exact dbl_small_sub 4 3 1 1 (by norm_num) (by norm_num) (by norm_num)
  have hdelta : ∀ t, deltaCOf expStep (startedWith 1 (epaOnly 3)) ⟨4, 1, t⟩ 3 = fin 1 := by
    intro t
    rw [d_started_deltaC expStep 1 (epaOnly 3) 4 1 t 3 (by decide), hsub]
  have hrate : (1 : Dbl) * (fin 1 / 3) * 1 = fin (6004799503160661 * 2 ^ (-54 : ℤ)) := by
    rw [dbl_one_eq, dbl_ofNat_eq, dbl_fin_div _ _ (by norm_num), round64_third,
      eval_mul 1 (6004799503160661 * 2 ^ (-54 : ℤ)) (6004799503160661 * 2 ^ (-54 : ℤ))
        6004799503160661 (-54) (by norm_num) (by norm_num) (by norm_num) (by norm_num)
        (by norm_num)]
    exact eval_mul (6004799503160661 * 2 ^ (-54 : ℤ)) 1 (6004799503160661 * 2 ^ (-54 : ℤ))
      6004799503160661 (-54) (by norm_num) (by norm_num) (by norm_num) (by norm_num)
      (by norm_num)
  have hinc1 : incrementOf expStep (startedWith 1 (epaOnly 3)) ⟨4, 1, 1⟩ 3 =
      fin (6004799503160661 * 2 ^ (-54 : ℤ)) := by
    unfold incrementOf
    rw [hdelta]
    show (1 : Dbl) * (fin 1 / 3) * 1 * ((1 : Dbl) - 0) = _
    rw [hrate, dbl_one_sub_zero]
    exact eval_mul (6004799503160661 * 2 ^ (-54 : ℤ)) 1 (6004799503160661 * 2 ^ (-54 : ℤ))
      6004799503160661 (-54) (by norm_num) (by norm_num) (by norm_num) (by norm_num)
      (by norm_num)
  have hinc2 : incrementOf expStep { startedWith 1 (epaOnly 3) with t_last := 1 }
      ⟨4, 1, 6⟩ 3 = fin (7505999378950826 * 2 ^ (-52 : ℤ)) := by
    show (1 : Dbl) * (deltaCOf expStep (startedWith 1 (epaOnly 3)) ⟨4, 1, 6⟩ 3 / 3) * 1 *
      ((6 : Dbl) - 1) = _
    rw [hdelta, hrate, dbl_one_eq,
      dbl_small_sub 6 1 5 5 (by norm_num) (by norm_num) (by norm_num), dbl_fin_mul]
    exact round64_five_thirds
  have hinc3 : incrementOf expStep (startedWith 1 (epaOnly 3)) ⟨4, 1, 6⟩ 3 = fin 2 := by
    unfold incrementOf
    rw [hdelta]
    show (1 : Dbl) * (fin 1 / 3) * 1 * ((6 : Dbl) - 0) = _
    rw [hrate, dbl_zero_eq,
      dbl_small_sub 6 0 6 6 (by norm_num) (by norm_num) (by norm_num), dbl_fin_mul]
    exact round64_six_thirds
  have hsum2 : (startedWith 1 (epaOnly 3)).Kn + fin (6004799503160661 * 2 ^ (-54 : ℤ)) +
      fin (7505999378950826 * 2 ^ (-52 : ℤ)) = fin (9007199254740991 * 2 ^ (-52 : ℤ)) := by
    show (0 : Dbl) + fin (6004799503160661 * 2 ^ (-54 : ℤ)) +
      fin (7505999378950826 * 2 ^ (-52 : ℤ)) = _
    rw [dbl_zero_eq,
      eval_add 0 (6004799503160661 * 2 ^ (-54 : ℤ)) (6004799503160661 * 2 ^ (-54 : ℤ))
        6004799503160661 (-54) (by norm_num) (by norm_num) (by norm_num) (by norm_num)
        (by norm_num), dbl_fin_add]
    exact round64_third_add_five_thirds
  have hsum1 : (startedWith 1 (epaOnly 3)).Kn + fin 2 = fin 2 := by
    show (0 : Dbl) + fin 2 = fin 2
    rw [dbl_zero_eq]
    exact eval_add 0 2 2 2 0 (by norm_num) (by norm_num) (by norm_num) (by norm_num)
      (by norm_num)
  have h := (d_constant_reading_increment expStep (startedWith 1 (epaOnly 3)) 4 1 1 6
    rfl isValue_zero (isValue_fin_of_repr 1 0 (by norm_num) (by norm_num) (by norm_num)
      (by norm_num)) (isValue_ofNat 6 (by norm_num))
    (by decide) (by decide) (by decide) 3 hres (by rw [hdelta]; decide)).2
  rw [hinc1, hinc2, hinc3, hsum2, hsum1] at h
  rw [h.1, h.2]
  refine ⟨⟨rfl, by decide, by decide, by decide⟩, rfl, rfl, ?_⟩
  intro hEq
  have hK := congrArg CeimNodeState.Kn hEq
  have hq : (9007199254740991 : ℚ) * 2 ^ (-52 : ℤ) = 2 := Dbl.fin.inj hK
  norm_num at hq

end F64

end EcoNet
